import Mathlib

/-!
Skinned-model runtime of `final_project_main.cpp`.

A shallow embedding of the animation and skinning code of `struct MyBot`
(`computeGlobalNodeTransform`, `findKeyframeIndex`, `updateAnimation`,
`updateSkinning`, `prepareSkinning`, `update`), of the spatial hash (`hash2i`,
`hash01`, `hashSigned01`), of the tile loops of `renderCloudField` and
`renderCloudFieldDepth`, of `computeLightVP`, of `key_callback` and of the render
calls `Cloud::render` and `MyBot::render`, together with the properties its
specification states.

Modelling conventions

* `float` is modelled by `ℚ`: no infinities and no NaN.  Comparisons, `fmod`,
  `glm::mix`, `glm::clamp` and the matrix product are the exact rational operations.
  The rounding of a result to binary32 is `f32` (round to nearest, ties to even); it is
  applied at the operations whose rounding error decides a property stated below: the
  product and the sum that give the cloud elevation (`cloudY`), the quotient
  `eye_center / CLOUD_SPACING` that gives the base tile of a sweep, and the offset
  `center - lightPosition` of the light direction.
* `std::vector<T>` is a `List T`.  An access outside the vector (undefined
  behaviour in C++) makes the embedded function return `none`.
* `int` is `Int`; vector sizes are assumed to fit an `int`, as the casts
  `(int)times.size()` of the source assume.  The tile loops compute their `int` values
  from the camera position; `SweepInRange` says that these fit 32 bits.
* `glm::mat4` is `Matrix (Fin 4) (Fin 4) ℚ`; the glm column `M[c]` is the column
  `fun r => M r c`.
* Loops and recursion that the source does not bound syntactically carry a fuel
  argument; running out of fuel gives `none`, and the theorems show that the fuel
  supplied is enough.
* `uint32_t` is a `Nat` below `2^32`; every product and sum of the source is
  reduced `% 4294967296`, and the cast of an `int` is `toUInt32`.
* Decimal `float` literals (`0.7f`, `0.35f`, `6.2831853f`) are the decimal
  rationals they spell.
* `glm::length`, `glm::quat_cast`, `glm::normalize` and `glm::slerp` are the fields
  of a parameter record `GlmLib`, and `cosf`/`sinf` those of `TrigLib`.  Theorems
  that need the decomposition of a matrix to recover its factors ask for
  `GlmExact lib`; `exactGlm` is an instance that satisfies it.
* Quaternions are `QuatOf K` over a field `K` of scalars, `Quat` being `QuatOf ℚ`.
  `normalizeQuat` is the algorithm of `glm::normalize` with the square root as a
  parameter, and `interpolateRotation` is the rotation branch of `updateAnimation`; the
  norm of its result is stated over every ordered field with an exact square root, such
  as `ℝ`, because `ℚ` has none.
* The keyframe data of a channel (wrapped time, indices, factor) are computed for every
  channel with at least two timestamps, but they are read only in the translation,
  rotation and scale branches (`channelTRS`).
* `glm::normalize` on `vec3` is `v * inversesqrt(dot(v, v))` with the inverse square
  root as a parameter; `glm::lookAt` and `glm::ortho` follow the glm definitions.
  `LightViewAccurate` says that the three inverse square roots taken at one camera
  position are accurate within one percent, `LightViewExact` that the normalisations
  are exact there; `exactInverseSqrt` is `1 / Rat.sqrt`, exact on rational squares.
* A render call is the list of OpenGL calls it issues (`GlCall`), or `none` when it
  reads outside a vector.
-/

namespace MyBot

/-! # Part 1: the embedding -/

/-! ## Vector access -/

/-- Read `v[i]` for an `int` index: `none` when the index is outside the vector. -/
def vecAt {α : Type} (v : List α) (i : Int) : Option α :=
  if 0 ≤ i then v[i.toNat]? else none

/-! ## Vectors, quaternions and matrices (glm) -/

/-- `glm::vec3`. -/
structure Vec3 where
  x : ℚ
  y : ℚ
  z : ℚ
  deriving DecidableEq, Repr

/-- `glm::vec4`. -/
structure Vec4 where
  x : ℚ
  y : ℚ
  z : ℚ
  w : ℚ
  deriving DecidableEq, Repr

/-- `glm::qua<T>` with scalars in `K`; a `memcpy` of four floats fills `x, y, z, w` in
this order. -/
structure QuatOf (K : Type) where
  x : K
  y : K
  z : K
  w : K
  deriving DecidableEq, Repr

/-- `glm::quat`, the quaternions of the embedding. -/
abbrev Quat := QuatOf ℚ

/-- `glm::mat4`, entry `M r c` being row `r` of the glm column `M[c]`. -/
abbrev Mat4 := Matrix (Fin 4) (Fin 4) ℚ

/-- `glm::mat3`. -/
abbrev Mat3 := Matrix (Fin 3) (Fin 3) ℚ

/-- `glm::vec3(M[c])`: the first three entries of column `c`. -/
def colVec3 (M : Mat4) (c : Fin 4) : Vec3 := ⟨M 0 c, M 1 c, M 2 c⟩

/-- `v / s` for a `glm::vec3` and a scalar. -/
def Vec3.divScalar (v : Vec3) (s : ℚ) : Vec3 := ⟨v.x / s, v.y / s, v.z / s⟩

/-- `glm::mat3(c0, c1, c2)` from three column vectors. -/
def mat3OfCols (c0 c1 c2 : Vec3) : Mat3 :=
  Matrix.of fun r c =>
    let v := if c = 0 then c0 else if c = 1 then c1 else c2
    if r = 0 then v.x else if r = 1 then v.y else v.z

/-- `glm::mix(x, y, a)` on scalars: `x * (1 - a) + y * a`. -/
def mix (x y a : ℚ) : ℚ := x * (1 - a) + y * a

/-- `glm::mix(v0, v1, a)` on `vec3`, component-wise. -/
def mixVec3 (v0 v1 : Vec3) (a : ℚ) : Vec3 :=
  ⟨mix v0.x v1.x a, mix v0.y v1.y a, mix v0.z v1.z a⟩

/-- `glm::clamp(x, minVal, maxVal)`, which is `min(max(x, minVal), maxVal)`. -/
def clamp (x minVal maxVal : ℚ) : ℚ := min (max x minVal) maxVal

/-- `glm::translate(m, v)`: column 3 becomes `m[0]*v.x + m[1]*v.y + m[2]*v.z + m[3]`. -/
def translate (m : Mat4) (v : Vec3) : Mat4 :=
  Matrix.of fun r c =>
    if c = 3 then m r 0 * v.x + m r 1 * v.y + m r 2 * v.z + m r 3 else m r c

/-- `glm::scale(m, v)`: columns 0, 1, 2 are multiplied by `v.x`, `v.y`, `v.z`. -/
def scale (m : Mat4) (v : Vec3) : Mat4 :=
  Matrix.of fun r c =>
    if c = 0 then m r 0 * v.x else if c = 1 then m r 1 * v.y
    else if c = 2 then m r 2 * v.z else m r c

/-- `glm::mat4_cast(q)`: the rotation matrix of a quaternion. -/
def mat4_cast (q : Quat) : Mat4 :=
  !![1 - 2 * (q.y * q.y + q.z * q.z), 2 * (q.x * q.y - q.w * q.z),
      2 * (q.x * q.z + q.w * q.y), 0;
    2 * (q.x * q.y + q.w * q.z), 1 - 2 * (q.x * q.x + q.z * q.z),
      2 * (q.y * q.z - q.w * q.x), 0;
    2 * (q.x * q.z - q.w * q.y), 2 * (q.y * q.z + q.w * q.x),
      1 - 2 * (q.x * q.x + q.y * q.y), 0;
    0, 0, 0, 1]

/-- The glm operations used by `updateAnimation` whose definitions need square roots
or trigonometric functions.  They belong to the glm library, not to this repository,
and are taken as parameters. -/
structure GlmLib where
  /-- `glm::length` on `vec3`. -/
  length : Vec3 → ℚ
  /-- `glm::quat_cast` on `mat3`. -/
  quat_cast : Mat3 → Quat
  /-- `glm::normalize` on `quat`. -/
  normalize : Quat → Quat
  /-- `glm::slerp` on `quat`. -/
  slerp : Quat → Quat → ℚ → Quat

/-- One choice of the library operations, used to evaluate concrete inputs. -/
def sampleGlm : GlmLib where
  length := fun v => max (max |v.x| |v.y|) |v.z|
  quat_cast := fun _ => ⟨0, 0, 0, 1⟩
  normalize := fun q => q
  slerp := fun q0 _ _ => q0

/-- `glm::mat3_cast(q)`: the 3x3 rotation matrix of a quaternion, the upper-left block
of `mat4_cast q`. -/
def mat3_cast (q : Quat) : Mat3 :=
  !![1 - 2 * (q.y * q.y + q.z * q.z), 2 * (q.x * q.y - q.w * q.z),
      2 * (q.x * q.z + q.w * q.y);
    2 * (q.x * q.y + q.w * q.z), 1 - 2 * (q.x * q.x + q.z * q.z),
      2 * (q.y * q.z - q.w * q.x);
    2 * (q.x * q.z - q.w * q.y), 2 * (q.y * q.z + q.w * q.x),
      1 - 2 * (q.x * q.x + q.y * q.y)]

/-- A unit quaternion. -/
def QuatOf.IsUnit (q : Quat) : Prop := q.x * q.x + q.y * q.y + q.z * q.z + q.w * q.w = 1

/-- The library operations return the exact value wherever that value is rational:
`glm::length` gives the Euclidean norm `s` of a vector whenever `s` is a rational number,
and `glm::quat_cast` applied to the rotation matrix of a unit quaternion gives a
quaternion with the same rotation matrix (the quaternion itself or its negative). -/
structure GlmExact (lib : GlmLib) : Prop where
  length_exact : ∀ (v : Vec3) (s : ℚ), 0 ≤ s → s * s = v.x * v.x + v.y * v.y + v.z * v.z →
    lib.length v = s
  quat_cast_exact : ∀ q : Quat, q.IsUnit → mat4_cast (lib.quat_cast (mat3_cast q)) = mat4_cast q

/-- `glm::quat_cast(m)` for a `mat3`, with the square root as a parameter: the largest
of `4w²-1`, `4x²-1`, `4y²-1`, `4z²-1` is selected (the first one on ties) and the other
three components are recovered from the off-diagonal entries. -/
def quatCastWith (sqrt : ℚ → ℚ) (m : Mat3) : Quat :=
  let fourXSquaredMinus1 := m 0 0 - m 1 1 - m 2 2
  let fourYSquaredMinus1 := m 1 1 - m 0 0 - m 2 2
  let fourZSquaredMinus1 := m 2 2 - m 0 0 - m 1 1
  let fourWSquaredMinus1 := m 0 0 + m 1 1 + m 2 2
  let s0 : Nat × ℚ := (0, fourWSquaredMinus1)
  let s1 : Nat × ℚ := if fourXSquaredMinus1 > s0.2 then (1, fourXSquaredMinus1) else s0
  let s2 : Nat × ℚ := if fourYSquaredMinus1 > s1.2 then (2, fourYSquaredMinus1) else s1
  let s3 : Nat × ℚ := if fourZSquaredMinus1 > s2.2 then (3, fourZSquaredMinus1) else s2
  let biggestVal := sqrt (s3.2 + 1) * (1 / 2)
  let mult := (1 / 4) / biggestVal
  if s3.1 = 0 then
    { w := biggestVal, x := (m 2 1 - m 1 2) * mult, y := (m 0 2 - m 2 0) * mult,
      z := (m 1 0 - m 0 1) * mult }
  else if s3.1 = 1 then
    { w := (m 2 1 - m 1 2) * mult, x := biggestVal, y := (m 1 0 + m 0 1) * mult,
      z := (m 0 2 + m 2 0) * mult }
  else if s3.1 = 2 then
    { w := (m 0 2 - m 2 0) * mult, x := (m 1 0 + m 0 1) * mult, y := biggestVal,
      z := (m 2 1 + m 1 2) * mult }
  else
    { w := (m 1 0 - m 0 1) * mult, x := (m 0 2 + m 2 0) * mult,
      y := (m 2 1 + m 1 2) * mult, z := biggestVal }

/-- The squared norm `dot(q, q)` of a quaternion. -/
def QuatOf.normSq {K : Type} [LinearOrderedField K] (q : QuatOf K) : K :=
  q.x * q.x + q.y * q.y + q.z * q.z + q.w * q.w

/-- `glm::normalize(q)` for a quaternion over the scalars `K`, with the square root as a
parameter: `len = sqrt(dot(q, q))`; a quaternion of length `len <= 0` gives the identity
`(w = 1, 0, 0, 0)`, any other one is multiplied by `1 / len`. -/
def normalizeQuat {K : Type} [LinearOrderedField K] (sqrt : K → K) (q : QuatOf K) :
    QuatOf K :=
  let len := sqrt (q.x * q.x + q.y * q.y + q.z * q.z + q.w * q.w)
  if len ≤ 0 then ⟨0, 0, 0, 1⟩
  else ⟨q.x * (1 / len), q.y * (1 / len), q.z * (1 / len), q.w * (1 / len)⟩

/-- Lines 873-875: `q0 = normalize(q0); q1 = normalize(q1);
R = normalize(slerp(q0, q1, factor))`. -/
def interpolateRotation {K : Type} (normalize : QuatOf K → QuatOf K)
    (slerp : QuatOf K → QuatOf K → K → QuatOf K) (q0 q1 : QuatOf K) (factor : K) :
    QuatOf K :=
  let q0 := normalize q0
  let q1 := normalize q1
  normalize (slerp q0 q1 factor)

/-- The library operations evaluated with `Rat.sqrt`, a square root that is exact on the
squares of rational numbers: `glm::length`, `glm::quat_cast` and `glm::normalize` follow
the glm algorithms; `slerp` is the component-wise linear blend that `glm::slerp` itself
uses for nearly parallel quaternions. -/
def exactGlm : GlmLib where
  length := fun v => Rat.sqrt (v.x * v.x + v.y * v.y + v.z * v.z)
  quat_cast := quatCastWith Rat.sqrt
  normalize := normalizeQuat Rat.sqrt
  slerp := fun q0 q1 a => ⟨mix q0.x q1.x a, mix q0.y q1.y a, mix q0.z q1.z a, mix q0.w q1.w a⟩

instance (q : Quat) : Decidable q.IsUnit := by
  unfold QuatOf.IsUnit
  infer_instance

/-- The library operations of `exactGlm` with a `normalize` that returns the identity
quaternion where `Rat.sqrt` is not exact, so that every result of it is a unit
quaternion. -/
def unitGlm : GlmLib where
  length := exactGlm.length
  quat_cast := exactGlm.quat_cast
  normalize := fun q =>
    if (exactGlm.normalize q).IsUnit then exactGlm.normalize q else ⟨0, 0, 0, 1⟩
  slerp := exactGlm.slerp

/-- C `fmod(x, y)`: `x - n * y` with `n` the quotient `x / y` truncated toward zero.
There is no rational result for `y = 0` (the C function returns NaN). -/
def fmod (x y : ℚ) : Option ℚ :=
  if y = 0 then none else some (x - ((x / y).num.tdiv (x / y).den : Int) * y)

/-! ## Rounding to `float` (IEEE 754 binary32) -/

/-- The integer nearest to `q`, the even one of the two when `q` lies half-way between
them. -/
def roundHalfEven (q : ℚ) : Int :=
  if q - ⌊q⌋ < 1 / 2 then ⌊q⌋
  else if 1 / 2 < q - ⌊q⌋ then ⌊q⌋ + 1
  else if ⌊q⌋ % 2 = 0 then ⌊q⌋
  else ⌊q⌋ + 1

/-- The `float` that an arithmetic operation with the exact result `x` returns: `x` is
rounded to the nearest multiple of `2 ^ (e - 23)`, ties to even, where `e` is the binary
exponent of `x` (`2 ^ e ≤ |x| < 2 ^ (e + 1)`), at least the exponent `-126` of the
smallest normal number.  The exponent is not bounded above: the overflow to infinity of
results beyond the largest `float` is not modelled. -/
def f32 (x : ℚ) : ℚ :=
  if x = 0 then 0
  else
    (roundHalfEven (x / 2 ^ (max (Int.log 2 |x|) (-126) - 23)) : ℚ) *
      2 ^ (max (Int.log 2 |x|) (-126) - 23)

/-! ## glTF document and runtime objects -/

/-- The part of `tinygltf::Node` read by the runtime: the child node indices, the
local transform data (`matrix` with 16 entries, or `translation`, `rotation`, `scale`
with 3, 4 and 3 entries; an absent property is an empty vector) and the mesh index (`-1`
for a node without mesh).  Child indices are natural numbers; a negative index would be
outside every vector. -/
structure Node where
  children : List Nat
  matrix : List ℚ := []
  translation : List ℚ := []
  rotation : List ℚ := []
  scale : List ℚ := []
  mesh : Int := -1
  deriving DecidableEq, Repr

/-- The part of `tinygltf::Skin` read by the runtime. -/
structure Skin where
  joints : List Nat
  skeleton : Int
  deriving DecidableEq, Repr

/-- `MyBot::SkinObject`. -/
structure SkinObject where
  inverseBindMatrices : List Mat4
  globalJointTransforms : List Mat4
  jointMatrices : List Mat4

/-- `MyBot::SamplerObject`. -/
structure SamplerObject where
  input : List ℚ
  output : List Vec4
  interpolation : Int

/-- `MyBot::AnimationObject`. -/
structure AnimationObject where
  samplers : List SamplerObject

/-- `tinygltf::AnimationChannel`. -/
structure Channel where
  sampler : Nat
  target_node : Int
  target_path : String

/-- `tinygltf::AnimationSampler` together with the buffer it points to: `outputData`
is the sequence of floats stored from `outputPtr` on, that is the contents of
`model.buffers[..].data` at the offset given by `model.accessors[sampler.output]` and
its buffer view. -/
structure AnimationSampler where
  outputData : List ℚ

/-- `tinygltf::Animation`. -/
structure Animation where
  channels : List Channel
  samplers : List AnimationSampler

/-! ## `findKeyframeIndex` (source lines 768-778) -/

/-- The `while (left <= right)` loop of `findKeyframeIndex`.  One unit of fuel is
spent per evaluation of the loop condition. -/
def findKeyframeLoop (times : List ℚ) (animationTime : ℚ) : Nat → Int → Int → Option Int
  | 0, _, _ => none
  | fuel + 1, left, right =>
    if left ≤ right then
      let mid := (left + right).tdiv 2
      (vecAt times mid).bind fun tm =>
        if mid + 1 < (times.length : Int) ∧ tm ≤ animationTime then
          (vecAt times (mid + 1)).bind fun tn =>
            if animationTime < tn then some mid
            else if tm > animationTime then
              findKeyframeLoop times animationTime fuel left (mid - 1)
            else findKeyframeLoop times animationTime fuel (mid + 1) right
        else if tm > animationTime then
          findKeyframeLoop times animationTime fuel left (mid - 1)
        else findKeyframeLoop times animationTime fuel (mid + 1) right
    else some ((times.length : Int) - 2)

/-- `int findKeyframeIndex(const std::vector<float>& times, float animationTime)`.
The loop starts with `left = 0`, `right = size - 1`; `size + 1` evaluations of the
loop condition are allowed. -/
def findKeyframeIndex (times : List ℚ) (animationTime : ℚ) : Option Int :=
  findKeyframeLoop times animationTime (times.length + 1) 0 ((times.length : Int) - 1)

/-! ## Transform propagation (source lines 718-727) -/

/-- `void computeGlobalNodeTransform(model, localTransforms, nodeIndex, parentTransform,
globalTransforms)`.  The fuel bounds the depth of the recursion, which in the source is
bounded only by the depth of the node hierarchy. -/
def computeGlobalNodeTransform (nodes : List Node) (localTransforms : List Mat4) :
    Nat → Nat → Mat4 → List Mat4 → Option (List Mat4)
  | 0, _, _, _ => none
  | fuel + 1, nodeIndex, parentTransform, globalTransforms =>
    (localTransforms[nodeIndex]?).bind fun l =>
      let global := parentTransform * l
      if nodeIndex < globalTransforms.length then
        (nodes[nodeIndex]?).bind fun node =>
          node.children.foldlM
            (fun g c => computeGlobalNodeTransform nodes localTransforms fuel c global g)
            (globalTransforms.set nodeIndex global)
      else none

/-- The node indices in the order in which the recursion of
`computeGlobalNodeTransform` reaches them from `nodeIndex`, exploring at most `fuel`
levels.  The hierarchy under `nodeIndex` is a tree when this list exists and has no
repeated entry. -/
def visitOrder (nodes : List Node) : Nat → Nat → Option (List Nat)
  | 0, _ => none
  | fuel + 1, nodeIndex =>
    (nodes[nodeIndex]?).bind fun node =>
      node.children.foldlM
        (fun visited c => (visitOrder nodes fuel c).map fun sub => visited ++ sub)
        [nodeIndex]

/-- `PathTo nodes root path n`: `path` lists the nodes from `root` down to `n`, each one
a child of the one before it. -/
inductive PathTo (nodes : List Node) (root : Nat) : List Nat → Nat → Prop
  | root : PathTo nodes root [root] root
  | child {path : List Nat} {p c : Nat} {node : Node} :
      PathTo nodes root path p → nodes[p]? = some node → c ∈ node.children →
      PathTo nodes root (path ++ [c]) c

/-- The ordered product of the local transforms along a path, root first, accumulated
from the identity in the order of the recursion: `((1 * L₀) * L₁) * ...`. -/
def pathProduct (localTransforms : List Mat4) (path : List Nat) : Mat4 :=
  path.foldl (fun acc i => acc * localTransforms.getD i 1) 1

/-- What one run of `computeGlobalNodeTransform` over a subtree with node list `vs`
establishes, `g` being the global transforms before the run and `g'` after it: the
length is kept, every child of a visited node is visited and holds the parent's global
transform times its own local transform, and the entries outside `vs` are untouched. -/
structure SubtreeDone (nodes : List Node) (locals : List Mat4)
    (vs : List Nat) (g g' : List Mat4) : Prop where
  length_eq : g'.length = g.length
  edge : ∀ p ∈ vs, ∀ node c, nodes[p]? = some node → c ∈ node.children →
    c ∈ vs ∧ g'.getD c 1 = g'.getD p 1 * locals.getD c 1
  frame : ∀ i, i ∉ vs → g'.getD i 1 = g.getD i 1

/-! ## Skinning (source lines 888-898) -/

/-- The body of the joint loop of `updateSkinning` (and of `prepareSkinning`) for joint
position `j`. -/
def skinJoint (joints : List Nat) (globalNodeTransforms : List Mat4)
    (skinObject : SkinObject) (j : Nat) : Option SkinObject :=
  (joints[j]?).bind fun jointNodeIndex =>
    (globalNodeTransforms[jointNodeIndex]?).bind fun gt =>
      if j < skinObject.globalJointTransforms.length then
        (skinObject.inverseBindMatrices[j]?).bind fun ibm =>
          if j < skinObject.jointMatrices.length then
            some { inverseBindMatrices := skinObject.inverseBindMatrices
                   globalJointTransforms := skinObject.globalJointTransforms.set j gt
                   jointMatrices := skinObject.jointMatrices.set j (gt * ibm) }
          else none
      else none

/-- The loop `for (j = 0; j < skin.joints.size(); ++j)` of `updateSkinning`. -/
def updateSkin (skin : Skin) (globalNodeTransforms : List Mat4) (skinObject : SkinObject) :
    Option SkinObject :=
  (List.range skin.joints.length).foldlM (skinJoint skin.joints globalNodeTransforms)
    skinObject

/-- `void updateSkinning(const std::vector<glm::mat4>& globalNodeTransforms)`, with the
members `model.skins` and `skinObjects` passed explicitly. -/
def updateSkinning (skins : List Skin) (skinObjects : List SkinObject)
    (globalNodeTransforms : List Mat4) : Option (List SkinObject) :=
  (List.range skins.length).foldlM
    (fun objs i =>
      (skins[i]?).bind fun skin =>
        (objs[i]?).bind fun skinObject =>
          (updateSkin skin globalNodeTransforms skinObject).map fun updated =>
            objs.set i updated)
    skinObjects

/-! ## Keyframe animation (source lines 818-886) -/

/-- `memcpy(&v, outputPtr + i * 3 * sizeof(float), 3 * sizeof(float))`. -/
def readVec3 (data : List ℚ) (i : Int) : Option Vec3 :=
  (vecAt data (3 * i)).bind fun x =>
    (vecAt data (3 * i + 1)).bind fun y =>
      (vecAt data (3 * i + 2)).bind fun z => some ⟨x, y, z⟩

/-- `memcpy(&q, outputPtr + i * 4 * sizeof(float), 4 * sizeof(float))`. -/
def readQuat (data : List ℚ) (i : Int) : Option Quat :=
  (vecAt data (4 * i)).bind fun x =>
    (vecAt data (4 * i + 1)).bind fun y =>
      (vecAt data (4 * i + 2)).bind fun z =>
        (vecAt data (4 * i + 3)).bind fun w => some ⟨x, y, z, w⟩

/-- Line 834: `fmod(time, times.back())`. -/
def wrappedTime (times : List ℚ) (time : ℚ) : Option ℚ :=
  (times.getLast?).bind fun back => fmod time back

/-- Lines 834-841: the wrapped time, the two keyframe indices and the clamped
interpolation factor, returned as `(animationTime, keyframeIndex, nextIndex, factor)`. -/
def keyframeFactor (times : List ℚ) (time : ℚ) : Option (ℚ × Int × Int × ℚ) :=
  (wrappedTime times time).bind fun animationTime =>
    (findKeyframeIndex times animationTime).bind fun keyframeIndex =>
      let nextIndex := min (keyframeIndex + 1) ((times.length : Int) - 1)
      (vecAt times keyframeIndex).bind fun t0 =>
        (vecAt times nextIndex).bind fun t1 =>
          let factor := if t1 > t0 then (animationTime - t0) / (t1 - t0) else 0
          some (animationTime, keyframeIndex, nextIndex, clamp factor 0 1)

/-- Lines 851-861: translation, rotation and scale read back from the matrix `M`. -/
def decompose (lib : GlmLib) (M : Mat4) : Vec3 × Quat × Vec3 :=
  let T := colVec3 M 3
  let Sx := lib.length (colVec3 M 0)
  let Sy := lib.length (colVec3 M 1)
  let Sz := lib.length (colVec3 M 2)
  let rotMat := mat3OfCols
    ((colVec3 M 0).divScalar (if Sx = 0 then 1 else Sx))
    ((colVec3 M 1).divScalar (if Sy = 0 then 1 else Sy))
    ((colVec3 M 2).divScalar (if Sz = 0 then 1 else Sz))
  (T, lib.quat_cast rotMat, ⟨Sx, Sy, Sz⟩)

/-- Lines 863-882: the branch on `channel.target_path`, replacing one of `T`, `R`, `S`
by the interpolated keyframe value. -/
def animatedTRS (lib : GlmLib) (target_path : String) (outputData : List ℚ)
    (keyframeIndex nextIndex : Int) (factor : ℚ) (trs : Vec3 × Quat × Vec3) :
    Option (Vec3 × Quat × Vec3) :=
  if target_path = "translation" then
    (readVec3 outputData keyframeIndex).bind fun v0 =>
      (readVec3 outputData nextIndex).bind fun v1 =>
        some (mixVec3 v0 v1 factor, trs.2.1, trs.2.2)
  else if target_path = "rotation" then
    (readQuat outputData keyframeIndex).bind fun q0 =>
      (readQuat outputData nextIndex).bind fun q1 =>
        some (trs.1, interpolateRotation lib.normalize lib.slerp q0 q1 factor, trs.2.2)
  else if target_path = "scale" then
    (readVec3 outputData keyframeIndex).bind fun s0 =>
      (readVec3 outputData nextIndex).bind fun s1 =>
        some (trs.1, trs.2.1, mixVec3 s0 s1 factor)
  else some trs

/-- Line 884: `translate(mat4(1), T) * mat4_cast(R) * scale(mat4(1), S)`. -/
def composeTRS (trs : Vec3 × Quat × Vec3) : Mat4 :=
  translate 1 trs.1 * mat4_cast trs.2.1 * scale 1 trs.2.2

/-- Lines 863-882 applied to the keyframe data of lines 834-841.  The wrapped time, the
indices and the factor are computed for every channel, but they are read only inside the
three branches: when they have no rational value (`fmod` by a zero final timestamp gives
NaN, which no operation of lines 834-841 traps) a translation, rotation or scale channel
has no result, while a channel with any other target path keeps `T`, `R`, `S` as read
back from the matrix. -/
def channelTRS (lib : GlmLib) (target_path : String) (outputData : List ℚ)
    (kf : Option (ℚ × Int × Int × ℚ)) (trs : Vec3 × Quat × Vec3) :
    Option (Vec3 × Quat × Vec3) :=
  if target_path = "translation" ∨ target_path = "rotation" ∨ target_path = "scale" then
    kf.bind fun kf => animatedTRS lib target_path outputData kf.2.1 kf.2.2.1 kf.2.2.2 trs
  else some trs

/-- The body of the loop `for (const auto& channel : anim.channels)` of
`updateAnimation`; `continue` returns the node transforms unchanged. -/
def updateChannel (lib : GlmLib) (anim : Animation) (animationObject : AnimationObject)
    (time : ℚ) (nodeTransforms : List Mat4) (channel : Channel) : Option (List Mat4) :=
  if channel.target_node < 0 ∨ (nodeTransforms.length : Int) ≤ channel.target_node then
    some nodeTransforms
  else
    (anim.samplers[channel.sampler]?).bind fun sampler =>
      (animationObject.samplers[channel.sampler]?).bind fun samplerObject =>
        if samplerObject.input.length < 2 then some nodeTransforms
        else
          (vecAt nodeTransforms channel.target_node).bind fun M =>
            (channelTRS lib channel.target_path sampler.outputData
                (keyframeFactor samplerObject.input time) (decompose lib M)).map fun trs =>
              nodeTransforms.set channel.target_node.toNat (composeTRS trs)

/-- `void updateAnimation(model, anim, animationObject, time, nodeTransforms)`. -/
def updateAnimation (lib : GlmLib) (anim : Animation) (animationObject : AnimationObject)
    (time : ℚ) (nodeTransforms : List Mat4) : Option (List Mat4) :=
  anim.channels.foldlM (updateChannel lib anim animationObject time) nodeTransforms

/-! ## Local transforms and skin preparation (source lines 693-766) -/

/-- `glm::make_mat4(a)`: sixteen values in column-major order. -/
def make_mat4 (a : List ℚ) : Mat4 :=
  Matrix.of fun r c => a.getD (4 * c.val + r.val) 0

/-- `glm::mat4 getNodeTransform(const tinygltf::Node& node)`. -/
def getNodeTransform (node : Node) : Mat4 :=
  if node.matrix.length = 16 then make_mat4 node.matrix
  else
    let transform : Mat4 := 1
    let transform :=
      if node.translation.length = 3 then
        translate transform
          ⟨node.translation.getD 0 0, node.translation.getD 1 0, node.translation.getD 2 0⟩
      else transform
    let transform :=
      if node.rotation.length = 4 then
        transform * mat4_cast ⟨node.rotation.getD 0 0, node.rotation.getD 1 0,
          node.rotation.getD 2 0, node.rotation.getD 3 0⟩
      else transform
    let transform :=
      if node.scale.length = 3 then
        scale transform ⟨node.scale.getD 0 0, node.scale.getD 1 0, node.scale.getD 2 0⟩
      else transform
    transform

/-- `void computeLocalNodeTransform(model, nodeIndex, localTransforms)`.  The fuel bounds
the depth of the recursion. -/
def computeLocalNodeTransform (nodes : List Node) : Nat → Nat → List Mat4 → Option (List Mat4)
  | 0, _, _ => none
  | fuel + 1, nodeIndex, localTransforms =>
    (nodes[nodeIndex]?).bind fun node =>
      if nodeIndex < localTransforms.length then
        node.children.foldlM
          (fun l c => computeLocalNodeTransform nodes fuel c l)
          (localTransforms.set nodeIndex (getNodeTransform node))
      else none

/-- `skin.skeleton >= 0 ? skin.skeleton : skin.joints[0]`. -/
def skinRoot (skin : Skin) : Option Nat :=
  if 0 ≤ skin.skeleton then some skin.skeleton.toNat else skin.joints[0]?

/-- One iteration of the loop of `prepareSkinning`, for a skin and the inverse-bind
matrices `inverseBind` that its accessor addresses (`accessor.count` of them).  The two
per-joint vectors are resized to the joint count (new entries are zero matrices, they are
overwritten by the joint loop), the local and global transforms are computed from the
root, and the joint loop of lines 757-761 fills the joint matrices. -/
def prepareSkin (nodes : List Node) (fuel : Nat) (skin : Skin) (inverseBind : List Mat4) :
    Option SkinObject :=
  let skinObject : SkinObject :=
    { inverseBindMatrices := inverseBind
      globalJointTransforms := List.replicate skin.joints.length 0
      jointMatrices := List.replicate skin.joints.length 0 }
  (skinRoot skin).bind fun rootNodeIndex =>
    (computeLocalNodeTransform nodes fuel rootNodeIndex
        (List.replicate nodes.length 1)).bind fun localTransforms =>
      (computeGlobalNodeTransform nodes localTransforms fuel rootNodeIndex 1
          (List.replicate nodes.length 1)).bind fun globalTransforms =>
        updateSkin skin globalTransforms skinObject

/-- `std::vector<SkinObject> prepareSkinning(const tinygltf::Model& model)`: every skin
comes with the inverse-bind matrices of its accessor, and the prepared objects are pushed
to the back of the result. -/
def prepareSkinning (nodes : List Node) (fuel : Nat) (skins : List (Skin × List Mat4)) :
    Option (List SkinObject) :=
  skins.foldlM
    (fun out s => (prepareSkin nodes fuel s.1 s.2).map fun skinObject => out ++ [skinObject])
    []

/-- The invariant of the specification: there is one skin object per skin and its
`jointMatrices` has as many entries as the skin has joints. -/
def JointCountInv (skins : List Skin) (skinObjects : List SkinObject) : Prop :=
  skinObjects.length = skins.length ∧
    ∀ (i : Nat) (skin : Skin) (obj : SkinObject), skins[i]? = some skin →
      skinObjects[i]? = some obj → obj.jointMatrices.length = skin.joints.length

/-- A skin that `prepareSkinning` can process: its root exists and the hierarchy under
it is a tree that the recursion covers with the given fuel, its joints are node indices,
and its accessor holds at least one inverse-bind matrix per joint. -/
def SkinWellFormed (nodes : List Node) (fuel : Nat) (skin : Skin) (inverseBind : List Mat4) :
    Prop :=
  (∃ root vs, skinRoot skin = some root ∧ visitOrder nodes fuel root = some vs ∧ vs.Nodup) ∧
    (∀ n ∈ skin.joints, n < nodes.length) ∧ skin.joints.length ≤ inverseBind.length

/-! ## Spatial hashing (source lines 332-344) -/

/-- `(uint32_t)x` for an `int` `x`: the value of `x` modulo `2^32`. -/
def toUInt32 (x : Int) : Nat := (x % 4294967296).toNat

/-- `static inline uint32_t hash2i(int x, int z)`.  A `uint32_t` is a natural number
below `2^32`; the multiplication wraps around. -/
def hash2i (x z : Int) : Nat :=
  let h := 2166136261
  let h := ((h ^^^ toUInt32 x) * 16777619) % 4294967296
  let h := ((h ^^^ toUInt32 z) * 16777619) % 4294967296
  h

/-- `static inline float hash01(uint32_t h)`: `(h & 0x00FFFFFFu) / float(0x01000000u)`. -/
def hash01 (h : Nat) : ℚ := ((h &&& 0x00FFFFFF : Nat) : ℚ) / 16777216

/-- `static inline float hashSigned01(uint32_t h)`: `hash01(h) * 2.0f - 1.0f`. -/
def hashSigned01 (h : Nat) : ℚ := hash01 h * 2 - 1

/-- The value of a 32-bit two's-complement `int` read as an unsigned 32-bit number, as
the specification words the conversion: negative values are raised by `2^32`. -/
def specTwosComplement (x : Int) : Nat := if x < 0 then (x + 4294967296).toNat else x.toNat

/-- The hash as the specification writes it. -/
def specHash2i (x z : Int) : Nat :=
  (((2166136261 ^^^ specTwosComplement x) * 16777619 % 2 ^ 32) ^^^ specTwosComplement z)
    * 16777619 % 2 ^ 32

/-! ## Procedural tiling (source lines 223-236 and 1094-1170) -/

/-- `CLOUD_SPACING = 1400.0f`. -/
def CLOUD_SPACING : ℚ := 1400

/-- `CLOUD_RADIUS = 5`. -/
def CLOUD_RADIUS : Nat := 5

/-- `CLOUD_SCALE = 45.0f`. -/
def CLOUD_SCALE : ℚ := 45

/-- `CLOUD_SCALE_JITTER = 0.35f`. -/
def CLOUD_SCALE_JITTER : ℚ := 35 / 100

/-- `CLOUD_LAYER_LOW = 160.0f`. -/
def CLOUD_LAYER_LOW : ℚ := 160

/-- `CLOUD_LAYER_HIGH = 330.0f`. -/
def CLOUD_LAYER_HIGH : ℚ := 330

/-- `CLOUD_LAYER_BLEND = 70.0f`. -/
def CLOUD_LAYER_BLEND : ℚ := 70

/-- `BOT_SPAWN_CHANCE = 0.7f`. -/
def BOT_SPAWN_CHANCE : ℚ := 7 / 10

/-- `BOT_SCALE = 1.5f`. -/
def BOT_SCALE : ℚ := 3 / 2

/-- The literal `6.2831853f`. -/
def twoPiLiteral : ℚ := 62831853 / 10000000

/-- The literal `1.5707963f`. -/
def halfPiLiteral : ℚ := 15707963 / 10000000

/-- The C functions `cosf` and `sinf`, which have no rational definition and are taken
as parameters. -/
structure TrigLib where
  cosf : ℚ → ℚ
  sinf : ℚ → ℚ

/-- One choice of `cosf` and `sinf`, used to evaluate concrete inputs. -/
def sampleTrig : TrigLib where
  cosf := fun _ => 1
  sinf := fun _ => 0

/-- `glm::rotate(glm::mat4(1.0f), angle, glm::vec3(0, 1, 0))`: the rotation about the Y
axis, with columns `(c, 0, -s, 0)`, `(0, 1, 0, 0)`, `(s, 0, c, 0)`, `(0, 0, 0, 1)`. -/
def rotateY (trig : TrigLib) (angle : ℚ) : Mat4 :=
  !![trig.cosf angle, 0, trig.sinf angle, 0;
    0, 1, 0, 0;
    -trig.sinf angle, 0, trig.cosf angle, 0;
    0, 0, 0, 1]

/-- The `uint32_t` expression `h * c + d`: both operations wrap around `2^32`. -/
def mulAdd32 (h c d : Nat) : Nat := ((h * c) % 4294967296 + d) % 4294967296

/-- Line 1107: `jx = hashSigned01(h * 747796405u + 2891336453u) * jitterAmp` with
`jitterAmp = CLOUD_SPACING * 0.75f` (line 1105). -/
def jitterX (h : Nat) : ℚ :=
  hashSigned01 (mulAdd32 h 747796405 2891336453) * (CLOUD_SPACING * (75 / 100))

/-- Line 1108: `jz = hashSigned01(h * 277803737u + 15485863u) * jitterAmp`. -/
def jitterZ (h : Nat) : ℚ :=
  hashSigned01 (mulAdd32 h 277803737 15485863) * (CLOUD_SPACING * (75 / 100))

/-- Line 1113: `layerPick = hash01(h * 9781u + 6271u)`. -/
def layerPick (h : Nat) : ℚ := hash01 (mulAdd32 h 9781 6271)

/-- Line 1114: `baseLayer = (layerPick < 0.55f) ? CLOUD_LAYER_LOW : CLOUD_LAYER_HIGH`. -/
def baseLayer (h : Nat) : ℚ :=
  if layerPick h < 55 / 100 then CLOUD_LAYER_LOW else CLOUD_LAYER_HIGH

/-- Line 1116: `yJitter = hashSigned01(h * 1597334677u + 3812015801u) *
CLOUD_LAYER_BLEND`, the exact product; the variable holds its rounding `f32 (yJitter h)`. -/
def yJitter (h : Nat) : ℚ :=
  hashSigned01 (mulAdd32 h 1597334677 3812015801) * CLOUD_LAYER_BLEND

/-- Line 1117: `cloudY = baseLayer + yJitter`: the sum of the base layer and the rounded
product of line 1116, rounded to `float`. -/
def cloudY (h : Nat) : ℚ := f32 (baseLayer h + f32 (yJitter h))

/-- Line 1119: `sJitter = hashSigned01(h * 2654435761u + 1013904223u) *
CLOUD_SCALE_JITTER`. -/
def sJitter (h : Nat) : ℚ :=
  hashSigned01 (mulAdd32 h 2654435761 1013904223) * CLOUD_SCALE_JITTER

/-- Line 1120: `cloudScale = CLOUD_SCALE * (1.0f + sJitter)`. -/
def cloudScale (h : Nat) : ℚ := CLOUD_SCALE * (1 + sJitter h)

/-- Line 1122: `rotY = hash01(h * 2246822519u + 3266489917u) * 6.2831853f`. -/
def rotY (h : Nat) : ℚ := hash01 (mulAdd32 h 2246822519 3266489917) * twoPiLiteral

/-- Line 1131: `r = hash01(h)`, the spawn-chance roll. -/
def spawnRoll (h : Nat) : ℚ := hash01 h

/-- Line 1134: `phase = (h & 0xFFFFu) * (1.0f / 65535.0f) * 6.2831853f`. -/
def phase (h : Nat) : ℚ := ((h &&& 0xFFFF : Nat) : ℚ) * (1 / 65535) * twoPiLiteral

/-- Line 1135: `speed = 0.7f + 0.6f * hash01(h >> 8)`. -/
def speed (h : Nat) : ℚ := 7 / 10 + 6 / 10 * hash01 (h >>> 8)

/-- Lines 1124-1127: the cloud model matrix of the tile `(cx, cz)` with hash `h`. -/
def cloudModel (trig : TrigLib) (cx cz : Int) (h : Nat) : Mat4 :=
  translate 1 ⟨(cx : ℚ) * CLOUD_SPACING + jitterX h, cloudY h,
      (cz : ℚ) * CLOUD_SPACING + jitterZ h⟩ *
    rotateY trig (rotY h) *
    scale 1 ⟨cloudScale h, cloudScale h, cloudScale h⟩

/-- Lines 1134-1165: the character model matrix of the tile `(cx, cz)` with hash `h`, for
the cloud mesh centre `localCenter` and the clock `t`. -/
def botModel (trig : TrigLib) (localCenter : Vec3) (t : ℚ) (cx cz : Int) (h : Nat) : Mat4 :=
  let worldX := (cx : ℚ) * CLOUD_SPACING + jitterX h
  let worldZ := (cz : ℚ) * CLOUD_SPACING + jitterZ h
  let centerOffset : Vec3 :=
    ⟨localCenter.x * cloudScale h, localCenter.y * cloudScale h, localCenter.z * cloudScale h⟩
  let centerOffsetRot : Vec3 :=
    ⟨trig.cosf (rotY h) * centerOffset.x + trig.sinf (rotY h) * centerOffset.z,
      centerOffset.y,
      -trig.sinf (rotY h) * centerOffset.x + trig.cosf (rotY h) * centerOffset.z⟩
  let cloudCenterWorld : Vec3 :=
    ⟨worldX + centerOffsetRot.x, cloudY h + centerOffsetRot.y, worldZ + centerOffsetRot.z⟩
  let runRadius : ℚ := 2
  let ang := t * speed h + phase h
  let bx := cloudCenterWorld.x + trig.cosf ang * runRadius
  let bz := cloudCenterWorld.z + trig.sinf ang * runRadius
  let byy := cloudCenterWorld.y * (75 / 100)
  let heading := ang + halfPiLiteral
  translate 1 ⟨bx, byy, bz⟩ * rotateY trig heading * scale 1 ⟨BOT_SCALE, BOT_SCALE, BOT_SCALE⟩

/-- What one iteration of the tile loops hands to the renderers: the tile coordinate,
the matrix passed to `cloud.render`, and the matrix passed to `bot.render` unless the
iteration leaves by `continue` before it. -/
structure TileDraw where
  cx : Int
  cz : Int
  cloudM : Mat4
  botM : Option Mat4

/-- The body of the two nested loops of `renderCloudField` for the tile `(cx, cz)`. -/
def cloudFieldTile (trig : TrigLib) (localCenter : Vec3) (t : ℚ) (cx cz : Int) : TileDraw :=
  let h := hash2i cx cz
  { cx := cx
    cz := cz
    cloudM := cloudModel trig cx cz h
    botM := if spawnRoll h > BOT_SPAWN_CHANCE then none
      else some (botModel trig localCenter t cx cz h) }

/-- The values of a loop `for (int d = -radius; d <= radius; ++d)`, in order. -/
def loopOffsets (radius : Nat) : List Int :=
  (List.range (2 * radius + 1)).map fun (i : Nat) => (i : Int) - (radius : Int)

/-- A value of the tile loops fits the 32-bit `int` of the source. -/
def FitsInt (z : Int) : Prop := -2147483648 ≤ z ∧ z ≤ 2147483647

instance (z : Int) : Decidable (FitsInt z) := by
  unfold FitsInt
  infer_instance

/-- Every `int` that the tile loops compute for the camera position `eye_center` is in
range: the casts `(int)floorf(...)` of lines 1095-1096 and the sums `baseX + dx`,
`baseZ + dz` for the offsets from `-CLOUD_RADIUS` to `CLOUD_RADIUS`.  Outside this range
the cast or a sum has undefined behaviour, and the sweeps below do not describe the
code. -/
def SweepInRange (eye_center : Vec3) : Prop :=
  (FitsInt (⌊f32 (eye_center.x / CLOUD_SPACING)⌋ - CLOUD_RADIUS) ∧
      FitsInt (⌊f32 (eye_center.x / CLOUD_SPACING)⌋ + CLOUD_RADIUS)) ∧
    FitsInt (⌊f32 (eye_center.z / CLOUD_SPACING)⌋ - CLOUD_RADIUS) ∧
      FitsInt (⌊f32 (eye_center.z / CLOUD_SPACING)⌋ + CLOUD_RADIUS)

instance (eye_center : Vec3) : Decidable (SweepInRange eye_center) := by
  unfold SweepInRange
  infer_instance

/-- `static void renderCloudField(vp, cloud, bot, t)` for the camera position
`eye_center` and the mesh centre `cloud.localCenter`: the draws of the sweep in the order
of the loops, `dz` outside and `dx` inside.  The base tile is
`(int)floorf(eye_center.x / CLOUD_SPACING)`: the quotient is rounded to `float`, `floorf`
of a `float` is exact, and the cast keeps the value (`SweepInRange`).  The matrix `vp` is
only handed on to the render calls and is left out. -/
def renderCloudField (trig : TrigLib) (eye_center localCenter : Vec3) (t : ℚ) :
    List TileDraw :=
  let baseX : Int := ⌊f32 (eye_center.x / CLOUD_SPACING)⌋
  let baseZ : Int := ⌊f32 (eye_center.z / CLOUD_SPACING)⌋
  (loopOffsets CLOUD_RADIUS).flatMap fun dz =>
    (loopOffsets CLOUD_RADIUS).map fun dx =>
      cloudFieldTile trig localCenter t (baseX + dx) (baseZ + dz)

/-- The attributes of a tile that the specification lists. -/
inductive TileAttribute where
  | jitterX | jitterZ | layerPick | yJitter | sJitter | rotY | spawnRoll | phase | speed
  deriving DecidableEq, Repr

/-- The `uint32_t` value that the code passes to `hash01`, `hashSigned01` or the mask
`& 0xFFFFu` when it computes an attribute from the base hash `h`. -/
def hashArgument : TileAttribute → Nat → Nat
  | .jitterX, h => mulAdd32 h 747796405 2891336453
  | .jitterZ, h => mulAdd32 h 277803737 15485863
  | .layerPick, h => mulAdd32 h 9781 6271
  | .yJitter, h => mulAdd32 h 1597334677 3812015801
  | .sJitter, h => mulAdd32 h 2654435761 1013904223
  | .rotY, h => mulAdd32 h 2246822519 3266489917
  | .spawnRoll, h => h
  | .phase, h => h
  | .speed, h => h >>> 8

/-! ## The depth pass of the tiling (source lines 1172-1261) -/

/-- The body of the two nested loops of `renderCloudFieldDepth` for the tile `(cx, cz)`:
the matrix uploaded as `uModel` of the cloud depth program and, unless the iteration
leaves by `continue`, the matrix uploaded as `uModel` of the character depth program. -/
def cloudFieldDepthTile (trig : TrigLib) (localCenter : Vec3) (t : ℚ) (cx cz : Int) :
    TileDraw :=
  let h := hash2i cx cz
  let jitterAmp : ℚ := CLOUD_SPACING * (75 / 100)
  let jx := hashSigned01 ((h * 747796405 % 4294967296 + 2891336453) % 4294967296) * jitterAmp
  let jz := hashSigned01 ((h * 277803737 % 4294967296 + 15485863) % 4294967296) * jitterAmp
  let worldX := (cx : ℚ) * CLOUD_SPACING + jx
  let worldZ := (cz : ℚ) * CLOUD_SPACING + jz
  let layerPick := hash01 ((h * 9781 % 4294967296 + 6271) % 4294967296)
  let baseLayer := if layerPick < 55 / 100 then CLOUD_LAYER_LOW else CLOUD_LAYER_HIGH
  let yJitter :=
    hashSigned01 ((h * 1597334677 % 4294967296 + 3812015801) % 4294967296) * CLOUD_LAYER_BLEND
  let cloudY := f32 (baseLayer + f32 yJitter)
  let sJitter :=
    hashSigned01 ((h * 2654435761 % 4294967296 + 1013904223) % 4294967296) * CLOUD_SCALE_JITTER
  let cloudScale := CLOUD_SCALE * (1 + sJitter)
  let rotY := hash01 ((h * 2246822519 % 4294967296 + 3266489917) % 4294967296) * twoPiLiteral
  let cloudM :=
    translate 1 ⟨worldX, cloudY, worldZ⟩ * rotateY trig rotY *
      scale 1 ⟨cloudScale, cloudScale, cloudScale⟩
  let r := hash01 h
  if r > BOT_SPAWN_CHANCE then { cx := cx, cz := cz, cloudM := cloudM, botM := none }
  else
    let phase := ((h &&& 0xFFFF : Nat) : ℚ) * (1 / 65535) * twoPiLiteral
    let speed := 7 / 10 + 6 / 10 * hash01 (h >>> 8)
    let centerOffset : Vec3 :=
      ⟨localCenter.x * cloudScale, localCenter.y * cloudScale, localCenter.z * cloudScale⟩
    let centerOffsetRot : Vec3 :=
      ⟨trig.cosf rotY * centerOffset.x + trig.sinf rotY * centerOffset.z,
        centerOffset.y,
        -trig.sinf rotY * centerOffset.x + trig.cosf rotY * centerOffset.z⟩
    let cloudCenterWorld : Vec3 :=
      ⟨worldX + centerOffsetRot.x, cloudY + centerOffsetRot.y, worldZ + centerOffsetRot.z⟩
    let runRadius : ℚ := 2
    let ang := t * speed + phase
    let bx := cloudCenterWorld.x + trig.cosf ang * runRadius
    let bz := cloudCenterWorld.z + trig.sinf ang * runRadius
    let byy := cloudCenterWorld.y * (75 / 100)
    let heading := ang + halfPiLiteral
    let botM :=
      translate 1 ⟨bx, byy, bz⟩ * rotateY trig heading *
        scale 1 ⟨BOT_SCALE, BOT_SCALE, BOT_SCALE⟩
    { cx := cx, cz := cz, cloudM := cloudM, botM := some botM }

/-- `static void renderCloudFieldDepth(cloud, bot, t)` for the camera position
`eye_center` and the mesh centre `cloud.localCenter`: the model matrices of the depth
draws in the order of the loops, `dz` outside and `dx` inside. -/
def renderCloudFieldDepth (trig : TrigLib) (eye_center localCenter : Vec3) (t : ℚ) :
    List TileDraw :=
  let baseX : Int := ⌊f32 (eye_center.x / CLOUD_SPACING)⌋
  let baseZ : Int := ⌊f32 (eye_center.z / CLOUD_SPACING)⌋
  (loopOffsets CLOUD_RADIUS).flatMap fun dz =>
    (loopOffsets CLOUD_RADIUS).map fun dx =>
      cloudFieldDepthTile trig localCenter t (baseX + dx) (baseZ + dz)

/-! ## The light-space matrix (source lines 200-201 and 241-254) -/

/-- `a - b` on `glm::vec3`. -/
def Vec3.sub (a b : Vec3) : Vec3 := ⟨a.x - b.x, a.y - b.y, a.z - b.z⟩

/-- `a - b` on `glm::vec3` with every component rounded to `float`. -/
def Vec3.subRounded (a b : Vec3) : Vec3 := ⟨f32 (a.x - b.x), f32 (a.y - b.y), f32 (a.z - b.z)⟩

/-- `v * s` for a `glm::vec3` and a scalar. -/
def Vec3.mulScalar (v : Vec3) (s : ℚ) : Vec3 := ⟨v.x * s, v.y * s, v.z * s⟩

/-- `glm::dot` on `vec3`. -/
def dot (a b : Vec3) : ℚ := a.x * b.x + a.y * b.y + a.z * b.z

/-- `glm::cross`. -/
def cross (x y : Vec3) : Vec3 :=
  ⟨x.y * y.z - y.y * x.z, x.z * y.x - y.z * x.x, x.x * y.y - y.x * x.y⟩

/-- `glm::normalize` on `vec3`, which is `v * inversesqrt(dot(v, v))`.  The inverse square
root has no rational definition and is a parameter. -/
def normalizeVec3 (inversesqrt : ℚ → ℚ) (v : Vec3) : Vec3 :=
  v.mulScalar (inversesqrt (dot v v))

/-- The inverse square root evaluated with `Rat.sqrt`, exact on the squares of rational
numbers. -/
def exactInverseSqrt (x : ℚ) : ℚ := 1 / Rat.sqrt x

/-- The forward axis `f` of `glm::lookAt(eye, center, up)`. -/
def lookAtForward (inversesqrt : ℚ → ℚ) (eye center : Vec3) : Vec3 :=
  normalizeVec3 inversesqrt (center.sub eye)

/-- The side axis `s` of `glm::lookAt(eye, center, up)`. -/
def lookAtSide (inversesqrt : ℚ → ℚ) (eye center up : Vec3) : Vec3 :=
  normalizeVec3 inversesqrt (cross (lookAtForward inversesqrt eye center) up)

/-- The up axis `u` of `glm::lookAt(eye, center, up)`. -/
def lookAtUp (inversesqrt : ℚ → ℚ) (eye center up : Vec3) : Vec3 :=
  cross (lookAtSide inversesqrt eye center up) (lookAtForward inversesqrt eye center)

/-- `glm::lookAt(eye, center, up)` (right-handed): the rows are `s`, `u` and `-f`, the
last column holds `-dot(s, eye)`, `-dot(u, eye)` and `dot(f, eye)`. -/
def lookAt (inversesqrt : ℚ → ℚ) (eye center up : Vec3) : Mat4 :=
  let f := lookAtForward inversesqrt eye center
  let s := lookAtSide inversesqrt eye center up
  let u := lookAtUp inversesqrt eye center up
  !![s.x, s.y, s.z, -dot s eye;
    u.x, u.y, u.z, -dot u eye;
    -f.x, -f.y, -f.z, dot f eye;
    0, 0, 0, 1]

/-- `glm::ortho(left, right, bottom, top, zNear, zFar)` (right-handed, depth range
`[-1, 1]`). -/
def ortho (left right bottom top zNear zFar : ℚ) : Mat4 :=
  !![2 / (right - left), 0, 0, -(right + left) / (right - left);
    0, 2 / (top - bottom), 0, -(top + bottom) / (top - bottom);
    0, 0, -2 / (zFar - zNear), -(zFar + zNear) / (zFar - zNear);
    0, 0, 0, 1]

/-- `M * glm::vec4(p, 1.0)`. -/
def transformPoint (M : Mat4) (p : Vec3) : Vec4 :=
  ⟨M 0 0 * p.x + M 0 1 * p.y + M 0 2 * p.z + M 0 3,
    M 1 0 * p.x + M 1 1 * p.y + M 1 2 * p.z + M 1 3,
    M 2 0 * p.x + M 2 1 * p.y + M 2 2 * p.z + M 2 3,
    M 3 0 * p.x + M 3 1 * p.y + M 3 2 * p.z + M 3 3⟩

/-- `lightPosition(-275.0f, 500.0f, 800.0f)`. -/
def lightPosition : Vec3 := ⟨-275, 500, 800⟩

/-- Line 243: `lightDir = glm::normalize(center - lightPosition)` with
`center = eye_center`; the offset `center - lightPosition` is rounded to `float`. -/
def lightDir (inversesqrt : ℚ → ℚ) (eye_center : Vec3) : Vec3 :=
  normalizeVec3 inversesqrt (eye_center.subRounded lightPosition)

/-- Line 244: `lightPos = center - lightDir * 2000.0f`. -/
def lightPos (inversesqrt : ℚ → ℚ) (eye_center : Vec3) : Vec3 :=
  eye_center.sub ((lightDir inversesqrt eye_center).mulScalar 2000)

/-- Line 246: `lightView = glm::lookAt(lightPos, center, glm::vec3(0, 1, 0))`. -/
def lightView (inversesqrt : ℚ → ℚ) (eye_center : Vec3) : Mat4 :=
  lookAt inversesqrt (lightPos inversesqrt eye_center) eye_center ⟨0, 1, 0⟩

/-- Line 248: `r = CLOUD_SPACING * (CLOUD_RADIUS + 1)`. -/
def lightExtent : ℚ := CLOUD_SPACING * ((CLOUD_RADIUS : ℚ) + 1)

/-- Line 249: `nearP = 0.1f`. -/
def nearP : ℚ := 1 / 10

/-- Line 250: `farP = 7000.0f`. -/
def farP : ℚ := 7000

/-- `static glm::mat4 computeLightVP()` for the camera position `eye_center`. -/
def computeLightVP (inversesqrt : ℚ → ℚ) (eye_center : Vec3) : Mat4 :=
  ortho (-lightExtent) lightExtent (-lightExtent) lightExtent nearP farP *
    lightView inversesqrt eye_center

/-- The three normalisations of `computeLightVP` are exact at the camera position
`eye_center`: the light direction is a unit vector, normalising it again after the scaling
by `2000` gives it back as the forward axis of the light view, and the side axis is a unit
vector. -/
structure LightViewExact (inversesqrt : ℚ → ℚ) (eye_center : Vec3) : Prop where
  dir_unit : dot (lightDir inversesqrt eye_center) (lightDir inversesqrt eye_center) = 1
  forward_eq : lookAtForward inversesqrt (lightPos inversesqrt eye_center) eye_center =
    lightDir inversesqrt eye_center
  side_unit : dot (lookAtSide inversesqrt (lightPos inversesqrt eye_center) eye_center ⟨0, 1, 0⟩)
    (lookAtSide inversesqrt (lightPos inversesqrt eye_center) eye_center ⟨0, 1, 0⟩) = 1

/-- The inverse square root is accurate within one percent at `x`: its value `r` is
positive and `r * r * x` lies between `0.99` and `1.01`. -/
def AccurateAt (inversesqrt : ℚ → ℚ) (x : ℚ) : Prop :=
  0 < inversesqrt x ∧ 99 / 100 ≤ inversesqrt x * inversesqrt x * x ∧
    inversesqrt x * inversesqrt x * x ≤ 101 / 100

instance (inversesqrt : ℚ → ℚ) (x : ℚ) : Decidable (AccurateAt inversesqrt x) := by
  unfold AccurateAt
  infer_instance

/-- The three inverse square roots that `computeLightVP` takes at the camera position
`eye_center` are accurate within one percent: the one of `glm::normalize` in line 243,
taken at the squared length of the offset from the light's reference position, and the
two of `glm::lookAt`, taken at the squared length of `center - eye` and at the squared
length of `cross(f, up)`. -/
structure LightViewAccurate (inversesqrt : ℚ → ℚ) (eye_center : Vec3) : Prop where
  dir : AccurateAt inversesqrt (dot (eye_center.subRounded lightPosition)
    (eye_center.subRounded lightPosition))
  forward : AccurateAt inversesqrt
    (dot (eye_center.sub (lightPos inversesqrt eye_center))
      (eye_center.sub (lightPos inversesqrt eye_center)))
  side : AccurateAt inversesqrt
    (dot (cross (lookAtForward inversesqrt (lightPos inversesqrt eye_center) eye_center)
        ⟨0, 1, 0⟩)
      (cross (lookAtForward inversesqrt (lightPos inversesqrt eye_center) eye_center)
        ⟨0, 1, 0⟩))

/-- Lines 1110-1117: the world position `(worldX, cloudY, worldZ)` of the tile `(cx, cz)`
with hash `h`, the translation of its cloud model matrix. -/
def tileWorld (cx cz : Int) (h : Nat) : Vec3 :=
  ⟨(cx : ℚ) * CLOUD_SPACING + jitterX h, cloudY h, (cz : ℚ) * CLOUD_SPACING + jitterZ h⟩

/-- A world position lies inside the light volume of `computeLightVP`: in the light view
its lateral offsets are within the half-extent `r` and its depth (the distance from the
light position along the viewing direction, `-z`) is between the near and the far
plane. -/
def InsideLightVolume (inversesqrt : ℚ → ℚ) (eye_center p : Vec3) : Prop :=
  |(transformPoint (lightView inversesqrt eye_center) p).x| ≤ lightExtent ∧
    |(transformPoint (lightView inversesqrt eye_center) p).y| ≤ lightExtent ∧
    nearP ≤ -(transformPoint (lightView inversesqrt eye_center) p).z ∧
    -(transformPoint (lightView inversesqrt eye_center) p).z ≤ farP

instance (inversesqrt : ℚ → ℚ) (eye_center p : Vec3) :
    Decidable (InsideLightVolume inversesqrt eye_center p) := by
  unfold InsideLightVolume
  infer_instance

/-! ## Render calls and their guards (source lines 603-640 and 999-1089) -/

/-- The OpenGL calls recorded for a render call: program selection, matrix uploads to a
stored uniform location, vertex-array and buffer binding, and the indexed draw.  Calls
that bind textures, switch render state, set vector or scalar uniforms, or upload to a
location looked up by name at the call are left out. -/
inductive GlCall where
  | useProgram (program : Nat)
  | uniformMatrix4fv (location : Int) (value : List Mat4)
  | bindVertexArray (vao : Nat)
  | bindBuffer (buffer : Nat)
  | drawElements (count : Nat)

/-- The members of `struct Cloud` read by `Cloud::render`; every handle is `0` until the
assets are loaded. -/
structure Cloud where
  program : Nat
  vao : Nat
  colorTex : Nat
  mvpLoc : Int
  modelLoc : Int
  indices : List Nat
  localCenter : Vec3

/-- `void Cloud::render(const glm::mat4& vp, const glm::mat4& modelMat)`: the guard
`if (!program || !vao || !colorTex) return;` comes first. -/
def Cloud.render (cloud : Cloud) (vp modelMat : Mat4) : List GlCall :=
  if cloud.program = 0 ∨ cloud.vao = 0 ∨ cloud.colorTex = 0 then []
  else
    [GlCall.useProgram cloud.program,
      GlCall.uniformMatrix4fv cloud.mvpLoc [vp * modelMat],
      GlCall.uniformMatrix4fv cloud.modelLoc [modelMat],
      GlCall.bindVertexArray cloud.vao,
      GlCall.drawElements cloud.indices.length,
      GlCall.bindVertexArray 0]

/-- The part of `tinygltf::Primitive` read by `drawMesh`: the index of the accessor of the
vertex indices. -/
structure Primitive where
  indices : Int

/-- The part of `tinygltf::Mesh` read by `drawMesh`. -/
structure Mesh where
  primitives : List Primitive

/-- The part of `tinygltf::Accessor` read by `drawMesh`. -/
structure Accessor where
  bufferView : Int
  count : Nat

/-- The part of `tinygltf::Scene` read by `drawModel`. -/
structure Scene where
  nodes : List Nat

/-- The part of `tinygltf::Model` read by `drawModel`; a model that was never loaded has
empty vectors and `defaultScene = -1`. -/
structure Model where
  scenes : List Scene
  defaultScene : Int
  nodes : List Node
  meshes : List Mesh
  accessors : List Accessor

/-- `MyBot::PrimitiveObject`; the `std::map` `vbos` is a list of key-value pairs. -/
structure PrimitiveObject where
  vao : Nat
  vbos : List (Int × Nat)

/-- The members of `struct MyBot` read by `MyBot::render`. -/
structure BotState where
  programID : Nat
  mvpMatrixID : Nat
  modelID : Int
  jointMatricesID : Nat
  model : Model
  primitiveObjects : List PrimitiveObject
  skinObjects : List SkinObject

/-- `(GLint)id` for a `GLuint` `id`. -/
def toGLint (n : Nat) : Int := if n < 2147483648 then (n : Int) else (n : Int) - 4294967296

/-- The loop of `drawMesh` from primitive `i` on: it returns when `i` reaches the number
of primitive objects; `vbos.at(..)` has no value for a missing key. -/
def drawMeshLoop (primitiveObjects : List PrimitiveObject) (accessors : List Accessor) :
    List Primitive → Nat → Option (List GlCall)
  | [], _ => some []
  | primitive :: rest, i =>
    if primitiveObjects.length ≤ i then some []
    else
      (primitiveObjects[i]?).bind fun po =>
        (vecAt accessors primitive.indices).bind fun indexAccessor =>
          (po.vbos.lookup indexAccessor.bufferView).bind fun vbo =>
            (drawMeshLoop primitiveObjects accessors rest (i + 1)).map fun calls =>
              [GlCall.bindVertexArray po.vao, GlCall.bindBuffer vbo,
                GlCall.drawElements indexAccessor.count, GlCall.bindVertexArray 0] ++ calls

/-- `void drawMesh(primitiveObjects, model, mesh)`. -/
def drawMesh (primitiveObjects : List PrimitiveObject) (model : Model) (mesh : Mesh) :
    Option (List GlCall) :=
  drawMeshLoop primitiveObjects model.accessors mesh.primitives 0

/-- `void drawModelNodes(primitiveObjects, model, node)`.  The fuel bounds the depth of
the recursion. -/
def drawModelNodes (primitiveObjects : List PrimitiveObject) (model : Model) :
    Nat → Node → Option (List GlCall)
  | 0, _ => none
  | fuel + 1, node =>
    (if 0 ≤ node.mesh ∧ node.mesh < (model.meshes.length : Int) then
        (vecAt model.meshes node.mesh).bind fun mesh => drawMesh primitiveObjects model mesh
      else some []).bind fun own =>
      node.children.foldlM
        (fun calls c =>
          (model.nodes[c]?).bind fun child =>
            (drawModelNodes primitiveObjects model fuel child).map fun sub => calls ++ sub)
        own

/-- `void drawModel(primitiveObjects, model)`: the scene is read as
`model.scenes[model.defaultScene]` without a check. -/
def drawModel (primitiveObjects : List PrimitiveObject) (model : Model) (fuel : Nat) :
    Option (List GlCall) :=
  (vecAt model.scenes model.defaultScene).bind fun scene =>
    scene.nodes.foldlM
      (fun calls n =>
        (model.nodes[n]?).bind fun node =>
          (drawModelNodes primitiveObjects model fuel node).map fun sub => calls ++ sub)
      []

/-- `void MyBot::render(const glm::mat4& vp, const glm::mat4& modelMatrix)`: the uniform
uploads, the upload of the joint matrices of the first skin object, and `drawModel`.  The
function has no guard on `programID` or on the model. -/
def render (bot : BotState) (fuel : Nat) (vp modelMatrix : Mat4) : Option (List GlCall) :=
  let uploads :=
    [GlCall.useProgram bot.programID,
      GlCall.uniformMatrix4fv (bot.mvpMatrixID : Int) [vp * modelMatrix],
      GlCall.uniformMatrix4fv bot.modelID [modelMatrix]]
  let joints :=
    match bot.skinObjects with
    | skin :: _ =>
      if 0 ≤ toGLint bot.jointMatricesID ∧ skin.jointMatrices ≠ [] then
        [GlCall.uniformMatrix4fv (bot.jointMatricesID : Int) skin.jointMatrices]
      else []
    | [] => []
  (drawModel bot.primitiveObjects bot.model fuel).map fun draws => uploads ++ joints ++ draws

/-! ## Keyboard input (source lines 203-204 and 1375-1390) -/

/-- The globals written by `key_callback`: `playbackSpeed`, `playAnimation` and the
close flag of the window. -/
structure InputState where
  playbackSpeed : ℚ
  playAnimation : Bool
  windowShouldClose : Bool
  deriving DecidableEq, Repr

/-- The initial values: `playAnimation = true`, `playbackSpeed = 2.0f`, window open. -/
def initialInput : InputState := ⟨2, true, false⟩

/-- `GLFW_KEY_UP`. -/
def GLFW_KEY_UP : Int := 265

/-- `GLFW_KEY_DOWN`. -/
def GLFW_KEY_DOWN : Int := 264

/-- `GLFW_KEY_SPACE`. -/
def GLFW_KEY_SPACE : Int := 32

/-- `GLFW_KEY_ESCAPE`. -/
def GLFW_KEY_ESCAPE : Int := 256

/-- `GLFW_PRESS`. -/
def GLFW_PRESS : Int := 1

/-- `static void key_callback(window, key, scancode, action, mode)`: the four `if`
statements in sequence, each working on the state left by the one before. -/
def key_callback (st : InputState) (key _scancode action _mode : Int) : InputState :=
  let st :=
    if key = GLFW_KEY_UP ∧ action = GLFW_PRESS then
      let s := st.playbackSpeed + 1
      { st with playbackSpeed := if s > 10 then 10 else s }
    else st
  let st :=
    if key = GLFW_KEY_DOWN ∧ action = GLFW_PRESS then
      let s := st.playbackSpeed - 1
      { st with playbackSpeed := if s < 1 then 1 else s }
    else st
  let st :=
    if key = GLFW_KEY_SPACE ∧ action = GLFW_PRESS then
      { st with playAnimation := !st.playAnimation }
    else st
  let st :=
    if key = GLFW_KEY_ESCAPE ∧ action = GLFW_PRESS then
      { st with windowShouldClose := true }
    else st
  st

/-- A key event as GLFW hands it to the callback: `(key, scancode, action, mode)`. -/
abbrev KeyEvent := Int × Int × Int × Int

/-- The state after a sequence of key events, starting from `st`. -/
def handleKeys (st : InputState) (events : List KeyEvent) : InputState :=
  events.foldl (fun s e => key_callback s e.1 e.2.1 e.2.2.1 e.2.2.2) st

/-! ## The per-frame update of the skinned model (source lines 900-918) -/

/-- Lines 903-916 of `MyBot::update`: the local transforms from the root of the first
skin, the animation step when the model has an animation and a prepared animation
object, and the global transforms from the same root.  Every vector starts as
`model.nodes.size()` identity matrices. -/
def updateTransforms (lib : GlmLib) (nodes : List Node) (fuel : Nat) (skin : Skin)
    (animations : List Animation) (animationObjects : List AnimationObject) (time : ℚ) :
    Option (List Mat4) :=
  (skinRoot skin).bind fun rootIndex =>
    (computeLocalNodeTransform nodes fuel rootIndex
        (List.replicate nodes.length 1)).bind fun localTransforms =>
      (match animations, animationObjects with
        | anim :: _, animationObject :: _ =>
          updateAnimation lib anim animationObject time localTransforms
        | _, _ => some localTransforms).bind fun localTransforms =>
        computeGlobalNodeTransform nodes localTransforms fuel rootIndex 1
          (List.replicate nodes.length 1)

/-- `void update(float time)`, with the members `model.nodes`, `model.skins`,
`model.animations`, `animationObjects` and `skinObjects` passed explicitly; the result is
the new value of `skinObjects`. -/
def update (lib : GlmLib) (nodes : List Node) (fuel : Nat) (skins : List Skin)
    (animations : List Animation) (animationObjects : List AnimationObject)
    (skinObjects : List SkinObject) (time : ℚ) : Option (List SkinObject) :=
  match skins with
  | [] => some skinObjects
  | skin :: _ =>
    (updateTransforms lib nodes fuel skin animations animationObjects time).bind
      fun globalTransforms => updateSkinning skins skinObjects globalTransforms

/-- The interpolated value as the specification writes it: component-wise
`(1 - f) * a + f * b`. -/
def specLerp (a b : Vec3) (f : ℚ) : Vec3 :=
  ⟨(1 - f) * a.x + f * b.x, (1 - f) * a.y + f * b.y, (1 - f) * a.z + f * b.z⟩

/-- The interpolation factor as the specification writes it:
`(t - times[k]) / (times[k+1] - times[k])`. -/
def specFactor (times : List ℚ) (k : Nat) (t : ℚ) : ℚ :=
  (t - times.getD k 0) / (times.getD (k + 1) 0 - times.getD k 0)

/-! ## Fixtures -/

/-- A clip with keyframes at `t = 0` (translation `0`) and `t = 1` (translation `+10`
on X), stored as the flat float array `0 0 0 10 0 0`. -/
def midpointAnimation : Animation := ⟨[], [⟨[0, 0, 0, 10, 0, 0]⟩]⟩

/-- The prepared sampler of `midpointAnimation`: timestamps `0` and `1`. -/
def midpointObject : AnimationObject := ⟨[⟨[0, 1], [], 0⟩]⟩

/-- The translation channel of `midpointAnimation`, targeting node `0`. -/
def midpointChannel : Channel := ⟨0, 0, "translation"⟩

/-- A channel of `midpointAnimation` with the target path `weights`, which is none of
translation, rotation or scale. -/
def weightsChannel : Channel := ⟨0, 0, "weights"⟩

/-- The local transform of a node without translation and rotation and with the scale
`(-1, 1, 1)`: `translate(0) * rotate(identity) * scale(-1, 1, 1)`. -/
def mirroredTransform : Mat4 := composeTRS (⟨0, 0, 0⟩, ⟨0, 0, 0, 1⟩, ⟨-1, 1, 1⟩)

/-- The clip `midpointAnimation` with its translation channel in the channel list. -/
def midpointClip : Animation := ⟨[⟨0, 0, "translation"⟩], [⟨[0, 0, 0, 10, 0, 0]⟩]⟩

/-- A clip with two channels on node `0`: first a scale channel whose two keyframes both
hold the mirror `(-1, 1, 1)`, then the translation channel of `midpointClip`. -/
def mirrorClip : Animation :=
  ⟨[⟨0, 0, "scale"⟩, ⟨1, 0, "translation"⟩], [⟨[-1, 1, 1, -1, 1, 1]⟩, ⟨[0, 0, 0, 10, 0, 0]⟩]⟩

/-- The prepared samplers of `mirrorClip` and of `doubleClip`: timestamps `0` and `1` for
both channels. -/
def twoSamplerObject : AnimationObject := ⟨[⟨[0, 1], [], 0⟩, ⟨[0, 1], [], 0⟩]⟩

/-- A clip with two translation channels on node `0`: the first moves from `0` to `10`
on X, the second from `20` to `40`. -/
def doubleClip : Animation :=
  ⟨[⟨0, 0, "translation"⟩, ⟨1, 0, "translation"⟩],
    [⟨[0, 0, 0, 10, 0, 0]⟩, ⟨[20, 0, 0, 40, 0, 0]⟩]⟩

/-- A clip with two channels on node `0`: first a scale channel that grows from
`(1, 1, 1)` to `(3, 3, 3)`, then the translation channel of `midpointClip`. -/
def growClip : Animation :=
  ⟨[⟨0, 0, "scale"⟩, ⟨1, 0, "translation"⟩], [⟨[1, 1, 1, 3, 3, 3]⟩, ⟨[0, 0, 0, 10, 0, 0]⟩]⟩

/-- A clip of two keyframes whose first timestamp is negative: `-1` and `1`, with the
same translations as `midpointAnimation`. -/
def negativeStartObject : AnimationObject := ⟨[⟨[-1, 1], [], 0⟩]⟩

/-- A clip of three keyframes that starts after time zero: timestamps `1, 2, 3` with
translations `0`, `10` and `20` on X. -/
def lateStartAnimation : Animation := ⟨[], [⟨[0, 0, 0, 10, 0, 0, 20, 0, 0]⟩]⟩

/-- The prepared sampler of `lateStartAnimation`. -/
def lateStartObject : AnimationObject := ⟨[⟨[1, 2, 3], [], 0⟩]⟩

/-- A three-level hierarchy: node `0` has the children `1` and `2`, node `1` has the
child `3`. -/
def threeLevelNodes : List Node :=
  [{ children := [1, 2] }, { children := [3] }, { children := [] }, { children := [] }]

/-- A skin of `threeLevelNodes` rooted at node `1`: its joints are the nodes `1` and `3`
of the subtree under the root and the node `2` outside of it. -/
def sideSkin : Skin := ⟨[1, 3, 2], 1⟩

/-- A prepared skin object for `sideSkin` with the inverse-bind matrices `2`, `3`, `5`
(multiples of the identity). -/
def sideSkinObject : SkinObject := ⟨[2, 3, 5], [0, 0, 0], [0, 0, 0]⟩

/-- A clip like `midpointAnimation` whose one channel moves node `2`. -/
def sideAnimation : Animation := ⟨[⟨0, 2, "translation"⟩], [⟨[0, 0, 0, 10, 0, 0]⟩]⟩

/-- The character after a failed load: `initialize` returned right after `loadModel`, so
every handle is zero, the model is empty with `defaultScene = -1`, and no primitive or
skin object was prepared. -/
def failedBot : BotState :=
  { programID := 0, mvpMatrixID := 0, modelID := -1, jointMatricesID := 0,
    model := { scenes := [], defaultScene := -1, nodes := [], meshes := [], accessors := [] },
    primitiveObjects := [], skinObjects := [] }

/-- A loaded character of one node with one mesh of one primitive, for comparison. -/
def loadedBot : BotState :=
  { programID := 3, mvpMatrixID := 0, modelID := 1, jointMatricesID := 2,
    model := { scenes := [⟨[0]⟩], defaultScene := 0, nodes := [{ children := [], mesh := 0 }],
               meshes := [⟨[⟨0⟩]⟩], accessors := [⟨7, 36⟩] },
    primitiveObjects := [⟨1, [(7, 4)]⟩], skinObjects := [] }

/-! # Part 2: properties -/

/-! ## List access -/

theorem getD_set_self (l : List Mat4) (i : Nat) (a : Mat4) (h : i < l.length) :
    (l.set i a).getD i 1 = a := by
  simp [List.getD_eq_getElem?_getD, h]

theorem getD_set_ne (l : List Mat4) (i j : Nat) (a : Mat4) (h : i ≠ j) :
    (l.set i a).getD j 1 = l.getD j 1 := by
  simp [List.getD_eq_getElem?_getD, List.getElem?_set_ne h]

theorem getElem?_some_getD {α : Type} (l : List α) (d : α) (i : Nat) (h : i < l.length) :
    l[i]? = some (l.getD i d) := by
  rw [List.getD_eq_getElem _ _ h, List.getElem?_eq_getElem h]

/-! ## Transform propagation -/

theorem visit_fold_prefix (nodes : List Node) (fuel : Nat) :
    ∀ (cs acc vs : List Nat),
      cs.foldlM (fun visited c => (visitOrder nodes fuel c).map fun sub => visited ++ sub) acc
        = some vs → ∃ rest, vs = acc ++ rest := by
  intro cs
  induction cs with
  | nil =>
    intro acc vs hv
    simp only [List.foldlM_nil, Option.pure_def, Option.some.injEq] at hv
    exact ⟨[], by simp [hv]⟩
  | cons c cs ihcs =>
    intro acc vs hv
    simp only [List.foldlM_cons, Option.bind_eq_bind] at hv
    cases hs : visitOrder nodes fuel c with
    | none => simp [hs] at hv
    | some s =>
      simp only [hs, Option.map_some', Option.some_bind] at hv
      obtain ⟨rest, hrest⟩ := ihcs (acc ++ s) vs hv
      exact ⟨s ++ rest, by rw [hrest, List.append_assoc]⟩

theorem forest_run (nodes : List Node) (locals : List Mat4) (fuel : Nat) (G : Mat4)
    (ih : ∀ (i : Nat) (P : Mat4) (g : List Mat4) (vs : List Nat),
      visitOrder nodes fuel i = some vs → vs.Nodup → g.length = nodes.length →
      ∃ g', computeGlobalNodeTransform nodes locals fuel i P g = some g' ∧
        i ∈ vs ∧ g'.getD i 1 = P * locals.getD i 1 ∧ SubtreeDone nodes locals vs g g') :
    ∀ (cs : List Nat) (acc vs : List Nat) (g : List Mat4),
      cs.foldlM (fun visited c => (visitOrder nodes fuel c).map fun sub => visited ++ sub) acc
        = some vs →
      vs.Nodup → g.length = nodes.length →
      ∃ g' rest, cs.foldlM
          (fun g c => computeGlobalNodeTransform nodes locals fuel c G g) g = some g' ∧
        vs = acc ++ rest ∧
        (∀ c ∈ cs, c ∈ rest ∧ g'.getD c 1 = G * locals.getD c 1) ∧
        SubtreeDone nodes locals rest g g' := by
  intro cs
  induction cs with
  | nil =>
    intro acc vs g hv _ _
    simp only [List.foldlM_nil, Option.pure_def, Option.some.injEq] at hv
    exact ⟨g, [], by simp, by simp [hv], by simp,
      ⟨rfl, fun p hp => absurd hp (List.not_mem_nil p), fun _ _ => rfl⟩⟩
  | cons c cs ihcs =>
    intro acc vs g hv hnd hg
    simp only [List.foldlM_cons, Option.bind_eq_bind] at hv
    cases hs : visitOrder nodes fuel c with
    | none => simp [hs] at hv
    | some s =>
      simp only [hs, Option.map_some', Option.some_bind] at hv
      obtain ⟨r, hr⟩ := visit_fold_prefix nodes fuel cs (acc ++ s) vs hv
      have hnd' : (acc ++ (s ++ r)).Nodup := by rw [← List.append_assoc, ← hr]; exact hnd
      have hsr : (s ++ r).Nodup := (List.nodup_append.mp hnd').2.1
      have hsnd : s.Nodup := (List.nodup_append.mp hsr).1
      obtain ⟨g1, hrun1, hcs, hc1, hdone1⟩ := ih c G g s hs hsnd hg
      obtain ⟨g', rest, hrun, hvs, hroots, hdone⟩ :=
        ihcs (acc ++ s) vs g1 hv hnd (hdone1.length_eq.trans hg)
      have hrr : rest = r := List.append_cancel_left (hvs.symm.trans hr)
      subst hrr
      have hdisj : ∀ x, x ∈ s → x ∉ rest := fun x hx hx' =>
        (List.nodup_append.mp hsr).2.2 hx hx'
      refine ⟨g', s ++ rest, ?_, by rw [hvs, List.append_assoc], ?_, ?_⟩
      · simp only [List.foldlM_cons, Option.bind_eq_bind, hrun1, Option.some_bind]
        exact hrun
      · intro x hx
        rcases List.mem_cons.mp hx with h | h
        · subst h
          refine ⟨List.mem_append_left _ hcs, ?_⟩
          rw [hdone.frame x (hdisj x hcs), hc1]
        · exact ⟨List.mem_append_right _ (hroots x h).1, (hroots x h).2⟩
      · refine ⟨hdone.length_eq.trans hdone1.length_eq, ?_, ?_⟩
        · intro p hp node x hnode hx
          rcases List.mem_append.mp hp with h | h
          · obtain ⟨hxs, hxe⟩ := hdone1.edge p h node x hnode hx
            refine ⟨List.mem_append_left _ hxs, ?_⟩
            rw [hdone.frame x (hdisj x hxs), hdone.frame p (hdisj p h), hxe]
          · obtain ⟨hxs, hxe⟩ := hdone.edge p h node x hnode hx
            exact ⟨List.mem_append_right _ hxs, hxe⟩
        · intro i hi
          rw [hdone.frame i (fun h => hi (List.mem_append_right _ h)),
            hdone1.frame i (fun h => hi (List.mem_append_left _ h))]

theorem tree_run (nodes : List Node) (locals : List Mat4)
    (hl : locals.length = nodes.length) :
    ∀ (fuel : Nat) (i : Nat) (P : Mat4) (g : List Mat4) (vs : List Nat),
      visitOrder nodes fuel i = some vs → vs.Nodup → g.length = nodes.length →
      ∃ g', computeGlobalNodeTransform nodes locals fuel i P g = some g' ∧
        i ∈ vs ∧ g'.getD i 1 = P * locals.getD i 1 ∧ SubtreeDone nodes locals vs g g' := by
  intro fuel
  induction fuel with
  | zero => intro i P g vs hv; simp [visitOrder] at hv
  | succ fuel ih =>
    intro i P g vs hv hnd hg
    rw [visitOrder] at hv
    cases hn : nodes[i]? with
    | none => simp [hn] at hv
    | some node =>
      simp only [hn, Option.some_bind] at hv
      have hi : i < nodes.length := (List.getElem?_eq_some.mp hn).1
      have hli : locals[i]? = some (locals.getD i 1) := by
        rw [List.getD_eq_getElem?_getD, List.getElem?_eq_getElem (by omega)]; rfl
      obtain ⟨g', rest, hrun, hvs, hroots, hdone⟩ :=
        forest_run nodes locals fuel (P * locals.getD i 1) ih node.children [i] vs
          (g.set i (P * locals.getD i 1)) hv hnd (by rw [List.length_set]; exact hg)
      have hvs' : vs = i :: rest := by simpa using hvs
      have hir : i ∉ rest := by
        rw [hvs'] at hnd
        exact (List.nodup_cons.mp hnd).1
      have hgi : g'.getD i 1 = P * locals.getD i 1 := by
        rw [hdone.frame i hir, getD_set_self _ _ _ (by omega)]
      refine ⟨g', ?_, by rw [hvs']; exact List.mem_cons_self _ _, hgi, ?_⟩
      · rw [computeGlobalNodeTransform]
        simp only [hli, Option.some_bind, if_pos (show i < g.length by omega), hn]
        exact hrun
      · refine ⟨by rw [hdone.length_eq, List.length_set], ?_, ?_⟩
        · intro p hp node' c hnode hc
          rw [hvs'] at hp ⊢
          rcases List.mem_cons.mp hp with h | h
          · subst h
            rw [hn] at hnode
            cases hnode
            exact ⟨List.mem_cons_of_mem _ (hroots c hc).1, by rw [(hroots c hc).2, hgi]⟩
          · obtain ⟨h1, h2⟩ := hdone.edge p h node' c hnode hc
            exact ⟨List.mem_cons_of_mem _ h1, h2⟩
        · intro j hj
          rw [hvs'] at hj
          have hji : i ≠ j := fun h => hj (h ▸ List.mem_cons_self _ _)
          rw [hdone.frame j (fun h => hj (List.mem_cons_of_mem _ h)), getD_set_ne _ _ _ _ hji]

theorem path_mem (nodes : List Node) (locals : List Mat4) (root : Nat) (vs : List Nat)
    (g g' : List Mat4) (hroot : root ∈ vs) (hdone : SubtreeDone nodes locals vs g g')
    (path : List Nat) (n : Nat) (hp : PathTo nodes root path n) : n ∈ vs := by
  induction hp with
  | root => exact hroot
  | child _ hnode hc ih => exact (hdone.edge _ ih _ _ hnode hc).1

theorem path_product (nodes : List Node) (locals : List Mat4) (root : Nat) (vs : List Nat)
    (g g' : List Mat4) (hroot : root ∈ vs) (hg : g'.getD root 1 = 1 * locals.getD root 1)
    (hdone : SubtreeDone nodes locals vs g g')
    (path : List Nat) (n : Nat) (hp : PathTo nodes root path n) :
    g'.getD n 1 = pathProduct locals path := by
  induction hp with
  | root => simpa [pathProduct] using hg
  | child hpath hnode hc ih =>
    have hmem := path_mem nodes locals root vs g g' hroot hdone _ _ hpath
    rw [(hdone.edge _ hmem _ _ hnode hc).2, ih]
    simp [pathProduct, List.foldl_append]

/-- C1: when the hierarchy under the root is a tree (the traversal reaches no node
twice), `computeGlobalNodeTransform` run from the root with the identity as parent
transform succeeds; the root's global transform is its local transform, every node `c`
visited as a child of `p` gets `global(p) * local(c)`, and so the global transform of
every node reachable from the root is the ordered product of the local transforms on
the path from the root to it. -/
theorem computeGlobalNodeTransform_tree (nodes : List Node) (localTransforms : List Mat4)
    (globalTransforms : List Mat4) (fuel rootIndex : Nat) (visited : List Nat)
    (hvisit : visitOrder nodes fuel rootIndex = some visited) (htree : visited.Nodup)
    (hl : localTransforms.length = nodes.length)
    (hg : globalTransforms.length = nodes.length) :
    ∃ g', computeGlobalNodeTransform nodes localTransforms fuel rootIndex 1 globalTransforms
        = some g' ∧
      g'.getD rootIndex 1 = localTransforms.getD rootIndex 1 ∧
      (∀ p ∈ visited, ∀ node c, nodes[p]? = some node → c ∈ node.children →
        g'.getD c 1 = g'.getD p 1 * localTransforms.getD c 1) ∧
      (∀ path n, PathTo nodes rootIndex path n →
        g'.getD n 1 = pathProduct localTransforms path) := by
  obtain ⟨g', hrun, hroot, hgr, hdone⟩ :=
    tree_run nodes localTransforms hl fuel rootIndex 1 globalTransforms visited hvisit htree hg
  refine ⟨g', hrun, by rw [hgr, one_mul], ?_, ?_⟩
  · intro p hp node c hnode hc
    exact (hdone.edge p hp node c hnode hc).2
  · intro path n hpath
    exact path_product nodes localTransforms rootIndex visited globalTransforms g' hroot hgr
      hdone path n hpath


theorem computeGlobalNodeTransform_tree_witness :
    ∃ g', computeGlobalNodeTransform threeLevelNodes [2, 3, 5, 7] 3 0 1 [1, 1, 1, 1]
        = some g' ∧
      g'.getD 0 1 = ([2, 3, 5, 7] : List Mat4).getD 0 1 ∧
      (∀ p ∈ [0, 1, 3, 2], ∀ node c, threeLevelNodes[p]? = some node → c ∈ node.children →
        g'.getD c 1 = g'.getD p 1 * ([2, 3, 5, 7] : List Mat4).getD c 1) ∧
      (∀ path n, PathTo threeLevelNodes 0 path n →
        g'.getD n 1 = pathProduct [2, 3, 5, 7] path) :=
  computeGlobalNodeTransform_tree threeLevelNodes [2, 3, 5, 7] [1, 1, 1, 1] 3 0
    [0, 1, 3, 2] (by decide) (by decide) (by decide) (by decide)

/-! ## Skinning -/

/-- The joint loop after its first `k` iterations. -/
theorem skinJoint_loop (joints : List Nat) (globals : List Mat4) (obj₀ : SkinObject)
    (hib : joints.length ≤ obj₀.inverseBindMatrices.length)
    (hg : obj₀.globalJointTransforms.length = joints.length)
    (hm : obj₀.jointMatrices.length = joints.length)
    (hj : ∀ n ∈ joints, n < globals.length) :
    ∀ k, k ≤ joints.length →
      ∃ obj, (List.range k).foldlM (skinJoint joints globals) obj₀ = some obj ∧
        obj.inverseBindMatrices = obj₀.inverseBindMatrices ∧
        obj.globalJointTransforms.length = joints.length ∧
        obj.jointMatrices.length = joints.length ∧
        ∀ j, j < k → obj.jointMatrices.getD j 1 =
          globals.getD (joints.getD j 0) 1 * obj₀.inverseBindMatrices.getD j 1 := by
  intro k
  induction k with
  | zero =>
    intro _
    exact ⟨obj₀, rfl, rfl, hg, hm, fun j hj => absurd hj (Nat.not_lt_zero j)⟩
  | succ k ih =>
    intro hk
    obtain ⟨obj, hrun, hi, hgl, hml, hprev⟩ := ih (by omega)
    have hjk : joints[k]? = some (joints.getD k 0) :=
      getElem?_some_getD joints 0 k (by omega)
    have hmem : joints.getD k 0 ∈ joints := by
      rw [List.getD_eq_getElem _ _ (by omega)]
      exact List.getElem_mem _
    have hgk : globals[joints.getD k 0]? = some (globals.getD (joints.getD k 0) 1) :=
      getElem?_some_getD globals 1 _ (hj _ hmem)
    have hik : obj.inverseBindMatrices[k]? = some (obj₀.inverseBindMatrices.getD k 1) := by
      rw [hi]; exact getElem?_some_getD _ 1 k (by omega)
    refine ⟨{ inverseBindMatrices := obj.inverseBindMatrices
              globalJointTransforms :=
                obj.globalJointTransforms.set k (globals.getD (joints.getD k 0) 1)
              jointMatrices := obj.jointMatrices.set k
                (globals.getD (joints.getD k 0) 1 * obj₀.inverseBindMatrices.getD k 1) },
      ?_, ?_⟩
    · rw [List.range_succ, List.foldlM_append, hrun]
      simp only [Option.bind_eq_bind, Option.some_bind, List.foldlM_cons, List.foldlM_nil,
        skinJoint, hjk, hgk, hik, if_pos (show k < obj.globalJointTransforms.length by omega),
        if_pos (show k < obj.jointMatrices.length by omega), Option.pure_def,
        Option.bind_some]
    · refine ⟨hi, by rw [List.length_set]; exact hgl, by rw [List.length_set]; exact hml, ?_⟩
      intro j hjlt
      by_cases hjk' : j = k
      · subst hjk'
        exact getD_set_self _ _ _ (by omega)
      · rw [getD_set_ne _ _ _ _ (fun h => hjk' h.symm)]
        exact hprev j (by omega)

/-- The loop over the skins after its first `k` iterations. -/
theorem updateSkinning_loop (skins : List Skin) (objs₀ : List SkinObject) (globals : List Mat4)
    (hlen : skins.length ≤ objs₀.length)
    (hready : ∀ (i : Nat) (skin : Skin) (obj : SkinObject), skins[i]? = some skin →
      objs₀[i]? = some obj →
      ∃ obj', updateSkin skin globals obj = some obj') :
    ∀ k, k ≤ skins.length →
      ∃ objs, (List.range k).foldlM
          (fun objs i =>
            (skins[i]?).bind fun skin =>
              (objs[i]?).bind fun skinObject =>
                (updateSkin skin globals skinObject).map fun updated => objs.set i updated)
          objs₀ = some objs ∧
        objs.length = objs₀.length ∧
        (∀ i, i < k → ∀ (skin : Skin) (obj : SkinObject), skins[i]? = some skin →
          objs₀[i]? = some obj →
          ∃ obj', objs[i]? = some obj' ∧ updateSkin skin globals obj = some obj') ∧
        (∀ i, k ≤ i → objs[i]? = objs₀[i]?) := by
  intro k
  induction k with
  | zero =>
    intro _
    exact ⟨objs₀, rfl, rfl, fun i hi => absurd hi (Nat.not_lt_zero i), fun _ _ => rfl⟩
  | succ k ih =>
    intro hk
    obtain ⟨objs, hrun, hl, hdone, hrest⟩ := ih (by omega)
    have hsk : skins[k]? = some skins[k] := List.getElem?_eq_getElem (by omega)
    have hok : objs₀[k]? = some objs₀[k] := List.getElem?_eq_getElem (by omega)
    obtain ⟨obj', hobj'⟩ := hready k _ _ hsk hok
    refine ⟨objs.set k obj', ?_, by rw [List.length_set]; exact hl, ?_, ?_⟩
    · rw [List.range_succ, List.foldlM_append, hrun]
      simp only [Option.bind_eq_bind, Option.some_bind, List.foldlM_cons, List.foldlM_nil,
        hsk, hrest k le_rfl, hok, hobj', Option.map_some', Option.pure_def]
    · intro i hi skin obj hs ho
      by_cases hik : i = k
      · subst hik
        rw [hsk] at hs
        rw [hok] at ho
        cases hs
        cases ho
        exact ⟨obj', List.getElem?_set_self (by omega), hobj'⟩
      · rw [List.getElem?_set_ne (fun h => hik h.symm)]
        exact hdone i (by omega) skin obj hs ho
    · intro i hi
      rw [List.getElem?_set_ne (by omega)]
      exact hrest i (by omega)

/-- C2: for skins whose inverse-bind lists have at least as many entries as their joint
lists (the two per-joint arrays having been sized to the joint count, and the joints
being indices into the global transforms), `updateSkinning` succeeds and afterwards
`jointMatrices[j] = globalNodeTransforms[joints[j]] * inverseBindMatrices[j]` for every
joint position `j`, in the skin's joint order, the global transform on the left. -/
theorem updateSkinning_jointMatrices (skins : List Skin) (skinObjects : List SkinObject)
    (globalNodeTransforms : List Mat4)
    (hlen : skins.length ≤ skinObjects.length)
    (hready : ∀ (i : Nat) (skin : Skin) (obj : SkinObject), skins[i]? = some skin →
        skinObjects[i]? = some obj →
      skin.joints.length ≤ obj.inverseBindMatrices.length ∧
      obj.globalJointTransforms.length = skin.joints.length ∧
      obj.jointMatrices.length = skin.joints.length ∧
      ∀ n ∈ skin.joints, n < globalNodeTransforms.length) :
    ∃ updated, updateSkinning skins skinObjects globalNodeTransforms = some updated ∧
      ∀ (i : Nat) (skin : Skin) (obj : SkinObject), skins[i]? = some skin →
        skinObjects[i]? = some obj →
        ∃ obj', updated[i]? = some obj' ∧
          obj'.jointMatrices.length = skin.joints.length ∧
          ∀ j n, skin.joints[j]? = some n →
            obj'.jointMatrices[j]? =
              some (globalNodeTransforms.getD n 1 * obj.inverseBindMatrices.getD j 1) := by
  have hinner : ∀ (i : Nat) (skin : Skin) (obj : SkinObject), skins[i]? = some skin →
        skinObjects[i]? = some obj →
      ∃ obj', updateSkin skin globalNodeTransforms obj = some obj' := by
    intro i skin obj hs ho
    obtain ⟨h1, h2, h3, h4⟩ := hready i skin obj hs ho
    obtain ⟨obj', hrun, _⟩ :=
      skinJoint_loop skin.joints globalNodeTransforms obj h1 h2 h3 h4 _ le_rfl
    exact ⟨obj', hrun⟩
  obtain ⟨updated, hrun, _, hdone, _⟩ :=
    updateSkinning_loop skins skinObjects globalNodeTransforms hlen hinner _ le_rfl
  refine ⟨updated, hrun, ?_⟩
  intro i skin obj hs ho
  have hi : i < skins.length := (List.getElem?_eq_some.mp hs).1
  obtain ⟨obj', hget, hupd⟩ := hdone i hi skin obj hs ho
  obtain ⟨h1, h2, h3, h4⟩ := hready i skin obj hs ho
  obtain ⟨obj'', hrun', _, _, hml, hvals⟩ :=
    skinJoint_loop skin.joints globalNodeTransforms obj h1 h2 h3 h4 _ le_rfl
  have hsame : obj'' = obj' := by
    have : some obj'' = some obj' := by
      rw [← hrun']; exact hupd
    exact Option.some.inj this
  subst hsame
  refine ⟨obj'', hget, hml, ?_⟩
  intro j n hjn
  have hj : j < skin.joints.length := (List.getElem?_eq_some.mp hjn).1
  have hn : skin.joints.getD j 0 = n := by
    rw [List.getD_eq_getElem?_getD, hjn]; rfl
  have := hvals j hj
  rw [hn, List.getD_eq_getElem?_getD, List.getElem?_eq_getElem (by omega)] at this
  rw [List.getElem?_eq_getElem (by omega)]
  exact congrArg some this

theorem updateSkinning_jointMatrices_witness :
    ∃ updated, updateSkinning [⟨[1, 0], -1⟩] [⟨[5, 7], [1, 1], [1, 1]⟩] [2, 3]
        = some updated ∧
      ∀ (i : Nat) (skin : Skin) (obj : SkinObject),
        ([⟨[1, 0], -1⟩] : List Skin)[i]? = some skin →
        ([⟨[5, 7], [1, 1], [1, 1]⟩] : List SkinObject)[i]? = some obj →
        ∃ obj', updated[i]? = some obj' ∧
          obj'.jointMatrices.length = skin.joints.length ∧
          ∀ j n, skin.joints[j]? = some n →
            obj'.jointMatrices[j]? =
              some (([2, 3] : List Mat4).getD n 1 * obj.inverseBindMatrices.getD j 1) :=
  updateSkinning_jointMatrices [⟨[1, 0], -1⟩] [⟨[5, 7], [1, 1], [1, 1]⟩] [2, 3]
    (by decide)
    (by
      intro i skin obj hs ho
      match i with
      | 0 =>
        simp only [List.getElem?_cons_zero, Option.some.injEq] at hs ho
        subst hs
        subst ho
        exact ⟨by decide, by decide, by decide, by decide⟩
      | i + 1 => simp at hs)

/-! ## Lemmas about `findKeyframeIndex` -/

theorem vecAt_eq_getD (v : List ℚ) (i : Int) (h0 : 0 ≤ i) (h1 : i < v.length) :
    vecAt v i = some (v.getD i.toNat 0) := by
  unfold vecAt
  have h2 : i.toNat < v.length := by omega
  simp [h0, List.getD_eq_getElem?_getD, List.getElem?_eq_getElem h2]

/-- One iteration of the loop, for bounds inside the vector. -/
theorem findKeyframeLoop_succ (times : List ℚ) (t : ℚ) (fuel : Nat) (left right : Int)
    (h0 : 0 ≤ left) (hlr : left ≤ right) (hr : right < times.length) :
    findKeyframeLoop times t (fuel + 1) left right =
      if (left + right) / 2 + 1 < (times.length : Int)
          ∧ times.getD ((left + right) / 2).toNat 0 ≤ t
          ∧ t < times.getD ((left + right) / 2 + 1).toNat 0 then
        some ((left + right) / 2)
      else if times.getD ((left + right) / 2).toNat 0 > t then
        findKeyframeLoop times t fuel left ((left + right) / 2 - 1)
      else findKeyframeLoop times t fuel ((left + right) / 2 + 1) right := by
  have hdiv : (left + right).tdiv 2 = (left + right) / 2 :=
    Int.tdiv_eq_ediv (by omega) (by norm_num)
  have hm0 : 0 ≤ (left + right) / 2 := by omega
  have hm1 : (left + right) / 2 < times.length := by omega
  rw [findKeyframeLoop]
  simp only [hdiv, if_pos hlr, vecAt_eq_getD times _ hm0 hm1, Option.some_bind]
  by_cases h1 : (left + right) / 2 + 1 < (times.length : Int)
  · rw [vecAt_eq_getD times _ (by omega) h1]
    simp only [Option.some_bind, h1, true_and]
    split_ifs <;> first | rfl | (exfalso; linarith) | (exfalso; tauto)
  · simp only [h1, false_and, if_false]

/-- A strictly increasing list, read through `getD`, is monotone in the index. -/
theorem sorted_getD_lt (times : List ℚ) (hs : times.Sorted (· < ·)) (i j : Nat)
    (hij : i < j) (hj : j < times.length) : times.getD i 0 < times.getD j 0 := by
  have hi : i < times.length := lt_trans hij hj
  rw [List.getD_eq_getElem _ _ hi, List.getD_eq_getElem _ _ hj]
  exact (List.pairwise_iff_getElem.mp hs) i j hi hj hij

theorem sorted_getD_le (times : List ℚ) (hs : times.Sorted (· < ·)) (i j : Nat)
    (hij : i ≤ j) (hj : j < times.length) : times.getD i 0 ≤ times.getD j 0 := by
  rcases Nat.eq_or_lt_of_le hij with h | h
  · rw [h]
  · exact le_of_lt (sorted_getD_lt times hs i j h hj)

/-- Inside the clip an enclosing interval exists. -/
theorem exists_enclosing (times : List ℚ) (t : ℚ) (hlen : 2 ≤ times.length)
    (h0 : times.getD 0 0 ≤ t) (hl : t < times.getD (times.length - 1) 0) :
    ∃ k : Nat, k + 1 < times.length ∧ times.getD k 0 ≤ t ∧ t < times.getD (k + 1) 0 := by
  classical
  have hex : ∃ j, j < times.length ∧ t < times.getD j 0 :=
    ⟨times.length - 1, by omega, hl⟩
  have hspec := Nat.find_spec hex
  have hmin := fun m => @Nat.find_min _ _ hex m
  set j := Nat.find hex with hj
  have hj0 : j ≠ 0 := by
    intro h
    rw [h] at hspec
    exact absurd hspec.2 (not_lt.mpr h0)
  refine ⟨j - 1, by omega, ?_, ?_⟩
  · have := hmin (j - 1) (by omega)
    by_contra hcon
    exact this ⟨by omega, not_le.mp hcon⟩
  · have e : j - 1 + 1 = j := by omega
    rw [e]; exact hspec.2

/-- The enclosing interval of a strictly increasing list is unique. -/
theorem enclosing_unique (times : List ℚ) (t : ℚ) (hs : times.Sorted (· < ·)) (j k : Nat)
    (hj : j + 1 < times.length) (hk : k + 1 < times.length)
    (hj1 : times.getD j 0 ≤ t) (hj2 : t < times.getD (j + 1) 0)
    (hk1 : times.getD k 0 ≤ t) (hk2 : t < times.getD (k + 1) 0) : j = k := by
  rcases Nat.lt_trichotomy j k with h | h | h
  · have := sorted_getD_le times hs (j + 1) k h (by omega)
    exact absurd (lt_of_lt_of_le hj2 (le_trans this hk1)) (lt_irrefl _)
  · exact h
  · have := sorted_getD_le times hs (k + 1) j h (by omega)
    exact absurd (lt_of_lt_of_le hk2 (le_trans this hj1)) (lt_irrefl _)

/-- The loop finds the enclosing interval whenever it lies between the bounds. -/
theorem findKeyframeLoop_enclosing (times : List ℚ) (t : ℚ) (hs : times.Sorted (· < ·))
    (k : Nat) (hk : k + 1 < times.length)
    (hk1 : times.getD k 0 ≤ t) (hk2 : t < times.getD (k + 1) 0) :
    ∀ (fuel : Nat) (left right : Int), 0 ≤ left → left ≤ k → (k : Int) ≤ right →
      right < times.length → right - left + 1 < fuel →
      findKeyframeLoop times t fuel left right = some (k : Int) := by
  intro fuel
  induction fuel with
  | zero => intro left right _ _ _ _ hf; omega
  | succ fuel ih =>
    intro left right h0 hlk hkr hr hf
    rw [findKeyframeLoop_succ times t fuel left right h0 (by omega) hr]
    have hm0 : 0 ≤ (left + right) / 2 := by omega
    obtain ⟨m, hm⟩ : ∃ m : Nat, (left + right) / 2 = (m : Int) :=
      ⟨((left + right) / 2).toNat, (Int.toNat_of_nonneg hm0).symm⟩
    have hm' : ((left + right) / 2 + 1).toNat = m + 1 := by omega
    have hb1 : left ≤ (m : Int) := by omega
    have hb2 : (m : Int) ≤ right := by omega
    rw [hm', hm]
    simp only [Int.toNat_ofNat]
    rcases Nat.lt_trichotomy m k with h | h | h
    · have h1 : times.getD m 0 ≤ t :=
        le_trans (sorted_getD_le times hs m k (le_of_lt h) (by omega)) hk1
      have h2 : ¬ t < times.getD (m + 1) 0 :=
        not_lt.mpr (le_trans (sorted_getD_le times hs (m + 1) k h (by omega)) hk1)
      rw [if_neg (fun hc => h2 hc.2.2), if_neg (not_lt.mpr h1)]
      exact ih _ _ (by omega) (by omega) hkr hr (by omega)
    · subst h
      rw [if_pos ⟨by omega, hk1, hk2⟩]
    · have h1 : t < times.getD m 0 :=
        lt_of_lt_of_le hk2 (sorted_getD_le times hs (k + 1) m h (by omega))
      rw [if_neg (fun hc => absurd hc.2.1 (not_le.mpr h1)), if_pos h1]
      exact ih _ _ h0 hlk (by omega) (by omega) (by omega)

/-- At or after the last timestamp the loop runs off the right end. -/
theorem findKeyframeLoop_past_end (times : List ℚ) (t : ℚ) (hs : times.Sorted (· < ·))
    (hl : times.getD (times.length - 1) 0 ≤ t) :
    ∀ (fuel : Nat) (left : Int), 0 ≤ left → left ≤ times.length →
      (times.length : Int) - left < fuel →
      findKeyframeLoop times t fuel left ((times.length : Int) - 1)
        = some ((times.length : Int) - 2) := by
  intro fuel
  induction fuel with
  | zero => intro left _ _ hf; omega
  | succ fuel ih =>
    intro left h0 hle hf
    by_cases hlr : left ≤ (times.length : Int) - 1
    · rw [findKeyframeLoop_succ times t fuel left _ h0 hlr (by omega)]
      have hm0 : 0 ≤ (left + ((times.length : Int) - 1)) / 2 := by omega
      obtain ⟨m, hm⟩ : ∃ m : Nat, (left + ((times.length : Int) - 1)) / 2 = (m : Int) :=
        ⟨((left + ((times.length : Int) - 1)) / 2).toNat, (Int.toNat_of_nonneg hm0).symm⟩
      have hm' : ((left + ((times.length : Int) - 1)) / 2 + 1).toNat = m + 1 := by omega
      have hb1 : left ≤ (m : Int) := by omega
      have hb2 : (m : Int) ≤ (times.length : Int) - 1 := by omega
      rw [hm', hm]
      simp only [Int.toNat_ofNat]
      have h1 : times.getD m 0 ≤ t :=
        le_trans (sorted_getD_le times hs m (times.length - 1) (by omega) (by omega)) hl
      have h2 : (m : Int) + 1 < times.length → ¬ t < times.getD (m + 1) 0 := fun hlt =>
        not_lt.mpr (le_trans
          (sorted_getD_le times hs (m + 1) (times.length - 1) (by omega) (by omega)) hl)
      rw [if_neg (fun hc => h2 hc.1 hc.2.2), if_neg (not_lt.mpr h1)]
      exact ih _ (by omega) (by omega) (by omega)
    · rw [findKeyframeLoop, if_neg hlr]

/-- Before the first timestamp the loop runs off the left end. -/
theorem findKeyframeLoop_before_start (times : List ℚ) (t : ℚ) (hs : times.Sorted (· < ·))
    (h0 : t < times.getD 0 0) :
    ∀ (fuel : Nat) (right : Int), -1 ≤ right → right < times.length →
      right + 1 < fuel →
      findKeyframeLoop times t fuel 0 right = some ((times.length : Int) - 2) := by
  intro fuel
  induction fuel with
  | zero => intro right _ _ hf; omega
  | succ fuel ih =>
    intro right hr0 hr hf
    by_cases hlr : (0 : Int) ≤ right
    · rw [findKeyframeLoop_succ times t fuel 0 right le_rfl hlr hr]
      have hm0 : 0 ≤ (0 + right) / 2 := by omega
      obtain ⟨m, hm⟩ : ∃ m : Nat, (0 + right) / 2 = (m : Int) :=
        ⟨((0 + right) / 2).toNat, (Int.toNat_of_nonneg hm0).symm⟩
      have hb2 : (m : Int) ≤ right := by omega
      rw [hm]
      simp only [Int.toNat_ofNat]
      have h1 : t < times.getD m 0 :=
        lt_of_lt_of_le h0 (sorted_getD_le times hs 0 m (Nat.zero_le _) (by omega))
      rw [if_neg (fun hc => absurd hc.2.1 (not_le.mpr h1)), if_pos h1]
      exact ih _ (by omega) (by omega) (by omega)
    · rw [findKeyframeLoop, if_neg hlr]

/-! ## Claims about `findKeyframeIndex` -/

/-- C3: for a strictly increasing timestamp array with at least two entries and a time
`t` with `times[0] ≤ t < times[last]`, `findKeyframeIndex` returns the unique index `k`
with `times[k] ≤ t < times[k+1]`. -/
theorem findKeyframeIndex_enclosing (times : List ℚ) (t : ℚ)
    (hs : times.Sorted (· < ·)) (hlen : 2 ≤ times.length)
    (h0 : times.getD 0 0 ≤ t) (hl : t < times.getD (times.length - 1) 0) :
    ∃ k : Nat, findKeyframeIndex times t = some (k : Int) ∧ k + 1 < times.length ∧
      times.getD k 0 ≤ t ∧ t < times.getD (k + 1) 0 ∧
      ∀ j : Nat, j + 1 < times.length → times.getD j 0 ≤ t → t < times.getD (j + 1) 0 →
        j = k := by
  obtain ⟨k, hk, hk1, hk2⟩ := exists_enclosing times t hlen h0 hl
  refine ⟨k, ?_, hk, hk1, hk2, ?_⟩
  · exact findKeyframeLoop_enclosing times t hs k hk hk1 hk2 _ 0 _ le_rfl
      (by omega) (by omega) (by omega) (by push_cast; omega)
  · intro j hj hj1 hj2
    exact enclosing_unique times t hs j k hj hk hj1 hj2 hk1 hk2

theorem findKeyframeIndex_enclosing_witness :
    ∃ k : Nat, findKeyframeIndex [0, 1, 2, 4] 3 = some (k : Int) ∧
      k + 1 < [(0 : ℚ), 1, 2, 4].length ∧
      [(0 : ℚ), 1, 2, 4].getD k 0 ≤ 3 ∧ 3 < [(0 : ℚ), 1, 2, 4].getD (k + 1) 0 ∧
      ∀ j : Nat, j + 1 < [(0 : ℚ), 1, 2, 4].length → [(0 : ℚ), 1, 2, 4].getD j 0 ≤ 3 →
        3 < [(0 : ℚ), 1, 2, 4].getD (j + 1) 0 → j = k :=
  findKeyframeIndex_enclosing [0, 1, 2, 4] 3 (by decide) (by decide) (by decide) (by decide)

/-- C4: for a strictly increasing timestamp array with at least two entries and a time
`t` in no interval `[times[k], times[k+1])`, that is `t ≥ times[last]` or `t < times[0]`,
`findKeyframeIndex` returns `size - 2`. -/
theorem findKeyframeIndex_outside (times : List ℚ) (t : ℚ)
    (hs : times.Sorted (· < ·)) (hlen : 2 ≤ times.length)
    (hout : times.getD (times.length - 1) 0 ≤ t ∨ t < times.getD 0 0) :
    findKeyframeIndex times t = some ((times.length : Int) - 2) := by
  rcases hout with h | h
  · exact findKeyframeLoop_past_end times t hs h _ 0 le_rfl (by omega) (by push_cast; omega)
  · exact findKeyframeLoop_before_start times t hs h _ _ (by omega) (by omega)
      (by push_cast; omega)

theorem findKeyframeIndex_outside_witness :
    findKeyframeIndex [1, 2, 3] 0 = some (([(1 : ℚ), 2, 3].length : Int) - 2) :=
  findKeyframeIndex_outside [1, 2, 3] 0 (by decide) (by decide) (Or.inr (by decide))


/-! ## Wrapped time and interpolation factor -/

theorem fmod_eq_floor (x y : ℚ) (hy : y ≠ 0) (hq : 0 ≤ x / y) :
    fmod x y = some (x - (⌊x / y⌋ : ℚ) * y) := by
  unfold fmod
  rw [if_neg hy, Rat.floor_def, Int.tdiv_eq_ediv (Rat.num_nonneg.mpr hq) (by positivity)]

/-- For a non-negative argument and a positive period `fmod` removes a whole number
of periods and leaves a remainder in `[0, y)`. -/
theorem fmod_nonneg_spec (x y : ℚ) (hx : 0 ≤ x) (hy : 0 < y) :
    ∃ n : Nat, fmod x y = some (x - (n : ℚ) * y) ∧ 0 ≤ x - (n : ℚ) * y ∧
      x - (n : ℚ) * y < y := by
  have hq : 0 ≤ x / y := div_nonneg hx (le_of_lt hy)
  have hfl : 0 ≤ ⌊x / y⌋ := Int.floor_nonneg.mpr hq
  obtain ⟨n, hn⟩ : ∃ n : Nat, ⌊x / y⌋ = (n : Int) :=
    ⟨⌊x / y⌋.toNat, (Int.toNat_of_nonneg hfl).symm⟩
  have h1 : ((n : Int) : ℚ) ≤ x / y := hn ▸ Int.floor_le (x / y)
  have h2 : x / y < ((n : Int) : ℚ) + 1 := hn ▸ Int.lt_floor_add_one (x / y)
  push_cast at h1 h2
  refine ⟨n, ?_, ?_, ?_⟩
  · rw [fmod_eq_floor x y (ne_of_gt hy) hq, hn]; norm_cast
  · have := (le_div_iff₀ hy).mp h1
    linarith
  · have := (div_lt_iff₀ hy).mp h2
    linarith

/-- A remainder in `[0, y)` on top of a whole number of periods is recovered. -/
theorem fmod_add_mul (n : Nat) (r y : ℚ) (hr : 0 ≤ r) (hry : r < y) :
    fmod ((n : ℚ) * y + r) y = some r := by
  have hy : 0 < y := lt_of_le_of_lt hr hry
  have hdiv : ((n : ℚ) * y + r) / y = (n : ℚ) + r / y := by
    field_simp
  have hq : 0 ≤ ((n : ℚ) * y + r) / y := by
    rw [hdiv]; positivity
  have hfl : ⌊((n : ℚ) * y + r) / y⌋ = (n : Int) := by
    rw [Int.floor_eq_iff, hdiv]
    have h1 : 0 ≤ r / y := div_nonneg hr (le_of_lt hy)
    have h2 : r / y < 1 := (div_lt_one hy).mpr hry
    push_cast
    constructor <;> linarith
  rw [fmod_eq_floor _ y (ne_of_gt hy) hq, hfl]
  push_cast
  congr 1
  ring

/-- Without sortedness the loop still ends, with an index between `0` and
`size - 2`. -/
theorem findKeyframeLoop_range (times : List ℚ) (t : ℚ) (hlen : 2 ≤ times.length) :
    ∀ (fuel : Nat) (left right : Int), 0 ≤ left → right < times.length →
      left ≤ right + 1 → right - left + 1 < fuel →
      ∃ k : Int, findKeyframeLoop times t fuel left right = some k ∧ 0 ≤ k ∧
        k ≤ (times.length : Int) - 2 := by
  intro fuel
  induction fuel with
  | zero => intro left right _ _ hlr hf; omega
  | succ fuel ih =>
    intro left right h0 hr hlr1 hf
    by_cases hlr : left ≤ right
    · rw [findKeyframeLoop_succ times t fuel left right h0 hlr hr]
      split_ifs with h1 h2
      · exact ⟨_, rfl, by omega, by omega⟩
      · exact ih _ _ h0 (by omega) (by omega) (by omega)
      · exact ih _ _ (by omega) hr (by omega) (by omega)
    · rw [findKeyframeLoop, if_neg hlr]
      exact ⟨_, rfl, by omega, le_rfl⟩

theorem findKeyframeIndex_range (times : List ℚ) (t : ℚ) (hlen : 2 ≤ times.length) :
    ∃ k : Int, findKeyframeIndex times t = some k ∧ 0 ≤ k ∧
      k ≤ (times.length : Int) - 2 :=
  findKeyframeLoop_range times t hlen _ 0 _ le_rfl (by omega) (by omega)
    (by push_cast; omega)

theorem clamp_mem (x : ℚ) : 0 ≤ clamp x 0 1 ∧ clamp x 0 1 ≤ 1 := by
  unfold clamp
  exact ⟨le_min (le_max_right _ _) zero_le_one, min_le_right _ _⟩

theorem clamp_of_mem (x : ℚ) (h0 : 0 ≤ x) (h1 : x ≤ 1) : clamp x 0 1 = x := by
  unfold clamp
  rw [max_eq_left h0, min_eq_left h1]

/-- C9: for a clock value `time ≥ 0` and a channel whose final keyframe timestamp `L` is
positive, the wrapped animation time `t = fmod(time, L)` used by `updateAnimation` exists,
satisfies `0 ≤ t < L`, and `time - t` is a non-negative integer multiple of `L`. -/
theorem wrappedTime_range (times : List ℚ) (time L : ℚ)
    (hlast : times.getLast? = some L) (htime : 0 ≤ time) (hL : 0 < L) :
    ∃ (t : ℚ) (n : Nat), wrappedTime times time = some t ∧ 0 ≤ t ∧ t < L ∧
      time - t = (n : ℚ) * L := by
  obtain ⟨n, hf, h0, h1⟩ := fmod_nonneg_spec time L htime hL
  refine ⟨time - (n : ℚ) * L, n, ?_, h0, h1, by ring⟩
  simp only [wrappedTime, hlast, Option.some_bind, hf]

theorem wrappedTime_range_witness :
    ∃ (t : ℚ) (n : Nat), wrappedTime [0, 1, 3] (7 / 2) = some t ∧ 0 ≤ t ∧ t < 3 ∧
      7 / 2 - t = (n : ℚ) * 3 :=
  wrappedTime_range [0, 1, 3] (7 / 2) 3 (by rfl) (by norm_num) (by norm_num)

theorem getLast?_eq_getD (times : List ℚ) (h : 0 < times.length) :
    times.getLast? = some (times.getD (times.length - 1) 0) := by
  rw [List.getLast?_eq_getElem?, List.getD_eq_getElem?_getD,
    List.getElem?_eq_getElem (by omega)]
  rfl

/-- C8 (amended): for every timestamp array with at least two entries, sorted or not,
whose final timestamp is not zero, and every clock value, lines 834-841 of
`updateAnimation` produce a factor: the keyframe index and the next index are inside the
array, the factor lies in `[0, 1]`, it equals `(t - t_k) / (t_{k+1} - t_k)` clamped to
`[0, 1]` when `t_{k+1} > t_k`, and it equals `0` when `t_{k+1} ≤ t_k`. -/
theorem keyframeFactor_bounds (times : List ℚ) (time : ℚ) (hlen : 2 ≤ times.length)
    (hlast : times.getLast? ≠ some 0) :
    ∃ (animationTime : ℚ) (k next : Int) (factor t0 t1 : ℚ),
      keyframeFactor times time = some (animationTime, k, next, factor) ∧
      wrappedTime times time = some animationTime ∧
      findKeyframeIndex times animationTime = some k ∧
      next = min (k + 1) ((times.length : Int) - 1) ∧
      vecAt times k = some t0 ∧ vecAt times next = some t1 ∧
      0 ≤ factor ∧ factor ≤ 1 ∧
      (t0 < t1 → factor = clamp ((animationTime - t0) / (t1 - t0)) 0 1) ∧
      (t1 ≤ t0 → factor = 0) := by
  have hL := getLast?_eq_getD times (by omega)
  have hne : times.getD (times.length - 1) 0 ≠ 0 := fun h => hlast (by rw [hL, h])
  obtain ⟨t, ht⟩ : ∃ t, wrappedTime times time = some t := by
    simp only [wrappedTime, hL, Option.some_bind, fmod, if_neg hne]
    exact ⟨_, rfl⟩
  obtain ⟨k, hk, hk0, hk1⟩ := findKeyframeIndex_range times t hlen
  have hnext : min (k + 1) ((times.length : Int) - 1) = k + 1 := min_eq_left (by omega)
  have h0 := vecAt_eq_getD times k hk0 (by omega)
  have h1 := vecAt_eq_getD times (k + 1) (by omega) (by omega)
  refine ⟨t, k, k + 1,
    clamp (if times.getD (k + 1).toNat 0 > times.getD k.toNat 0 then
      (t - times.getD k.toNat 0) / (times.getD (k + 1).toNat 0 - times.getD k.toNat 0)
      else 0) 0 1,
    times.getD k.toNat 0, times.getD (k + 1).toNat 0,
    ?_, ht, hk, hnext.symm, h0, h1, (clamp_mem _).1, (clamp_mem _).2, ?_, ?_⟩
  · simp only [keyframeFactor, ht, hk, hnext, h0, h1, Option.some_bind]
  · intro hlt
    rw [if_pos hlt]
  · intro hle
    rw [if_neg (not_lt.mpr hle)]
    exact clamp_of_mem 0 le_rfl zero_le_one

theorem keyframeFactor_bounds_witness :
    ∃ (animationTime : ℚ) (k next : Int) (factor t0 t1 : ℚ),
      keyframeFactor [3, 1, 2] 5 = some (animationTime, k, next, factor) ∧
      wrappedTime [3, 1, 2] 5 = some animationTime ∧
      findKeyframeIndex [3, 1, 2] animationTime = some k ∧
      next = min (k + 1) (([(3 : ℚ), 1, 2].length : Int) - 1) ∧
      vecAt [(3 : ℚ), 1, 2] k = some t0 ∧ vecAt [(3 : ℚ), 1, 2] next = some t1 ∧
      0 ≤ factor ∧ factor ≤ 1 ∧
      (t0 < t1 → factor = clamp ((animationTime - t0) / (t1 - t0)) 0 1) ∧
      (t1 ≤ t0 → factor = 0) :=
  keyframeFactor_bounds [3, 1, 2] 5 (by decide) (by decide)

/-- C8 (as stated) fails: the array `-1, 0` has two entries and final timestamp `0`, so
`fmod(time, 0)` has no value and no factor in `[0, 1]` is produced. -/
theorem zero_final_timestamp_has_no_factor :
    2 ≤ [(-1 : ℚ), 0].length ∧ keyframeFactor [-1, 0] 1 = none := by
  decide

/-! ## One channel of `updateAnimation` -/

theorem findKeyframeIndex_of_enclosing (times : List ℚ) (t : ℚ) (hs : times.Sorted (· < ·))
    (k : Nat) (hk : k + 1 < times.length)
    (hk1 : times.getD k 0 ≤ t) (hk2 : t < times.getD (k + 1) 0) :
    findKeyframeIndex times t = some (k : Int) :=
  findKeyframeLoop_enclosing times t hs k hk hk1 hk2 _ 0 _ le_rfl
    (by omega) (by omega) (by omega) (by push_cast; omega)

theorem findKeyframeIndex_before_start (times : List ℚ) (t : ℚ) (hs : times.Sorted (· < ·))
    (h0 : t < times.getD 0 0) :
    findKeyframeIndex times t = some ((times.length : Int) - 2) :=
  findKeyframeLoop_before_start times t hs h0 _ _ (by omega) (by omega) (by push_cast; omega)

/-- Inside an interval of a strictly increasing clip the factor is the plain quotient:
the clamp does nothing. -/
theorem keyframeFactor_in_interval (times : List ℚ) (time t : ℚ) (k : Nat)
    (hs : times.Sorted (· < ·)) (hk : k + 1 < times.length)
    (hw : wrappedTime times time = some t)
    (h1 : times.getD k 0 ≤ t) (h2 : t < times.getD (k + 1) 0) :
    keyframeFactor times time = some (t, (k : Int), (k : Int) + 1,
      (t - times.getD k 0) / (times.getD (k + 1) 0 - times.getD k 0)) := by
  have hlt : times.getD k 0 < times.getD (k + 1) 0 :=
    sorted_getD_lt times hs k (k + 1) (Nat.lt_succ_self k) hk
  have hnext : min ((k : Int) + 1) ((times.length : Int) - 1) = (k : Int) + 1 :=
    min_eq_left (by omega)
  have e0 := vecAt_eq_getD times (k : Int) (by omega) (by omega)
  have e1 := vecAt_eq_getD times ((k : Int) + 1) (by omega) (by omega)
  have hn1 : ((k : Int) + 1).toNat = k + 1 := by omega
  rw [Int.toNat_ofNat] at e0
  rw [hn1] at e1
  have hd : 0 < times.getD (k + 1) 0 - times.getD k 0 := sub_pos.mpr hlt
  have hf0 : 0 ≤ (t - times.getD k 0) / (times.getD (k + 1) 0 - times.getD k 0) :=
    div_nonneg (sub_nonneg.mpr h1) (le_of_lt hd)
  have hf1 : (t - times.getD k 0) / (times.getD (k + 1) 0 - times.getD k 0) ≤ 1 := by
    rw [div_le_one hd]; linarith
  simp only [keyframeFactor, hw, findKeyframeIndex_of_enclosing times t hs k hk h1 h2,
    hnext, e0, e1, Option.some_bind, gt_iff_lt, if_pos hlt, clamp_of_mem _ hf0 hf1]

/-- With keyframe data at hand the branch on the target path is `animatedTRS`. -/
theorem channelTRS_some (lib : GlmLib) (path : String) (data : List ℚ)
    (kf : ℚ × Int × Int × ℚ) (trs : Vec3 × Quat × Vec3) :
    channelTRS lib path data (some kf) trs =
      animatedTRS lib path data kf.2.1 kf.2.2.1 kf.2.2.2 trs := by
  unfold channelTRS
  split_ifs with h
  · rfl
  · push_neg at h
    simp [animatedTRS, h.1, h.2.1, h.2.2]

/-- A channel whose target path is none of the three keeps `T`, `R`, `S`, whether or
not the keyframe data have a value. -/
theorem channelTRS_other (lib : GlmLib) (path : String) (data : List ℚ)
    (kf : Option (ℚ × Int × Int × ℚ)) (trs : Vec3 × Quat × Vec3)
    (hp : path ≠ "translation" ∧ path ≠ "rotation" ∧ path ≠ "scale") :
    channelTRS lib path data kf trs = some trs := by
  unfold channelTRS
  rw [if_neg (by push_neg; exact hp)]

/-- Once the keyframe data of a channel are known, the channel rewrites the target
matrix from the animated translation, rotation and scale. -/
theorem updateChannel_eq (lib : GlmLib) (anim : Animation) (animationObject : AnimationObject)
    (time : ℚ) (nodeTransforms : List Mat4) (channel : Channel)
    (sampler : AnimationSampler) (samplerObject : SamplerObject) (kf : ℚ × Int × Int × ℚ)
    (ht0 : 0 ≤ channel.target_node)
    (ht1 : channel.target_node < (nodeTransforms.length : Int))
    (hsampler : anim.samplers[channel.sampler]? = some sampler)
    (hobj : animationObject.samplers[channel.sampler]? = some samplerObject)
    (hlen : 2 ≤ samplerObject.input.length)
    (hkf : keyframeFactor samplerObject.input time = some kf) :
    updateChannel lib anim animationObject time nodeTransforms channel =
      (animatedTRS lib channel.target_path sampler.outputData kf.2.1 kf.2.2.1 kf.2.2.2
        (decompose lib (nodeTransforms.getD channel.target_node.toNat 1))).map fun trs =>
          nodeTransforms.set channel.target_node.toNat (composeTRS trs) := by
  have hM : vecAt nodeTransforms channel.target_node
      = some (nodeTransforms.getD channel.target_node.toNat 1) := by
    unfold vecAt
    have h2 : channel.target_node.toNat < nodeTransforms.length := by omega
    simp [ht0, List.getD_eq_getElem?_getD, List.getElem?_eq_getElem h2]
  unfold updateChannel
  rw [if_neg (by omega), hsampler, hobj]
  simp only [Option.some_bind, if_neg (show ¬ samplerObject.input.length < 2 by omega), hkf, hM,
    channelTRS_some]

theorem mixVec3_formula (v0 v1 : Vec3) (f : ℚ) :
    mixVec3 v0 v1 f = ⟨(1 - f) * v0.x + f * v1.x, (1 - f) * v0.y + f * v1.y,
      (1 - f) * v0.z + f * v1.z⟩ := by
  simp only [mixVec3, mix, Vec3.mk.injEq]
  refine ⟨?_, ?_, ?_⟩ <;> ring

theorem mixVec3_zero (v0 v1 : Vec3) : mixVec3 v0 v1 0 = v0 := by
  simp [mixVec3, mix]

/-- The translation column of `translate(1, T) * mat4_cast(R) * scale(1, S)` is `T`. -/
theorem composeTRS_translation (T : Vec3) (R : Quat) (S : Vec3) :
    colVec3 (composeTRS (T, R, S)) 3 = T := by
  simp [colVec3, composeTRS, translate, scale, mat4_cast, Matrix.mul_apply,
    Fin.sum_univ_four, Matrix.one_apply]

theorem animatedTRS_translation (lib : GlmLib) (data : List ℚ) (k next : Int) (f : ℚ)
    (trs : Vec3 × Quat × Vec3) (v0 v1 : Vec3)
    (h0 : readVec3 data k = some v0) (h1 : readVec3 data next = some v1) :
    animatedTRS lib "translation" data k next f trs
      = some (mixVec3 v0 v1 f, trs.2.1, trs.2.2) := by
  simp [animatedTRS, h0, h1]

theorem animatedTRS_scale (lib : GlmLib) (data : List ℚ) (k next : Int) (f : ℚ)
    (trs : Vec3 × Quat × Vec3) (s0 s1 : Vec3)
    (h0 : readVec3 data k = some s0) (h1 : readVec3 data next = some s1) :
    animatedTRS lib "scale" data k next f trs
      = some (trs.1, trs.2.1, mixVec3 s0 s1 f) := by
  simp [animatedTRS, h0, h1]

theorem wrappedTime_add_period (times : List ℚ) (n : Nat) (r : ℚ) (hlen : 0 < times.length)
    (hr : 0 ≤ r) (hl : r < times.getD (times.length - 1) 0) :
    wrappedTime times ((n : ℚ) * times.getD (times.length - 1) 0 + r) = some r := by
  simp only [wrappedTime, getLast?_eq_getD times hlen, Option.some_bind]
  exact fmod_add_mul n r _ hr hl

theorem wrappedTime_of_lt (times : List ℚ) (time : ℚ) (hlen : 0 < times.length)
    (h0 : 0 ≤ time) (hl : time < times.getD (times.length - 1) 0) :
    wrappedTime times time = some time := by
  have := wrappedTime_add_period times 0 time hlen h0 hl
  simpa using this

/-- A translation or scale channel whose wrapped time lies in the interval `k`. -/
theorem updateChannel_in_interval (lib : GlmLib) (anim : Animation)
    (animationObject : AnimationObject) (time : ℚ) (nodeTransforms : List Mat4)
    (channel : Channel) (sampler : AnimationSampler) (samplerObject : SamplerObject)
    (k : Nat) (t : ℚ) (v0 v1 : Vec3)
    (ht0 : 0 ≤ channel.target_node)
    (ht1 : channel.target_node < (nodeTransforms.length : Int))
    (hsampler : anim.samplers[channel.sampler]? = some sampler)
    (hobj : animationObject.samplers[channel.sampler]? = some samplerObject)
    (hs : samplerObject.input.Sorted (· < ·)) (hk : k + 1 < samplerObject.input.length)
    (hw : wrappedTime samplerObject.input time = some t)
    (h1 : samplerObject.input.getD k 0 ≤ t) (h2 : t < samplerObject.input.getD (k + 1) 0)
    (hv0 : readVec3 sampler.outputData k = some v0)
    (hv1 : readVec3 sampler.outputData ((k : Int) + 1) = some v1) :
    (channel.target_path = "translation" →
      updateChannel lib anim animationObject time nodeTransforms channel =
        some (nodeTransforms.set channel.target_node.toNat (composeTRS
          (mixVec3 v0 v1 ((t - samplerObject.input.getD k 0) /
              (samplerObject.input.getD (k + 1) 0 - samplerObject.input.getD k 0)),
            (decompose lib (nodeTransforms.getD channel.target_node.toNat 1)).2.1,
            (decompose lib (nodeTransforms.getD channel.target_node.toNat 1)).2.2)))) ∧
    (channel.target_path = "scale" →
      updateChannel lib anim animationObject time nodeTransforms channel =
        some (nodeTransforms.set channel.target_node.toNat (composeTRS
          ((decompose lib (nodeTransforms.getD channel.target_node.toNat 1)).1,
            (decompose lib (nodeTransforms.getD channel.target_node.toNat 1)).2.1,
            mixVec3 v0 v1 ((t - samplerObject.input.getD k 0) /
              (samplerObject.input.getD (k + 1) 0 - samplerObject.input.getD k 0)))))) := by
  have hkf := keyframeFactor_in_interval samplerObject.input time t k hs hk hw h1 h2
  have hu := updateChannel_eq lib anim animationObject time nodeTransforms channel sampler
    samplerObject _ ht0 ht1 hsampler hobj (by omega) hkf
  constructor
  · intro hp
    rw [hu, hp, animatedTRS_translation lib _ _ _ _ _ v0 v1 hv0 hv1]
    rfl
  · intro hp
    rw [hu, hp, animatedTRS_scale lib _ _ _ _ _ v0 v1 hv0 hv1]
    rfl

/-! ## Claims about `updateAnimation` -/

/-- C7: the code at the failing input.  In the clip with timestamps `1, 2, 3` and
translations `0, 10, 20` the time `3 + 1/2` wraps to `1/2`, which lies before the first
keyframe; the search returns index `1`, the factor is clamped to `0`, and the translation
becomes `output[1] = 10`, whereas the claimed value
`output[0] + clamp((1/2 - 1) / (2 - 1), 0, 1) * (output[1] - output[0])` is
`output[0] = 0`. -/
theorem updateChannel_wrap_before_first_keyframe :
    (updateChannel sampleGlm lateStartAnimation lateStartObject (7 / 2) [1]
        midpointChannel).map (fun l => colVec3 (l.getD 0 1) 3) = some ⟨10, 0, 0⟩ ∧
      readVec3 [0, 0, 0, 10, 0, 0, 20, 0, 0] 0 = some ⟨0, 0, 0⟩ ∧
      clamp ((1 / 2 - 1) / (2 - 1)) 0 1 = 0 := by
  refine ⟨?_, by decide, by norm_num [clamp]⟩
  have hw : wrappedTime [1, 2, 3] (7 / 2) = some (1 / 2) := by
    have := wrappedTime_add_period [1, 2, 3] 1 (1 / 2) (by decide) (by norm_num)
      (by norm_num)
    norm_num at this
    exact this
  have hk : findKeyframeIndex [1, 2, 3] (1 / 2) = some 1 :=
    findKeyframeIndex_before_start [1, 2, 3] (1 / 2) (by decide) (by norm_num)
  have e1 : vecAt [(1 : ℚ), 2, 3] 1 = some 2 := by decide
  have e2 : vecAt [(1 : ℚ), 2, 3] 2 = some 3 := by decide
  have hn : min ((1 : Int) + 1) ((([(1 : ℚ), 2, 3].length : Nat) : Int) - 1) = 2 := by decide
  have hkf : keyframeFactor [1, 2, 3] (7 / 2) = some (1 / 2, 1, 2, 0) := by
    simp only [keyframeFactor, hw, hk, hn, e1, e2, Option.some_bind]
    norm_num [clamp]
  have hu := updateChannel_eq sampleGlm lateStartAnimation lateStartObject (7 / 2) [1]
    midpointChannel ⟨[0, 0, 0, 10, 0, 0, 20, 0, 0]⟩ ⟨[1, 2, 3], [], 0⟩ _
    (by decide) (by decide) (by rfl) (by rfl) (by decide) hkf
  have hp : midpointChannel.target_path = "translation" := rfl
  rw [hu, hp, animatedTRS_translation sampleGlm _ _ _ _ _ ⟨10, 0, 0⟩ ⟨20, 0, 0⟩
    (by decide) (by decide)]
  simp only [Option.map_some', midpointChannel, Int.toNat_zero, List.set_cons_zero,
    List.getD_cons_zero, composeTRS_translation, mixVec3_zero]

/-- C10: a channel whose sampler has fewer than two keyframe timestamps leaves the node
transforms exactly as they were, whatever the time, the timestamps and the output data
are; the result does not depend on any keyframe or output value and exists even when
those arrays are empty. -/
theorem updateChannel_short_sampler (lib : GlmLib) (anim : Animation)
    (animationObject : AnimationObject) (time : ℚ) (nodeTransforms : List Mat4)
    (channel : Channel) (sampler : AnimationSampler) (samplerObject : SamplerObject)
    (hsampler : anim.samplers[channel.sampler]? = some sampler)
    (hobj : animationObject.samplers[channel.sampler]? = some samplerObject)
    (hshort : samplerObject.input.length < 2) :
    updateChannel lib anim animationObject time nodeTransforms channel
      = some nodeTransforms := by
  unfold updateChannel
  split_ifs with h
  · rfl
  · simp only [hsampler, hobj, Option.some_bind, if_pos hshort]

theorem updateChannel_short_sampler_witness :
    updateChannel sampleGlm ⟨[], [⟨[]⟩]⟩ ⟨[⟨[7], [], 0⟩]⟩ 3 [1] midpointChannel
      = some [1] :=
  updateChannel_short_sampler sampleGlm ⟨[], [⟨[]⟩]⟩ ⟨[⟨[7], [], 0⟩]⟩ 3 [1] midpointChannel
    ⟨[]⟩ ⟨[7], [], 0⟩ (by rfl) (by rfl) (by decide)

/-! ## Joint-matrix array length -/

theorem skinJoint_shape (joints : List Nat) (globals : List Mat4) (obj obj' : SkinObject)
    (j : Nat) (h : skinJoint joints globals obj j = some obj') :
    obj'.inverseBindMatrices = obj.inverseBindMatrices ∧
      obj'.globalJointTransforms.length = obj.globalJointTransforms.length ∧
      obj'.jointMatrices.length = obj.jointMatrices.length := by
  unfold skinJoint at h
  cases h1 : joints[j]? with
  | none => simp [h1] at h
  | some n =>
    cases h2 : globals[n]? with
    | none => simp [h1, h2] at h
    | some gt =>
      simp only [h1, h2, Option.some_bind] at h
      by_cases h3 : j < obj.globalJointTransforms.length
      · rw [if_pos h3] at h
        cases h4 : obj.inverseBindMatrices[j]? with
        | none => simp [h4] at h
        | some ibm =>
          simp only [h4, Option.some_bind] at h
          by_cases h5 : j < obj.jointMatrices.length
          · rw [if_pos h5] at h
            cases h
            simp
          · rw [if_neg h5] at h
            cases h
      · rw [if_neg h3] at h
        cases h

theorem skinJoint_fold_shape (joints : List Nat) (globals : List Mat4) :
    ∀ (js : List Nat) (obj obj' : SkinObject),
      js.foldlM (skinJoint joints globals) obj = some obj' →
      obj'.inverseBindMatrices = obj.inverseBindMatrices ∧
        obj'.globalJointTransforms.length = obj.globalJointTransforms.length ∧
        obj'.jointMatrices.length = obj.jointMatrices.length := by
  intro js
  induction js with
  | nil =>
    intro obj obj' h
    simp only [List.foldlM_nil, Option.pure_def, Option.some.injEq] at h
    rw [h]
    exact ⟨rfl, rfl, rfl⟩
  | cons j js ih =>
    intro obj obj' h
    simp only [List.foldlM_cons, Option.bind_eq_bind] at h
    cases h1 : skinJoint joints globals obj j with
    | none => simp [h1] at h
    | some obj1 =>
      simp only [h1, Option.some_bind] at h
      obtain ⟨a1, a2, a3⟩ := ih obj1 obj' h
      obtain ⟨b1, b2, b3⟩ := skinJoint_shape joints globals obj obj1 j h1
      exact ⟨a1.trans b1, a2.trans b2, a3.trans b3⟩

/-- Whenever `updateSkin` returns, the inverse-bind matrices and the lengths of the two
per-joint vectors are the ones it was given. -/
theorem updateSkin_shape (skin : Skin) (globals : List Mat4) (obj obj' : SkinObject)
    (h : updateSkin skin globals obj = some obj') :
    obj'.inverseBindMatrices = obj.inverseBindMatrices ∧
      obj'.globalJointTransforms.length = obj.globalJointTransforms.length ∧
      obj'.jointMatrices.length = obj.jointMatrices.length :=
  skinJoint_fold_shape skin.joints globals _ obj obj' h

/-- The loop over the skins keeps every per-skin property that `updateSkin` keeps, for
any list of skin indices. -/
theorem updateSkinning_fold_keeps (skins : List Skin) (globals : List Mat4)
    (Q : Skin → SkinObject → Prop)
    (hQ : ∀ skin obj obj', Q skin obj → updateSkin skin globals obj = some obj' → Q skin obj') :
    ∀ (is : List Nat) (objs updated : List SkinObject),
      (objs.length = skins.length ∧
        ∀ (i : Nat) (skin : Skin) (obj : SkinObject), skins[i]? = some skin →
          objs[i]? = some obj → Q skin obj) →
      is.foldlM
          (fun objs i =>
            (skins[i]?).bind fun skin =>
              (objs[i]?).bind fun skinObject =>
                (updateSkin skin globals skinObject).map fun updated => objs.set i updated)
          objs = some updated →
      (updated.length = skins.length ∧
        ∀ (i : Nat) (skin : Skin) (obj : SkinObject), skins[i]? = some skin →
          updated[i]? = some obj → Q skin obj) := by
  intro is
  induction is with
  | nil =>
    intro objs updated hinv h
    simp only [List.foldlM_nil, Option.pure_def, Option.some.injEq] at h
    rw [← h]; exact hinv
  | cons i is ih =>
    intro objs updated hinv h
    simp only [List.foldlM_cons, Option.bind_eq_bind] at h
    cases h1 : skins[i]? with
    | none => simp [h1] at h
    | some skin =>
      cases h2 : objs[i]? with
      | none => simp [h1, h2] at h
      | some obj =>
        cases h3 : updateSkin skin globals obj with
        | none => simp [h1, h2, h3] at h
        | some obj' =>
          simp only [h1, h2, h3, Option.some_bind, Option.map_some'] at h
          refine ih (objs.set i obj') updated ?_ h
          refine ⟨by rw [List.length_set]; exact hinv.1, ?_⟩
          intro k sk ob hsk hob
          by_cases hik : i = k
          · subst hik
            rw [List.getElem?_set_self ((List.getElem?_eq_some.mp h2).1)] at hob
            cases hob
            rw [h1] at hsk
            cases hsk
            exact hQ skin obj obj' (hinv.2 i skin obj h1 h2) h3
          · rw [List.getElem?_set_ne hik] at hob
            exact hinv.2 k sk ob hsk hob

theorem updateSkinning_inv (skins : List Skin) (globals : List Mat4)
    (objs updated : List SkinObject) (hinv : JointCountInv skins objs)
    (h : updateSkinning skins objs globals = some updated) :
    JointCountInv skins updated :=
  updateSkinning_fold_keeps skins globals
    (fun skin obj => obj.jointMatrices.length = skin.joints.length)
    (fun skin obj obj' hq hu => by
      show obj'.jointMatrices.length = skin.joints.length
      rw [(updateSkin_shape skin globals obj obj' hu).2.2]; exact hq)
    _ objs updated hinv h

theorem prepareSkin_shape (nodes : List Node) (fuel : Nat) (skin : Skin)
    (inverseBind : List Mat4) (obj : SkinObject)
    (h : prepareSkin nodes fuel skin inverseBind = some obj) :
    obj.inverseBindMatrices = inverseBind ∧
      obj.globalJointTransforms.length = skin.joints.length ∧
      obj.jointMatrices.length = skin.joints.length := by
  unfold prepareSkin at h
  cases h1 : skinRoot skin with
  | none => simp [h1] at h
  | some r =>
    cases h2 : computeLocalNodeTransform nodes fuel r (List.replicate nodes.length 1) with
    | none => simp [h1, h2] at h
    | some l =>
      cases h3 : computeGlobalNodeTransform nodes l fuel r 1 (List.replicate nodes.length 1) with
      | none => simp [h1, h2, h3] at h
      | some g =>
        simp only [h1, h2, h3, Option.some_bind] at h
        obtain ⟨a1, a2, a3⟩ := updateSkin_shape skin g _ obj h
        exact ⟨a1, by rw [a2]; simp, by rw [a3]; simp⟩

/-- The loop of `prepareSkinning` pushes one object per skin, each with the shape that
`prepareSkin` gives it. -/
theorem prepareSkinning_fold_shape (nodes : List Node) (fuel : Nat) :
    ∀ (skins done : List (Skin × List Mat4)) (out objs : List SkinObject),
      (out.length = done.length ∧
        ∀ (i : Nat) (s : Skin × List Mat4) (obj : SkinObject), done[i]? = some s →
          out[i]? = some obj → prepareSkin nodes fuel s.1 s.2 = some obj) →
      skins.foldlM
          (fun out s =>
            (prepareSkin nodes fuel s.1 s.2).map fun skinObject => out ++ [skinObject])
          out = some objs →
      (objs.length = (done ++ skins).length ∧
        ∀ (i : Nat) (s : Skin × List Mat4) (obj : SkinObject), (done ++ skins)[i]? = some s →
          objs[i]? = some obj → prepareSkin nodes fuel s.1 s.2 = some obj) := by
  intro skins
  induction skins with
  | nil =>
    intro done out objs hinv h
    simp only [List.foldlM_nil, Option.pure_def, Option.some.injEq] at h
    rw [← h, List.append_nil]; exact hinv
  | cons s skins ih =>
    intro done out objs hinv h
    simp only [List.foldlM_cons, Option.bind_eq_bind] at h
    cases h1 : prepareSkin nodes fuel s.1 s.2 with
    | none => simp [h1] at h
    | some obj =>
      simp only [h1, Option.map_some', Option.some_bind] at h
      have := ih (done ++ [s]) (out ++ [obj]) objs ?_ h
      · simpa using this
      · refine ⟨by simp [hinv.1], ?_⟩
        intro k sk ob hsk hob
        by_cases hk : k < out.length
        · rw [List.getElem?_append_left hk] at hob
          rw [List.getElem?_append_left (by rw [← hinv.1]; exact hk)] at hsk
          exact hinv.2 k sk ob hsk hob
        · have hk' : out.length ≤ k := not_lt.mp hk
          rw [List.getElem?_append_right hk'] at hob
          rw [List.getElem?_append_right (by rw [← hinv.1]; exact hk'), ← hinv.1] at hsk
          cases hko : k - out.length with
          | zero =>
            rw [hko] at hob hsk
            simp only [List.getElem?_cons_zero, Option.some.injEq] at hob hsk
            rw [← hob, ← hsk]
            exact h1
          | succ m =>
            rw [hko] at hob
            simp at hob

theorem prepareSkinning_shape (nodes : List Node) (fuel : Nat)
    (skins : List (Skin × List Mat4)) (objs : List SkinObject)
    (h : prepareSkinning nodes fuel skins = some objs) :
    objs.length = skins.length ∧
      ∀ (i : Nat) (s : Skin × List Mat4) (obj : SkinObject), skins[i]? = some s →
        objs[i]? = some obj → prepareSkin nodes fuel s.1 s.2 = some obj := by
  have := prepareSkinning_fold_shape nodes fuel skins [] [] objs
    ⟨rfl, fun i _ _ _ h => by simp at h⟩ h
  simpa using this

theorem prepareSkinning_inv (nodes : List Node) (fuel : Nat) (skins : List (Skin × List Mat4))
    (objs : List SkinObject) (h : prepareSkinning nodes fuel skins = some objs) :
    JointCountInv (skins.map Prod.fst) objs := by
  obtain ⟨hl, hs⟩ := prepareSkinning_shape nodes fuel skins objs h
  refine ⟨by rw [hl, List.length_map], ?_⟩
  intro i skin obj hskin hobj
  rw [List.getElem?_map] at hskin
  cases hsi : skins[i]? with
  | none => simp [hsi] at hskin
  | some s =>
    simp only [hsi, Option.map_some', Option.some.injEq] at hskin
    rw [← hskin]
    exact (prepareSkin_shape nodes fuel s.1 s.2 obj (hs i s obj hsi hobj)).2.2

/-! ### `prepareSkinning` returns on well-formed skins -/

theorem local_forest_run (nodes : List Node) (fuel : Nat)
    (ih : ∀ (i : Nat) (l : List Mat4) (vs : List Nat),
      visitOrder nodes fuel i = some vs → l.length = nodes.length →
      ∃ l', computeLocalNodeTransform nodes fuel i l = some l' ∧ l'.length = nodes.length) :
    ∀ (cs acc vs : List Nat) (l : List Mat4),
      cs.foldlM (fun visited c => (visitOrder nodes fuel c).map fun sub => visited ++ sub) acc
        = some vs →
      l.length = nodes.length →
      ∃ l', cs.foldlM (fun l c => computeLocalNodeTransform nodes fuel c l) l = some l' ∧
        l'.length = nodes.length := by
  intro cs
  induction cs with
  | nil =>
    intro acc vs l _ hl
    exact ⟨l, by simp, hl⟩
  | cons c cs ihcs =>
    intro acc vs l hv hl
    simp only [List.foldlM_cons, Option.bind_eq_bind] at hv
    cases hs : visitOrder nodes fuel c with
    | none => simp [hs] at hv
    | some s =>
      simp only [hs, Option.map_some', Option.some_bind] at hv
      obtain ⟨l1, hrun1, hl1⟩ := ih c l s hs hl
      obtain ⟨l', hrun, hl'⟩ := ihcs (acc ++ s) vs l1 hv hl1
      refine ⟨l', ?_, hl'⟩
      simp only [List.foldlM_cons, Option.bind_eq_bind, hrun1, Option.some_bind]
      exact hrun

theorem local_tree_run (nodes : List Node) :
    ∀ (fuel : Nat) (i : Nat) (l : List Mat4) (vs : List Nat),
      visitOrder nodes fuel i = some vs → l.length = nodes.length →
      ∃ l', computeLocalNodeTransform nodes fuel i l = some l' ∧ l'.length = nodes.length := by
  intro fuel
  induction fuel with
  | zero => intro i l vs hv; simp [visitOrder] at hv
  | succ fuel ih =>
    intro i l vs hv hl
    rw [visitOrder] at hv
    cases hn : nodes[i]? with
    | none => simp [hn] at hv
    | some node =>
      simp only [hn, Option.some_bind] at hv
      have hi : i < nodes.length := (List.getElem?_eq_some.mp hn).1
      obtain ⟨l', hrun, hl'⟩ := local_forest_run nodes fuel ih node.children [i] vs
        (l.set i (getNodeTransform node)) hv (by rw [List.length_set]; exact hl)
      refine ⟨l', ?_, hl'⟩
      rw [computeLocalNodeTransform]
      simp only [hn, Option.some_bind, if_pos (show i < l.length by omega)]
      exact hrun

theorem prepareSkin_succeeds (nodes : List Node) (fuel : Nat) (skin : Skin)
    (inverseBind : List Mat4) (hwf : SkinWellFormed nodes fuel skin inverseBind) :
    ∃ obj, prepareSkin nodes fuel skin inverseBind = some obj := by
  obtain ⟨⟨root, vs, hroot, hvis, hnd⟩, hj, hib⟩ := hwf
  obtain ⟨l, hl, hll⟩ := local_tree_run nodes fuel root (List.replicate nodes.length 1) vs hvis
    (by simp)
  obtain ⟨g, hg, _, _, hdone⟩ := tree_run nodes l hll fuel root 1
    (List.replicate nodes.length 1) vs hvis hnd (by simp)
  have hgl : g.length = nodes.length := by rw [hdone.length_eq]; simp
  obtain ⟨obj, hrun, _⟩ := skinJoint_loop skin.joints g
    { inverseBindMatrices := inverseBind
      globalJointTransforms := List.replicate skin.joints.length 0
      jointMatrices := List.replicate skin.joints.length 0 }
    hib (by simp) (by simp) (fun n hn => by rw [hgl]; exact hj n hn) _ le_rfl
  refine ⟨obj, ?_⟩
  unfold prepareSkin
  simp only [hroot, hl, hg, Option.some_bind]
  exact hrun

theorem prepareSkinning_succeeds (nodes : List Node) (fuel : Nat) :
    ∀ (skins : List (Skin × List Mat4)) (out : List SkinObject),
      (∀ s ∈ skins, SkinWellFormed nodes fuel s.1 s.2) →
      ∃ objs, skins.foldlM
          (fun out s =>
            (prepareSkin nodes fuel s.1 s.2).map fun skinObject => out ++ [skinObject])
          out = some objs := by
  intro skins
  induction skins with
  | nil => intro out _; exact ⟨out, rfl⟩
  | cons s skins ih =>
    intro out hwf
    obtain ⟨obj, hobj⟩ := prepareSkin_succeeds nodes fuel s.1 s.2 (hwf s (List.mem_cons_self _ _))
    obtain ⟨objs, hobjs⟩ := ih (out ++ [obj]) (fun s' hs' => hwf s' (List.mem_cons_of_mem _ hs'))
    refine ⟨objs, ?_⟩
    simp only [List.foldlM_cons, Option.bind_eq_bind, hobj, Option.map_some', Option.some_bind]
    exact hobjs
/-- C14: whenever `prepareSkinning` returns, there is one skin object per skin and its
`jointMatrices` array has as many entries as the skin has joints, for every skin (so for
1, 4 or 100 joints); every call of `updateSkinning` that returns, for every vector of
global transforms, keeps this; and on well-formed skins `prepareSkinning` does return,
as does `updateSkinning` for every vector with an entry per node. -/
theorem jointMatrices_length_invariant (nodes : List Node) (fuel : Nat)
    (skins : List (Skin × List Mat4)) :
    (∀ objs, prepareSkinning nodes fuel skins = some objs →
      JointCountInv (skins.map Prod.fst) objs) ∧
    (∀ objs globals updated, JointCountInv (skins.map Prod.fst) objs →
      updateSkinning (skins.map Prod.fst) objs globals = some updated →
      JointCountInv (skins.map Prod.fst) updated) ∧
    ((∀ s ∈ skins, SkinWellFormed nodes fuel s.1 s.2) →
      ∃ objs, prepareSkinning nodes fuel skins = some objs ∧
        JointCountInv (skins.map Prod.fst) objs ∧
        ∀ globals : List Mat4, nodes.length ≤ globals.length →
          ∃ updated, updateSkinning (skins.map Prod.fst) objs globals = some updated ∧
            JointCountInv (skins.map Prod.fst) updated) := by
  refine ⟨prepareSkinning_inv nodes fuel skins,
    fun objs globals updated hinv h =>
      updateSkinning_inv (skins.map Prod.fst) globals objs updated hinv h, ?_⟩
  intro hwf
  obtain ⟨objs, hobjs⟩ := prepareSkinning_succeeds nodes fuel skins [] hwf
  have hinv := prepareSkinning_inv nodes fuel skins objs hobjs
  obtain ⟨hl, hshape⟩ := prepareSkinning_shape nodes fuel skins objs hobjs
  refine ⟨objs, hobjs, hinv, ?_⟩
  intro globals hg
  have hready : ∀ (i : Nat) (skin : Skin) (obj : SkinObject),
      (skins.map Prod.fst)[i]? = some skin → objs[i]? = some obj →
      ∃ obj', updateSkin skin globals obj = some obj' := by
    intro i skin obj hskin hobj
    rw [List.getElem?_map] at hskin
    cases hsi : skins[i]? with
    | none => simp [hsi] at hskin
    | some s =>
      simp only [hsi, Option.map_some', Option.some.injEq] at hskin
      subst hskin
      obtain ⟨a1, a2, a3⟩ := prepareSkin_shape nodes fuel s.1 s.2 obj (hshape i s obj hsi hobj)
      obtain ⟨_, hj, hib⟩ := hwf s (by obtain ⟨hlt, he⟩ := List.getElem?_eq_some.mp hsi; rw [← he]; exact List.getElem_mem _)
      obtain ⟨obj', hrun, _⟩ := skinJoint_loop s.1.joints globals obj (by rw [a1]; exact hib)
        a2 a3 (fun n hn => lt_of_lt_of_le (hj n hn) hg) _ le_rfl
      exact ⟨obj', hrun⟩
  obtain ⟨updated, hrun, _⟩ := updateSkinning_loop (skins.map Prod.fst) objs globals
    (by rw [hinv.1]) hready _ le_rfl
  exact ⟨updated, hrun, updateSkinning_inv _ globals objs updated hinv hrun⟩

theorem jointMatrices_length_invariant_witness :
    ∃ objs, prepareSkinning threeLevelNodes 3
        [(⟨[2], 0⟩, [1]), (⟨[0, 1, 2, 3], -1⟩, [1, 1, 1, 1]),
          (⟨List.replicate 100 3, 0⟩, List.replicate 100 1)] = some objs ∧
      JointCountInv
        (([(⟨[2], 0⟩, [1]), (⟨[0, 1, 2, 3], -1⟩, [1, 1, 1, 1]),
          (⟨List.replicate 100 3, 0⟩, List.replicate 100 1)] :
            List (Skin × List Mat4)).map Prod.fst) objs ∧
      ∀ globals : List Mat4, threeLevelNodes.length ≤ globals.length →
        ∃ updated, updateSkinning
            (([(⟨[2], 0⟩, [1]), (⟨[0, 1, 2, 3], -1⟩, [1, 1, 1, 1]),
              (⟨List.replicate 100 3, 0⟩, List.replicate 100 1)] :
                List (Skin × List Mat4)).map Prod.fst) objs globals = some updated ∧
          JointCountInv
            (([(⟨[2], 0⟩, [1]), (⟨[0, 1, 2, 3], -1⟩, [1, 1, 1, 1]),
              (⟨List.replicate 100 3, 0⟩, List.replicate 100 1)] :
                List (Skin × List Mat4)).map Prod.fst) updated :=
  (jointMatrices_length_invariant threeLevelNodes 3
    [(⟨[2], 0⟩, [1]), (⟨[0, 1, 2, 3], -1⟩, [1, 1, 1, 1]),
      (⟨List.replicate 100 3, 0⟩, List.replicate 100 1)]).2.2
    (by
      intro s hs
      simp only [List.mem_cons, List.mem_singleton, List.not_mem_nil, or_false] at hs
      rcases hs with rfl | rfl | rfl
      · exact ⟨⟨0, [0, 1, 3, 2], by decide, by decide, by decide⟩, by decide, by decide⟩
      · exact ⟨⟨0, [0, 1, 3, 2], by decide, by decide, by decide⟩, by decide, by decide⟩
      · exact ⟨⟨0, [0, 1, 3, 2], by decide, by decide, by decide⟩,
          fun n hn => by rw [List.eq_of_mem_replicate hn]; decide, by simp⟩)

/-! ## Rounding to `float` -/

theorem roundHalfEven_floor_le (q : ℚ) : (⌊q⌋ : Int) ≤ roundHalfEven q := by
  unfold roundHalfEven
  split_ifs <;> omega

theorem roundHalfEven_le_floor_add (q : ℚ) : roundHalfEven q ≤ ⌊q⌋ + 1 := by
  unfold roundHalfEven
  split_ifs <;> omega

/-- Rounding does not cross an integer from below. -/
theorem roundHalfEven_le (q : ℚ) (m : Int) (h : q ≤ m) : roundHalfEven q ≤ m := by
  have hf : ⌊q⌋ ≤ m := Int.floor_le_iff.mpr (by linarith)
  rcases lt_or_eq_of_le hf with h1 | h1
  · have := roundHalfEven_le_floor_add q
    omega
  · have hq : q = m := le_antisymm h (by rw [← h1]; exact Int.floor_le q)
    subst hq
    unfold roundHalfEven
    simp

/-- Rounding does not cross an integer from above. -/
theorem le_roundHalfEven (q : ℚ) (m : Int) (h : (m : ℚ) ≤ q) : m ≤ roundHalfEven q :=
  (Int.le_floor.mpr h).trans (roundHalfEven_floor_le q)

/-- A rational closer than `1/2` to an integer is rounded to it. -/
theorem roundHalfEven_eq (q : ℚ) (n : Int) (h1 : (n : ℚ) - 1 / 2 < q)
    (h2 : q < n + 1 / 2) : roundHalfEven q = n := by
  rcases le_or_lt (n : ℚ) q with h | h
  · have hf : ⌊q⌋ = n := Int.floor_eq_iff.mpr ⟨h, by linarith⟩
    unfold roundHalfEven
    rw [hf, if_pos (by linarith)]
  · have hf : ⌊q⌋ = n - 1 := Int.floor_eq_iff.mpr ⟨by push_cast; linarith, by push_cast; linarith⟩
    unfold roundHalfEven
    rw [hf, if_neg (by push_cast; linarith), if_pos (by push_cast; linarith)]
    ring

/-- The exponent that `f32` uses for `x`. -/
theorem f32_exponent (x : ℚ) (hx : x ≠ 0) (he : -126 < max (Int.log 2 |x|) (-126)) :
    (2 : ℚ) ^ (max (Int.log 2 |x|) (-126)) ≤ |x| := by
  have h : max (Int.log 2 |x|) (-126) = Int.log 2 |x| := by
    rcases le_total (Int.log 2 |x|) (-126) with h | h
    · rw [max_eq_right h] at he; omega
    · exact max_eq_left h
  rw [h]
  exact_mod_cast Int.zpow_log_le_self (by norm_num) (abs_pos.mpr hx)

/-- A bound that is itself a `float` (`m * 2 ^ j` with `|m| ≤ 2 ^ 24` and `j ≥ -149`) is
kept by rounding: from above. -/
theorem f32_le (x b : ℚ) (m j : Int) (hb : b = m * 2 ^ j) (hm : |m| ≤ 2 ^ 24)
    (hj : -149 ≤ j) (h : x ≤ b) : f32 x ≤ b := by
  unfold f32
  split_ifs with hx
  · rw [← hx]; exact h
  · set e := max (Int.log 2 |x|) (-126) with he
    have he126 : -126 ≤ e := le_max_right _ _
    have hu : (0 : ℚ) < 2 ^ (e - 23) := zpow_pos (by norm_num) _
    rcases le_or_lt (e - 23) j with hje | hje
    · -- the bound lies on the grid of `x`
      obtain ⟨k, hk⟩ : ∃ k : Nat, j = e - 23 + k := ⟨(j - (e - 23)).toNat, by omega⟩
      have hbu : b = ((m * 2 ^ k : Int) : ℚ) * 2 ^ (e - 23) := by
        rw [hb, hk, zpow_add₀ (by norm_num : (2 : ℚ) ≠ 0), zpow_natCast]
        push_cast
        ring
      have hq : x / 2 ^ (e - 23) ≤ ((m * 2 ^ k : Int) : ℚ) := by
        rw [div_le_iff₀ hu, ← hbu]; exact h
      have := roundHalfEven_le _ _ hq
      rw [hbu]
      exact mul_le_mul_of_nonneg_right (by exact_mod_cast this) hu.le
    · -- the bound is finer than the grid of `x`, so it is at most `2 ^ e` in size
      have hlt : -126 < e := by omega
      have hxe := f32_exponent x hx (by rw [← he]; exact hlt)
      rw [← he] at hxe
      have hbe : |b| ≤ 2 ^ e := by
        rw [hb, abs_mul, abs_of_pos (zpow_pos (by norm_num : (0 : ℚ) < 2) j)]
        have h1 : |(m : ℚ)| ≤ 2 ^ (24 : ℤ) := by
          have : ((|m| : Int) : ℚ) ≤ ((2 ^ 24 : Int) : ℚ) := by exact_mod_cast hm
          rw [Int.cast_abs] at this
          exact this.trans (by norm_num)
        calc |(m : ℚ)| * 2 ^ j ≤ 2 ^ (24 : ℤ) * 2 ^ j :=
              mul_le_mul_of_nonneg_right h1 (zpow_pos (by norm_num) _).le
          _ = 2 ^ (24 + j) := by rw [zpow_add₀ (by norm_num : (2 : ℚ) ≠ 0)]
          _ ≤ 2 ^ e := zpow_le_zpow_right₀ (by norm_num) (by omega)
      have he23 : (2 : ℚ) ^ e = ((2 ^ 23 : Int) : ℚ) * 2 ^ (e - 23) := by
        rw [show e = 23 + (e - 23) by ring, zpow_add₀ (by norm_num : (2 : ℚ) ≠ 0)]
        norm_num
      rcases lt_or_gt_of_ne hx with hneg | hpos
      · have hxle : x ≤ -(2 ^ e) := by
          rw [abs_of_neg hneg] at hxe; linarith
        have hq : x / 2 ^ (e - 23) ≤ ((-(2 ^ 23) : Int) : ℚ) := by
          rw [div_le_iff₀ hu]
          push_cast
          rw [he23] at hxle
          push_cast at hxle
          linarith
        have := roundHalfEven_le _ _ hq
        have h2 : (roundHalfEven (x / 2 ^ (e - 23)) : ℚ) * 2 ^ (e - 23) ≤ -(2 ^ e) := by
          rw [he23]
          have : (roundHalfEven (x / 2 ^ (e - 23)) : ℚ) ≤ ((-(2 ^ 23) : Int) : ℚ) := by
            exact_mod_cast this
          push_cast at this ⊢
          nlinarith
        have := (abs_le.mp hbe).1
        linarith
      · have hxe' : (2 : ℚ) ^ e ≤ x := by rwa [abs_of_pos hpos] at hxe
        have hbx : b = x := le_antisymm (by linarith [(abs_le.mp hbe).2]) h
        have hq : x / 2 ^ (e - 23) ≤ ((2 ^ 23 : Int) : ℚ) := by
          rw [div_le_iff₀ hu, ← he23]
          linarith [(abs_le.mp hbe).2]
        have := roundHalfEven_le _ _ hq
        have h2 : (roundHalfEven (x / 2 ^ (e - 23)) : ℚ) * 2 ^ (e - 23) ≤ 2 ^ e := by
          rw [he23]
          exact mul_le_mul_of_nonneg_right (by exact_mod_cast this) hu.le
        linarith [(abs_le.mp hbe).2]

/-- A bound that is itself a `float` is kept by rounding: from below. -/
theorem le_f32 (x a : ℚ) (m j : Int) (ha : a = m * 2 ^ j) (hm : |m| ≤ 2 ^ 24)
    (hj : -149 ≤ j) (h : a ≤ x) : a ≤ f32 x := by
  unfold f32
  split_ifs with hx
  · rw [← hx]; exact h
  · set e := max (Int.log 2 |x|) (-126) with he
    have he126 : -126 ≤ e := le_max_right _ _
    have hu : (0 : ℚ) < 2 ^ (e - 23) := zpow_pos (by norm_num) _
    rcases le_or_lt (e - 23) j with hje | hje
    · obtain ⟨k, hk⟩ : ∃ k : Nat, j = e - 23 + k := ⟨(j - (e - 23)).toNat, by omega⟩
      have hau : a = ((m * 2 ^ k : Int) : ℚ) * 2 ^ (e - 23) := by
        rw [ha, hk, zpow_add₀ (by norm_num : (2 : ℚ) ≠ 0), zpow_natCast]
        push_cast
        ring
      have hq : ((m * 2 ^ k : Int) : ℚ) ≤ x / 2 ^ (e - 23) := by
        rw [le_div_iff₀ hu, ← hau]; exact h
      have := le_roundHalfEven _ _ hq
      rw [hau]
      exact mul_le_mul_of_nonneg_right (by exact_mod_cast this) hu.le
    · have hlt : -126 < e := by omega
      have hxe := f32_exponent x hx (by rw [← he]; exact hlt)
      rw [← he] at hxe
      have hae : |a| ≤ 2 ^ e := by
        rw [ha, abs_mul, abs_of_pos (zpow_pos (by norm_num : (0 : ℚ) < 2) j)]
        have h1 : |(m : ℚ)| ≤ 2 ^ (24 : ℤ) := by
          have : ((|m| : Int) : ℚ) ≤ ((2 ^ 24 : Int) : ℚ) := by exact_mod_cast hm
          rw [Int.cast_abs] at this
          exact this.trans (by norm_num)
        calc |(m : ℚ)| * 2 ^ j ≤ 2 ^ (24 : ℤ) * 2 ^ j :=
              mul_le_mul_of_nonneg_right h1 (zpow_pos (by norm_num) _).le
          _ = 2 ^ (24 + j) := by rw [zpow_add₀ (by norm_num : (2 : ℚ) ≠ 0)]
          _ ≤ 2 ^ e := zpow_le_zpow_right₀ (by norm_num) (by omega)
      have he23 : (2 : ℚ) ^ e = ((2 ^ 23 : Int) : ℚ) * 2 ^ (e - 23) := by
        rw [show e = 23 + (e - 23) by ring, zpow_add₀ (by norm_num : (2 : ℚ) ≠ 0)]
        norm_num
      rcases lt_or_gt_of_ne hx with hneg | hpos
      · have hxle : x ≤ -(2 ^ e) := by
          rw [abs_of_neg hneg] at hxe; linarith
        have hq : ((-(2 ^ 23) : Int) : ℚ) ≤ x / 2 ^ (e - 23) := by
          rw [le_div_iff₀ hu]
          have := (abs_le.mp hae).1
          push_cast
          rw [he23] at this
          push_cast at this
          linarith
        have := le_roundHalfEven _ _ hq
        have h2 : -(2 ^ e) ≤ (roundHalfEven (x / 2 ^ (e - 23)) : ℚ) * 2 ^ (e - 23) := by
          rw [he23]
          have : ((-(2 ^ 23) : Int) : ℚ) ≤ (roundHalfEven (x / 2 ^ (e - 23)) : ℚ) := by
            exact_mod_cast this
          push_cast at this ⊢
          nlinarith
        linarith
      · have hxe' : (2 : ℚ) ^ e ≤ x := by rwa [abs_of_pos hpos] at hxe
        have hq : ((2 ^ 23 : Int) : ℚ) ≤ x / 2 ^ (e - 23) := by
          rw [le_div_iff₀ hu, ← he23]
          exact hxe'
        have := le_roundHalfEven _ _ hq
        have h2 : 2 ^ e ≤ (roundHalfEven (x / 2 ^ (e - 23)) : ℚ) * 2 ^ (e - 23) := by
          rw [he23]
          exact mul_le_mul_of_nonneg_right (by exact_mod_cast this) hu.le
        linarith [(abs_le.mp hae).2]

/-- A `float` is its own rounding. -/
theorem f32_float (m j : Int) (hm : |m| ≤ 2 ^ 24) (hj : -149 ≤ j) :
    f32 (m * 2 ^ j) = m * 2 ^ j :=
  le_antisymm (f32_le _ _ m j rfl hm hj le_rfl) (le_f32 _ _ m j rfl hm hj le_rfl)

/-- Every integer up to `2 ^ 24` in size is a `float`. -/
theorem f32_intCast (n : Int) (hn : |n| ≤ 2 ^ 24) : f32 (n : ℚ) = n := by
  have := f32_float n 0 hn (by norm_num)
  simpa using this

/-- Rounding keeps an integer bound up to `2 ^ 24` in size: from above. -/
theorem f32_le_int (x : ℚ) (n : Int) (hn : |n| ≤ 2 ^ 24) (h : x ≤ n) : f32 x ≤ n :=
  f32_le x n n 0 (by simp) hn (by norm_num) h

/-- Rounding keeps an integer bound up to `2 ^ 24` in size: from below. -/
theorem int_le_f32 (x : ℚ) (n : Int) (hn : |n| ≤ 2 ^ 24) (h : (n : ℚ) ≤ x) : (n : ℚ) ≤ f32 x :=
  le_f32 x n n 0 (by simp) hn (by norm_num) h

/-- The value of `f32` at `x` from the binary exponent `e` of `x` and the multiple of
`2 ^ (e - 23)` nearest to `x`. -/
theorem f32_eq (x : ℚ) (e n : Int) (he : -126 ≤ e) (h1 : (2 : ℚ) ^ e ≤ |x|)
    (h2 : |x| < 2 ^ (e + 1)) (hn1 : (n : ℚ) - 1 / 2 < x / 2 ^ (e - 23))
    (hn2 : x / 2 ^ (e - 23) < n + 1 / 2) : f32 x = n * 2 ^ (e - 23) := by
  have hpos : 0 < |x| := lt_of_lt_of_le (zpow_pos (by norm_num) _) h1
  have hx : x ≠ 0 := abs_pos.mp hpos
  have hlog : Int.log 2 |x| = e := by
    apply le_antisymm
    · have := (Int.lt_zpow_iff_log_lt (R := ℚ) (b := 2) (by norm_num) (x := e + 1) hpos).mp
        (by exact_mod_cast h2)
      omega
    · exact (Int.zpow_le_iff_le_log (R := ℚ) (b := 2) (by norm_num) (x := e) hpos).mp
        (by exact_mod_cast h1)
  unfold f32
  rw [if_neg hx, hlog, max_eq_left he, roundHalfEven_eq _ n hn1 hn2]

/-! ## Spatial hashing -/

theorem toUInt32_eq_spec (x : Int) (h0 : -2147483648 ≤ x) (h1 : x < 2147483648) :
    toUInt32 x = specTwosComplement x := by
  unfold toUInt32 specTwosComplement
  split_ifs with h <;> omega

theorem hash01_eq_mod (h : Nat) : hash01 h = ((h % 2 ^ 24 : Nat) : ℚ) / 2 ^ 24 := by
  unfold hash01
  have : (0x00FFFFFF : Nat) = 2 ^ 24 - 1 := by norm_num
  rw [this, Nat.and_pow_two_sub_one_eq_mod]
  norm_num

theorem hash01_range (h : Nat) : 0 ≤ hash01 h ∧ hash01 h < 1 := by
  rw [hash01_eq_mod]
  have hlt : h % 2 ^ 24 < 2 ^ 24 := Nat.mod_lt _ (by norm_num)
  have hq : ((h % 2 ^ 24 : Nat) : ℚ) < 2 ^ 24 := by exact_mod_cast hlt
  constructor
  · positivity
  · rw [div_lt_one (by norm_num)]
    exact hq

/-- C15: for 32-bit `int` coordinates `hash2i(x, z)` equals
`(((2166136261 xor x) * 16777619 mod 2^32) xor z) * 16777619 mod 2^32` with `x` and `z`
read as 32-bit two's-complement values, it is a 32-bit value, and it is order-dependent:
`hash2i(1, 2) ≠ hash2i(2, 1)`. -/
theorem hash2i_formula (x z : Int) (hx0 : -2147483648 ≤ x) (hx1 : x < 2147483648)
    (hz0 : -2147483648 ≤ z) (hz1 : z < 2147483648) :
    hash2i x z = specHash2i x z ∧ hash2i x z < 2 ^ 32 ∧
      ∃ a b : Int, hash2i a b ≠ hash2i b a := by
  refine ⟨?_, ?_, 1, 2, by decide⟩
  · simp only [hash2i, specHash2i, toUInt32_eq_spec x hx0 hx1, toUInt32_eq_spec z hz0 hz1]
    norm_num
  · simp only [hash2i]
    exact Nat.mod_lt _ (by norm_num)

theorem hash2i_formula_witness :
    hash2i 3 (-2) = specHash2i 3 (-2) ∧ hash2i 3 (-2) < 2 ^ 32 ∧
      ∃ a b : Int, hash2i a b ≠ hash2i b a :=
  hash2i_formula 3 (-2) (by decide) (by decide) (by decide) (by decide)

/-- C16: for every value `h`, `hash01(h)` equals `(h mod 2^24) / 2^24` and lies in
`[0, 1)`, `hashSigned01(h)` equals `2 * hash01(h) - 1` and lies in `[-1, 1)`, and both
depend only on the low 24 bits of `h`. -/
theorem hash01_hashSigned01_range (h : Nat) :
    hash01 h = ((h % 2 ^ 24 : Nat) : ℚ) / 2 ^ 24 ∧ 0 ≤ hash01 h ∧ hash01 h < 1 ∧
      hashSigned01 h = 2 * hash01 h - 1 ∧ -1 ≤ hashSigned01 h ∧ hashSigned01 h < 1 ∧
      ∀ h' : Nat, h % 2 ^ 24 = h' % 2 ^ 24 →
        hash01 h = hash01 h' ∧ hashSigned01 h = hashSigned01 h' := by
  obtain ⟨h0, h1⟩ := hash01_range h
  refine ⟨hash01_eq_mod h, h0, h1, by unfold hashSigned01; ring, by unfold hashSigned01; linarith,
    by unfold hashSigned01; linarith, ?_⟩
  intro h' he
  have : hash01 h = hash01 h' := by rw [hash01_eq_mod, hash01_eq_mod, he]
  exact ⟨this, by unfold hashSigned01; rw [this]⟩


theorem hash01_hashSigned01_range_witness :
    hash01 5 = hash01 (5 + 2 ^ 24) ∧ hashSigned01 5 = hashSigned01 (5 + 2 ^ 24) :=
  (hash01_hashSigned01_range 5).2.2.2.2.2.2 (5 + 2 ^ 24) (by decide)

/-! ## Procedural tiling -/

theorem mulAdd32_eq (h c d : Nat) : mulAdd32 h c d = (h * c + d) % 2 ^ 32 := by
  unfold mulAdd32
  norm_num [Nat.add_mod]

theorem hashSigned01_range (h : Nat) : -1 ≤ hashSigned01 h ∧ hashSigned01 h < 1 := by
  obtain ⟨h0, h1⟩ := hash01_range h
  unfold hashSigned01
  constructor <;> linarith

/-- C17 (as stated) fails: the nine attributes cannot all be extracted from re-mixed values
`h * c + d (mod 2^32)` with odd multipliers, because the speed is extracted from `h >> 8`,
which is no such value; and the spawn roll and the phase are both extracted from the base
hash itself, so that no two distinct 32-bit multipliers serve them. -/
theorem no_distinct_odd_remix :
    (¬ ∃ c d : TileAttribute → Nat, (∀ a, c a % 2 = 1) ∧ Function.Injective c ∧
      ∀ a h, h < 2 ^ 32 → hashArgument a h = (h * c a + d a) % 2 ^ 32) ∧
    (¬ ∃ c d : TileAttribute → Nat, (∀ a, c a < 2 ^ 32) ∧ Function.Injective c ∧
      ∀ a h, h < 2 ^ 32 → hashArgument a h = (h * c a + d a) % 2 ^ 32) := by
  constructor
  · rintro ⟨c, d, hodd, -, hform⟩
    have h0 := hform .speed 0 (by norm_num)
    have h1 := hform .speed 1 (by norm_num)
    have hc := hodd .speed
    simp only [hashArgument] at h0 h1
    norm_num at h0 h1
    omega
  · rintro ⟨c, d, hlt, hinj, hform⟩
    have a0 := hform .spawnRoll 0 (by norm_num)
    have a1 := hform .spawnRoll 1 (by norm_num)
    have b0 := hform .phase 0 (by norm_num)
    have b1 := hform .phase 1 (by norm_num)
    have ha := hlt .spawnRoll
    have hb := hlt .phase
    simp only [hashArgument] at a0 a1 b0 b1
    norm_num at a0 a1 b0 b1 ha hb
    have : c .spawnRoll = c .phase := by omega
    exact absurd (hinj this) (by decide)

/-- C17 (amended): horizontal jitter x and z, layer selection, vertical jitter, scale
jitter and rotation are each extracted from a re-mixed value `h * c + d (mod 2^32)` of the
base hash with an odd 32-bit multiplier, the six multipliers being pairwise distinct; the
spawn-chance roll and the animation phase are extracted from the base hash `h` itself and
the animation speed from `h >> 8`. -/
theorem cloud_attributes_remixed (h : Nat) :
    (jitterX h = hashSigned01 (hashArgument .jitterX h) * (CLOUD_SPACING * (75 / 100)) ∧
      jitterZ h = hashSigned01 (hashArgument .jitterZ h) * (CLOUD_SPACING * (75 / 100)) ∧
      layerPick h = hash01 (hashArgument .layerPick h) ∧
      yJitter h = hashSigned01 (hashArgument .yJitter h) * CLOUD_LAYER_BLEND ∧
      sJitter h = hashSigned01 (hashArgument .sJitter h) * CLOUD_SCALE_JITTER ∧
      rotY h = hash01 (hashArgument .rotY h) * twoPiLiteral ∧
      spawnRoll h = hash01 (hashArgument .spawnRoll h) ∧
      phase h = ((hashArgument .phase h &&& 0xFFFF : Nat) : ℚ) * (1 / 65535) * twoPiLiteral ∧
      speed h = 7 / 10 + 6 / 10 * hash01 (hashArgument .speed h)) ∧
    (hashArgument .jitterX h = (h * 747796405 + 2891336453) % 2 ^ 32 ∧
      hashArgument .jitterZ h = (h * 277803737 + 15485863) % 2 ^ 32 ∧
      hashArgument .layerPick h = (h * 9781 + 6271) % 2 ^ 32 ∧
      hashArgument .yJitter h = (h * 1597334677 + 3812015801) % 2 ^ 32 ∧
      hashArgument .sJitter h = (h * 2654435761 + 1013904223) % 2 ^ 32 ∧
      hashArgument .rotY h = (h * 2246822519 + 3266489917) % 2 ^ 32) ∧
    (∀ c ∈ [747796405, 277803737, 9781, 1597334677, 2654435761, 2246822519],
      c % 2 = 1 ∧ c < 2 ^ 32) ∧
    [747796405, 277803737, 9781, 1597334677, 2654435761, 2246822519].Nodup ∧
    (hashArgument .spawnRoll h = h ∧ hashArgument .phase h = h ∧
      hashArgument .speed h = h / 2 ^ 8) := by
  refine ⟨⟨rfl, rfl, rfl, rfl, rfl, rfl, rfl, rfl, rfl⟩,
    ⟨mulAdd32_eq _ _ _, mulAdd32_eq _ _ _, mulAdd32_eq _ _ _, mulAdd32_eq _ _ _,
      mulAdd32_eq _ _ _, mulAdd32_eq _ _ _⟩, by decide, by decide, rfl, rfl, ?_⟩
  simp only [hashArgument, Nat.shiftRight_eq_div_pow]

theorem mem_loopOffsets (radius : Nat) (d : Int) :
    d ∈ loopOffsets radius ↔ -(radius : Int) ≤ d ∧ d ≤ radius := by
  unfold loopOffsets
  simp only [List.mem_map, List.mem_range]
  constructor
  · rintro ⟨i, hi, rfl⟩
    constructor <;> omega
  · rintro ⟨h0, h1⟩
    exact ⟨(d + radius).toNat, by omega, by omega⟩

theorem loopOffsets_nodup (radius : Nat) : (loopOffsets radius).Nodup := by
  unfold loopOffsets
  refine List.Nodup.map ?_ (List.nodup_range _)
  intro a b hab
  simp only at hab
  omega

/-- The tile coordinates of a sweep, in the order of the loops. -/
theorem renderCloudField_coords (trig : TrigLib) (eye lc : Vec3) (t : ℚ) :
    (renderCloudField trig eye lc t).map (fun d => (d.cx, d.cz)) =
      (loopOffsets CLOUD_RADIUS).flatMap fun dz =>
        (loopOffsets CLOUD_RADIUS).map fun dx =>
          ((⌊f32 (eye.x / CLOUD_SPACING)⌋ + dx, ⌊f32 (eye.z / CLOUD_SPACING)⌋ + dz) :
            Int × Int) := by
  simp only [renderCloudField, List.map_flatMap, List.map_map]
  rfl

theorem grid_nodup (bx bz : Int) (xs zs : List Int) (hx : xs.Nodup) (hz : zs.Nodup) :
    (zs.flatMap fun dz => xs.map fun dx => ((bx + dx, bz + dz) : Int × Int)).Nodup := by
  rw [List.nodup_flatMap]
  constructor
  · intro dz _
    refine List.Nodup.map ?_ hx
    intro a b hab
    simp only [Prod.mk.injEq] at hab
    omega
  · refine List.Pairwise.imp_of_mem ?_ hz
    intro a b _ _ hab
    simp only [Function.onFun, List.Disjoint]
    intro p hpa hpb
    simp only [List.mem_map] at hpa hpb
    obtain ⟨_, _, rfl⟩ := hpa
    obtain ⟨_, _, hp⟩ := hpb
    simp only [Prod.mk.injEq] at hp
    omega

theorem botM_isSome_iff (trig : TrigLib) (lc : Vec3) (t : ℚ) (cx cz : Int) :
    (cloudFieldTile trig lc t cx cz).botM.isSome = true ↔
      hash01 (hash2i cx cz) ≤ BOT_SPAWN_CHANCE := by
  simp only [cloudFieldTile, spawnRoll]
  split_ifs with h
  · simp only [Option.isSome_none, Bool.false_eq_true, false_iff, not_le]; exact h
  · simp only [Option.isSome_some, true_iff]; exact not_lt.mp h

theorem mem_renderCloudField (trig : TrigLib) (eye lc : Vec3) (t : ℚ) (d : TileDraw)
    (hd : d ∈ renderCloudField trig eye lc t) :
    d = cloudFieldTile trig lc t d.cx d.cz ∧
      (d.cx, d.cz) ∈ (renderCloudField trig eye lc t).map (fun d => (d.cx, d.cz)) := by
  refine ⟨?_, List.mem_map.mpr ⟨d, hd, rfl⟩⟩
  simp only [renderCloudField, List.mem_flatMap, List.mem_map] at hd
  obtain ⟨dz, _, dx, _, rfl⟩ := hd
  rfl

theorem loopOffsets_radius : loopOffsets CLOUD_RADIUS = [-5, -4, -3, -2, -1, 0, 1, 2, 3, 4, 5] := by
  decide

theorem hash01_le_of_low (h n : Nat) (hn : h % 2 ^ 24 = n) (hle : n ≤ 11744051) :
    hash01 h ≤ BOT_SPAWN_CHANCE := by
  rw [hash01_eq_mod, hn, BOT_SPAWN_CHANCE, div_le_iff₀ (by norm_num)]
  have : (n : ℚ) ≤ 11744051 := by exact_mod_cast hle
  linarith

/-- C19: a character occupies the tile `(x, z)` if and only if
`hash01(hash2i(x, z)) ≤ 0.7`; the decision is the same for every clock value, mesh centre
and camera position, so two sweeps from the same camera tile give the same
occupied/empty pattern and a coordinate met by two sweeps is decided alike; the fixture
coordinates `(0,0)`, `(3,-2)`, `(-5,5)` are occupied. -/
theorem spawn_decision_deterministic (trig trig' : TrigLib) (eye eye' lc lc' : Vec3)
    (t t' : ℚ) :
    (∀ cx cz : Int, (cloudFieldTile trig lc t cx cz).botM.isSome = true ↔
      hash01 (hash2i cx cz) ≤ 7 / 10) ∧
    (∀ cx cz : Int, (cloudFieldTile trig lc t cx cz).botM.isSome =
      (cloudFieldTile trig' lc' t' cx cz).botM.isSome) ∧
    (renderCloudField trig eye lc t).map (fun d => (d.cx, d.cz, d.botM.isSome)) =
      (renderCloudField trig' eye lc' t').map (fun d => (d.cx, d.cz, d.botM.isSome)) ∧
    (∀ d ∈ renderCloudField trig eye lc t, ∀ d' ∈ renderCloudField trig' eye' lc' t',
      d.cx = d'.cx → d.cz = d'.cz → d.botM.isSome = d'.botM.isSome) ∧
    ((cloudFieldTile trig lc t 0 0).botM.isSome = true ∧
      (cloudFieldTile trig lc t 3 (-2)).botM.isSome = true ∧
      (cloudFieldTile trig lc t (-5) 5).botM.isSome = true) := by
  have hsame : ∀ cx cz : Int, (cloudFieldTile trig lc t cx cz).botM.isSome =
      (cloudFieldTile trig' lc' t' cx cz).botM.isSome := by
    intro cx cz
    rw [Bool.eq_iff_iff, botM_isSome_iff, botM_isSome_iff]
  refine ⟨fun cx cz => botM_isSome_iff trig lc t cx cz, hsame, ?_, ?_, ?_, ?_, ?_⟩
  · simp only [renderCloudField, List.map_flatMap, List.map_map]
    refine congrArg _ (funext fun dz => List.map_congr_left fun dx _ => ?_)
    simp only [Function.comp, Prod.mk.injEq]
    exact ⟨rfl, rfl, hsame _ _⟩
  · intro d hd d' hd' hx hz
    rw [(mem_renderCloudField trig eye lc t d hd).1,
      (mem_renderCloudField trig' eye' lc' t' d' hd').1, hx, hz]
    exact hsame _ _
  · exact (botM_isSome_iff trig lc t 0 0).mpr
      (hash01_le_of_low _ 7772109 (by decide) (by decide))
  · exact (botM_isSome_iff trig lc t 3 (-2)).mpr
      (hash01_le_of_low _ 8841892 (by decide) (by decide))
  · exact (botM_isSome_iff trig lc t (-5) 5).mpr
      (hash01_le_of_low _ 9494349 (by decide) (by decide))

/-! ## Exact library operations and the decomposition of a transform -/

theorem rat_sqrt_sq (s : ℚ) (hs : 0 ≤ s) : Rat.sqrt (s * s) = s := by
  rw [Rat.sqrt_eq, abs_of_nonneg hs]

theorem mat4_cast_neg (q : Quat) :
    mat4_cast ⟨-q.x, -q.y, -q.z, -q.w⟩ = mat4_cast q := by
  unfold mat4_cast
  congr 1
  simp only [neg_mul_neg]

theorem abs_cases_nonzero (c : ℚ) (hc : 1 ≤ 4 * (c * c)) :
    (0 < c ∧ |c| = c) ∨ (c < 0 ∧ |c| = -c) := by
  rcases lt_trichotomy c 0 with h | h | h
  · exact Or.inr ⟨h, abs_of_neg h⟩
  · rw [h] at hc; norm_num at hc
  · exact Or.inl ⟨h, abs_of_pos h⟩

theorem quat_case_w (x y z w : ℚ) (hw : 1 ≤ 4 * (w * w)) :
    ({ x := (2 * (y * z + w * x) - 2 * (y * z - w * x)) * (1 / 4 / |w|),
       y := (2 * (x * z + w * y) - 2 * (x * z - w * y)) * (1 / 4 / |w|),
       z := (2 * (x * y + w * z) - 2 * (x * y - w * z)) * (1 / 4 / |w|),
       w := |w| } : Quat) = ⟨x, y, z, w⟩ ∨
    ({ x := (2 * (y * z + w * x) - 2 * (y * z - w * x)) * (1 / 4 / |w|),
       y := (2 * (x * z + w * y) - 2 * (x * z - w * y)) * (1 / 4 / |w|),
       z := (2 * (x * y + w * z) - 2 * (x * y - w * z)) * (1 / 4 / |w|),
       w := |w| } : Quat) = ⟨-x, -y, -z, -w⟩ := by
  rcases abs_cases_nonzero w hw with ⟨h, e⟩ | ⟨h, e⟩
  · left
    rw [e, QuatOf.mk.injEq]
    have := ne_of_gt h
    refine ⟨?_, ?_, ?_, rfl⟩ <;> field_simp <;> ring
  · right
    rw [e, QuatOf.mk.injEq]
    have := ne_of_lt h
    refine ⟨?_, ?_, ?_, rfl⟩ <;> field_simp <;> ring

theorem quat_case_x (x y z w : ℚ) (hx : 1 ≤ 4 * (x * x)) :
    ({ x := |x|,
       y := (2 * (x * y + w * z) + 2 * (x * y - w * z)) * (1 / 4 / |x|),
       z := (2 * (x * z + w * y) + 2 * (x * z - w * y)) * (1 / 4 / |x|),
       w := (2 * (y * z + w * x) - 2 * (y * z - w * x)) * (1 / 4 / |x|) } : Quat)
        = ⟨x, y, z, w⟩ ∨
    ({ x := |x|,
       y := (2 * (x * y + w * z) + 2 * (x * y - w * z)) * (1 / 4 / |x|),
       z := (2 * (x * z + w * y) + 2 * (x * z - w * y)) * (1 / 4 / |x|),
       w := (2 * (y * z + w * x) - 2 * (y * z - w * x)) * (1 / 4 / |x|) } : Quat)
        = ⟨-x, -y, -z, -w⟩ := by
  rcases abs_cases_nonzero x hx with ⟨h, e⟩ | ⟨h, e⟩
  · left
    rw [e, QuatOf.mk.injEq]
    have := ne_of_gt h
    refine ⟨rfl, ?_, ?_, ?_⟩ <;> field_simp <;> ring
  · right
    rw [e, QuatOf.mk.injEq]
    have := ne_of_lt h
    refine ⟨rfl, ?_, ?_, ?_⟩ <;> field_simp <;> ring

theorem quat_case_y (x y z w : ℚ) (hy : 1 ≤ 4 * (y * y)) :
    ({ x := (2 * (x * y + w * z) + 2 * (x * y - w * z)) * (1 / 4 / |y|),
       y := |y|,
       z := (2 * (y * z + w * x) + 2 * (y * z - w * x)) * (1 / 4 / |y|),
       w := (2 * (x * z + w * y) - 2 * (x * z - w * y)) * (1 / 4 / |y|) } : Quat)
        = ⟨x, y, z, w⟩ ∨
    ({ x := (2 * (x * y + w * z) + 2 * (x * y - w * z)) * (1 / 4 / |y|),
       y := |y|,
       z := (2 * (y * z + w * x) + 2 * (y * z - w * x)) * (1 / 4 / |y|),
       w := (2 * (x * z + w * y) - 2 * (x * z - w * y)) * (1 / 4 / |y|) } : Quat)
        = ⟨-x, -y, -z, -w⟩ := by
  rcases abs_cases_nonzero y hy with ⟨h, e⟩ | ⟨h, e⟩
  · left
    rw [e, QuatOf.mk.injEq]
    have := ne_of_gt h
    refine ⟨?_, rfl, ?_, ?_⟩ <;> field_simp <;> ring
  · right
    rw [e, QuatOf.mk.injEq]
    have := ne_of_lt h
    refine ⟨?_, rfl, ?_, ?_⟩ <;> field_simp <;> ring

theorem quat_case_z (x y z w : ℚ) (hz : 1 ≤ 4 * (z * z)) :
    ({ x := (2 * (x * z + w * y) + 2 * (x * z - w * y)) * (1 / 4 / |z|),
       y := (2 * (y * z + w * x) + 2 * (y * z - w * x)) * (1 / 4 / |z|),
       z := |z|,
       w := (2 * (x * y + w * z) - 2 * (x * y - w * z)) * (1 / 4 / |z|) } : Quat)
        = ⟨x, y, z, w⟩ ∨
    ({ x := (2 * (x * z + w * y) + 2 * (x * z - w * y)) * (1 / 4 / |z|),
       y := (2 * (y * z + w * x) + 2 * (y * z - w * x)) * (1 / 4 / |z|),
       z := |z|,
       w := (2 * (x * y + w * z) - 2 * (x * y - w * z)) * (1 / 4 / |z|) } : Quat)
        = ⟨-x, -y, -z, -w⟩ := by
  rcases abs_cases_nonzero z hz with ⟨h, e⟩ | ⟨h, e⟩
  · left
    rw [e, QuatOf.mk.injEq]
    have := ne_of_gt h
    refine ⟨?_, ?_, rfl, ?_⟩ <;> field_simp <;> ring
  · right
    rw [e, QuatOf.mk.injEq]
    have := ne_of_lt h
    refine ⟨?_, ?_, rfl, ?_⟩ <;> field_simp <;> ring

/-- For the rotation matrix of a unit quaternion the glm algorithm with an exact square
root returns the quaternion or its negative. -/
theorem quatCastWith_mat3_cast (q : Quat) (hq : q.IsUnit) :
    quatCastWith Rat.sqrt (mat3_cast q) = q ∨
      quatCastWith Rat.sqrt (mat3_cast q) = ⟨-q.x, -q.y, -q.z, -q.w⟩ := by
  obtain ⟨x, y, z, w⟩ := q
  simp only [QuatOf.IsUnit] at hq
  have e00 : mat3_cast ⟨x, y, z, w⟩ 0 0 = 1 - 2 * (y * y + z * z) := rfl
  have e01 : mat3_cast ⟨x, y, z, w⟩ 0 1 = 2 * (x * y - w * z) := rfl
  have e02 : mat3_cast ⟨x, y, z, w⟩ 0 2 = 2 * (x * z + w * y) := rfl
  have e10 : mat3_cast ⟨x, y, z, w⟩ 1 0 = 2 * (x * y + w * z) := rfl
  have e11 : mat3_cast ⟨x, y, z, w⟩ 1 1 = 1 - 2 * (x * x + z * z) := rfl
  have e12 : mat3_cast ⟨x, y, z, w⟩ 1 2 = 2 * (y * z - w * x) := rfl
  have e20 : mat3_cast ⟨x, y, z, w⟩ 2 0 = 2 * (x * z - w * y) := rfl
  have e21 : mat3_cast ⟨x, y, z, w⟩ 2 1 = 2 * (y * z + w * x) := rfl
  have e22 : mat3_cast ⟨x, y, z, w⟩ 2 2 = 1 - 2 * (x * x + y * y) := rfl
  have fw : 1 - 2 * (y * y + z * z) + (1 - 2 * (x * x + z * z)) + (1 - 2 * (x * x + y * y))
      = 4 * (w * w) - 1 := by linarith
  have fx : 1 - 2 * (y * y + z * z) - (1 - 2 * (x * x + z * z)) - (1 - 2 * (x * x + y * y))
      = 4 * (x * x) - 1 := by linarith
  have fy : 1 - 2 * (x * x + z * z) - (1 - 2 * (y * y + z * z)) - (1 - 2 * (x * x + y * y))
      = 4 * (y * y) - 1 := by linarith
  have fz : 1 - 2 * (x * x + y * y) - (1 - 2 * (y * y + z * z)) - (1 - 2 * (x * x + z * z))
      = 4 * (z * z) - 1 := by linarith
  simp only [quatCastWith, e00, e01, e02, e10, e11, e12, e20, e21, e22, fw, fx, fy, fz]
  have hsq : ∀ c : ℚ, Rat.sqrt (4 * (c * c) - 1 + 1) * (1 / 2) = |c| := by
    intro c
    have : 4 * (c * c) - 1 + 1 = (2 * c) * (2 * c) := by ring
    rw [this, Rat.sqrt_eq, abs_mul, abs_of_pos (by norm_num : (0 : ℚ) < 2)]
    ring
  clear e00 e01 e02 e10 e11 e12 e20 e21 e22 fw fx fy fz
  split_ifs <;> simp only [hsq]
  all_goals dsimp only at *
  all_goals first
    | contradiction
    | exact quat_case_w x y z w (by linarith)
    | exact quat_case_x x y z w (by linarith)
    | exact quat_case_y x y z w (by linarith)
    | exact quat_case_z x y z w (by linarith)

theorem exactGlm_exact : GlmExact exactGlm where
  length_exact := by
    intro v s hs he
    show Rat.sqrt (v.x * v.x + v.y * v.y + v.z * v.z) = s
    rw [← he, rat_sqrt_sq s hs]
  quat_cast_exact := by
    intro q hq
    show mat4_cast (quatCastWith Rat.sqrt (mat3_cast q)) = mat4_cast q
    rcases quatCastWith_mat3_cast q hq with h | h
    · rw [h]
    · rw [h, mat4_cast_neg]

/-- The matrix `translate(1, T) * mat4_cast(R) * scale(1, S)` written out. -/
theorem composeTRS_entries (T : Vec3) (R : Quat) (S : Vec3) :
    composeTRS (T, R, S) =
      !![S.x * mat3_cast R 0 0, S.y * mat3_cast R 0 1, S.z * mat3_cast R 0 2, T.x;
        S.x * mat3_cast R 1 0, S.y * mat3_cast R 1 1, S.z * mat3_cast R 1 2, T.y;
        S.x * mat3_cast R 2 0, S.y * mat3_cast R 2 1, S.z * mat3_cast R 2 2, T.z;
        0, 0, 0, 1] := by
  ext i j
  fin_cases i <;> fin_cases j <;>
    simp [composeTRS, translate, scale, mat4_cast, mat3_cast, Matrix.mul_apply,
      Fin.sum_univ_four, Matrix.one_apply] <;> ring

theorem mat3_cast_col0_unit (q : Quat) (hq : q.IsUnit) :
    mat3_cast q 0 0 * mat3_cast q 0 0 + mat3_cast q 1 0 * mat3_cast q 1 0
      + mat3_cast q 2 0 * mat3_cast q 2 0 = 1 := by
  have h : mat3_cast q 0 0 * mat3_cast q 0 0 + mat3_cast q 1 0 * mat3_cast q 1 0
      + mat3_cast q 2 0 * mat3_cast q 2 0 - 1
      = 4 * (q.y * q.y + q.z * q.z) * (q.x * q.x + q.y * q.y + q.z * q.z + q.w * q.w - 1) := by
    simp [mat3_cast]; ring
  unfold QuatOf.IsUnit at hq
  rw [hq] at h
  linarith

theorem mat3_cast_col1_unit (q : Quat) (hq : q.IsUnit) :
    mat3_cast q 0 1 * mat3_cast q 0 1 + mat3_cast q 1 1 * mat3_cast q 1 1
      + mat3_cast q 2 1 * mat3_cast q 2 1 = 1 := by
  have h : mat3_cast q 0 1 * mat3_cast q 0 1 + mat3_cast q 1 1 * mat3_cast q 1 1
      + mat3_cast q 2 1 * mat3_cast q 2 1 - 1
      = 4 * (q.x * q.x + q.z * q.z) * (q.x * q.x + q.y * q.y + q.z * q.z + q.w * q.w - 1) := by
    simp [mat3_cast]; ring
  unfold QuatOf.IsUnit at hq
  rw [hq] at h
  linarith

theorem mat3_cast_col2_unit (q : Quat) (hq : q.IsUnit) :
    mat3_cast q 0 2 * mat3_cast q 0 2 + mat3_cast q 1 2 * mat3_cast q 1 2
      + mat3_cast q 2 2 * mat3_cast q 2 2 = 1 := by
  have h : mat3_cast q 0 2 * mat3_cast q 0 2 + mat3_cast q 1 2 * mat3_cast q 1 2
      + mat3_cast q 2 2 * mat3_cast q 2 2 - 1
      = 4 * (q.x * q.x + q.y * q.y) * (q.x * q.x + q.y * q.y + q.z * q.z + q.w * q.w - 1) := by
    simp [mat3_cast]; ring
  unfold QuatOf.IsUnit at hq
  rw [hq] at h
  linarith

/-- With exact library operations the decomposition of `translate * rotate * scale`, for
a unit rotation and positive scale factors, gives back the translation, the scale and a
quaternion with the same rotation matrix. -/
theorem decompose_composeTRS (lib : GlmLib) (hlib : GlmExact lib) (T : Vec3) (R : Quat)
    (S : Vec3) (hR : R.IsUnit) (hx : 0 < S.x) (hy : 0 < S.y) (hz : 0 < S.z) :
    (decompose lib (composeTRS (T, R, S))).1 = T ∧
      mat4_cast (decompose lib (composeTRS (T, R, S))).2.1 = mat4_cast R ∧
      (decompose lib (composeTRS (T, R, S))).2.2 = S := by
  have hc0 : colVec3 (composeTRS (T, R, S)) 0
      = ⟨S.x * mat3_cast R 0 0, S.x * mat3_cast R 1 0, S.x * mat3_cast R 2 0⟩ := by
    rw [composeTRS_entries]; rfl
  have hc1 : colVec3 (composeTRS (T, R, S)) 1
      = ⟨S.y * mat3_cast R 0 1, S.y * mat3_cast R 1 1, S.y * mat3_cast R 2 1⟩ := by
    rw [composeTRS_entries]; rfl
  have hc2 : colVec3 (composeTRS (T, R, S)) 2
      = ⟨S.z * mat3_cast R 0 2, S.z * mat3_cast R 1 2, S.z * mat3_cast R 2 2⟩ := by
    rw [composeTRS_entries]; rfl
  have hl0 : lib.length (colVec3 (composeTRS (T, R, S)) 0) = S.x := by
    rw [hc0]
    refine hlib.length_exact _ _ (le_of_lt hx) ?_
    have := mat3_cast_col0_unit R hR
    simp only
    linear_combination (-(S.x * S.x)) * this
  have hl1 : lib.length (colVec3 (composeTRS (T, R, S)) 1) = S.y := by
    rw [hc1]
    refine hlib.length_exact _ _ (le_of_lt hy) ?_
    have := mat3_cast_col1_unit R hR
    simp only
    linear_combination (-(S.y * S.y)) * this
  have hl2 : lib.length (colVec3 (composeTRS (T, R, S)) 2) = S.z := by
    rw [hc2]
    refine hlib.length_exact _ _ (le_of_lt hz) ?_
    have := mat3_cast_col2_unit R hR
    simp only
    linear_combination (-(S.z * S.z)) * this
  have hrot : mat3OfCols
      ((colVec3 (composeTRS (T, R, S)) 0).divScalar S.x)
      ((colVec3 (composeTRS (T, R, S)) 1).divScalar S.y)
      ((colVec3 (composeTRS (T, R, S)) 2).divScalar S.z) = mat3_cast R := by
    rw [hc0, hc1, hc2]
    have h1 := ne_of_gt hx
    have h2 := ne_of_gt hy
    have h3 := ne_of_gt hz
    ext i j
    fin_cases i <;> fin_cases j <;> simp [mat3OfCols, Vec3.divScalar] <;> field_simp
  refine ⟨?_, ?_, ?_⟩
  · exact composeTRS_translation T R S
  · simp only [decompose, hl0, hl1, hl2, if_neg (ne_of_gt hx), if_neg (ne_of_gt hy),
      if_neg (ne_of_gt hz), hrot]
    exact hlib.quat_cast_exact R hR
  · simp only [decompose, hl0, hl1, hl2]

theorem composeTRS_congr (T : Vec3) (R R' : Quat) (S : Vec3)
    (h : mat4_cast R = mat4_cast R') : composeTRS (T, R, S) = composeTRS (T, R', S) := by
  simp only [composeTRS, h]

theorem set_getD_self (l : List Mat4) (i : Nat) (h : i < l.length) :
    l.set i (l.getD i 1) = l := by
  apply List.ext_getElem?
  intro j
  by_cases hij : i = j
  · subst hij
    rw [List.getElem?_set_self h]
    exact (getElem?_some_getD l 1 i h).symm
  · rw [List.getElem?_set_ne hij]

theorem keyframeFactor_isSome (times : List ℚ) (time : ℚ) (hlen : 2 ≤ times.length)
    (hlast : times.getLast? ≠ some 0) : ∃ kf, keyframeFactor times time = some kf := by
  have hL := getLast?_eq_getD times (by omega)
  have hne : times.getD (times.length - 1) 0 ≠ 0 := fun h => hlast (by rw [hL, h])
  obtain ⟨t, ht⟩ : ∃ t, wrappedTime times time = some t := by
    simp only [wrappedTime, hL, Option.some_bind, fmod, if_neg hne]
    exact ⟨_, rfl⟩
  obtain ⟨k, hk, hk0, hk1⟩ := findKeyframeIndex_range times t hlen
  have hnext : min (k + 1) ((times.length : Int) - 1) = k + 1 := min_eq_left (by omega)
  have h0 := vecAt_eq_getD times k hk0 (by omega)
  have h1 := vecAt_eq_getD times (k + 1) (by omega) (by omega)
  simp only [keyframeFactor, ht, hk, hnext, h0, h1, Option.some_bind]
  exact ⟨_, rfl⟩

theorem animatedTRS_rotation (lib : GlmLib) (data : List ℚ) (k next : Int) (f : ℚ)
    (trs : Vec3 × Quat × Vec3) (q0 q1 : Quat)
    (h0 : readQuat data k = some q0) (h1 : readQuat data next = some q1) :
    animatedTRS lib "rotation" data k next f trs
      = some (trs.1, lib.normalize (lib.slerp (lib.normalize q0) (lib.normalize q1) f),
          trs.2.2) := by
  simp [animatedTRS, interpolateRotation, h0, h1]

theorem animatedTRS_other (lib : GlmLib) (path : String) (data : List ℚ) (k next : Int)
    (f : ℚ) (trs : Vec3 × Quat × Vec3)
    (hp : path ≠ "translation" ∧ path ≠ "rotation" ∧ path ≠ "scale") :
    animatedTRS lib path data k next f trs = some trs := by
  simp [animatedTRS, hp.1, hp.2.1, hp.2.2]

/-- A channel on a node whose transform is `translate * rotate * scale` with a unit
rotation and positive scale factors, the library operations being exact: the matrix is
rebuilt from `T0`, `R0`, `S0` with the animated one replaced. -/
theorem updateChannel_on_TRS (lib : GlmLib) (hlib : GlmExact lib) (anim : Animation)
    (animationObject : AnimationObject) (time : ℚ) (nodeTransforms : List Mat4)
    (channel : Channel) (sampler : AnimationSampler) (samplerObject : SamplerObject)
    (kf : ℚ × Int × Int × ℚ) (T0 : Vec3) (R0 : Quat) (S0 : Vec3)
    (ht0 : 0 ≤ channel.target_node)
    (ht1 : channel.target_node < (nodeTransforms.length : Int))
    (hsampler : anim.samplers[channel.sampler]? = some sampler)
    (hobj : animationObject.samplers[channel.sampler]? = some samplerObject)
    (hlen : 2 ≤ samplerObject.input.length)
    (hkf : keyframeFactor samplerObject.input time = some kf)
    (hM : nodeTransforms.getD channel.target_node.toNat 1 = composeTRS (T0, R0, S0))
    (hR : R0.IsUnit) (hx : 0 < S0.x) (hy : 0 < S0.y) (hz : 0 < S0.z)
    (trs : Vec3 × Quat × Vec3)
    (hanim : animatedTRS lib channel.target_path sampler.outputData kf.2.1 kf.2.2.1 kf.2.2.2
      (T0, (decompose lib (composeTRS (T0, R0, S0))).2.1, S0) = some trs) :
    updateChannel lib anim animationObject time nodeTransforms channel =
      some (nodeTransforms.set channel.target_node.toNat (composeTRS trs)) := by
  obtain ⟨d1, d2, d3⟩ := decompose_composeTRS lib hlib T0 R0 S0 hR hx hy hz
  have hd : decompose lib (composeTRS (T0, R0, S0))
      = (T0, (decompose lib (composeTRS (T0, R0, S0))).2.1, S0) := by
    ext1
    · exact d1
    · ext1
      · rfl
      · exact d3
  rw [updateChannel_eq lib anim animationObject time nodeTransforms channel sampler
    samplerObject kf ht0 ht1 hsampler hobj hlen hkf, hM, hd, hanim]
  rfl

theorem composeTRS_bottom (trs : Vec3 × Quat × Vec3) : composeTRS trs 3 3 = 1 := by
  have h : trs = (trs.1, trs.2.1, trs.2.2) := rfl
  rw [h, composeTRS_entries]
  rfl

/-- The lengths of the columns of a transform mirrored along X are all `1`. -/
theorem mirrored_decompose_scale (lib : GlmLib) (hlib : GlmExact lib) (T : Vec3) :
    (decompose lib (composeTRS (T, ⟨0, 0, 0, 1⟩, ⟨-1, 1, 1⟩))).2.2 = ⟨1, 1, 1⟩ := by
  have hc0 : colVec3 (composeTRS (T, ⟨0, 0, 0, 1⟩, ⟨-1, 1, 1⟩)) 0 = ⟨-1, 0, 0⟩ := by
    rw [composeTRS_entries]; simp [colVec3, mat3_cast, Matrix.vecHead, Matrix.vecTail]
  have hc1 : colVec3 (composeTRS (T, ⟨0, 0, 0, 1⟩, ⟨-1, 1, 1⟩)) 1 = ⟨0, 1, 0⟩ := by
    rw [composeTRS_entries]; simp [colVec3, mat3_cast, Matrix.vecHead, Matrix.vecTail]
  have hc2 : colVec3 (composeTRS (T, ⟨0, 0, 0, 1⟩, ⟨-1, 1, 1⟩)) 2 = ⟨0, 0, 1⟩ := by
    rw [composeTRS_entries]; simp [colVec3, mat3_cast, Matrix.vecHead, Matrix.vecTail]
  simp only [decompose, hc0, hc1, hc2]
  rw [hlib.length_exact ⟨-1, 0, 0⟩ 1 zero_le_one (by norm_num),
    hlib.length_exact ⟨0, 1, 0⟩ 1 zero_le_one (by norm_num),
    hlib.length_exact ⟨0, 0, 1⟩ 1 zero_le_one (by norm_num)]

/-- No quaternion has the mirror `diag(-1, 1, 1)` as its rotation matrix. -/
theorem mirror_not_rotation (V V' : Vec3) (R : Quat) :
    composeTRS (V, R, ⟨1, 1, 1⟩) ≠ composeTRS (V', ⟨0, 0, 0, 1⟩, ⟨-1, 1, 1⟩) := by
  intro h
  rw [composeTRS_entries, composeTRS_entries] at h
  have h00 := congrFun (congrFun h 0) 0
  have h11 := congrFun (congrFun h 1) 1
  have h22 := congrFun (congrFun h 2) 2
  simp [mat3_cast] at h00 h11 h22
  nlinarith [mul_self_nonneg R.x, mul_self_nonneg R.y, mul_self_nonneg R.z]

theorem midpoint_keyframeFactor :
    keyframeFactor [0, 1] (1 / 2) = some (1 / 2, 0, 1, 1 / 2) := by
  have h := keyframeFactor_in_interval [0, 1] (1 / 2) (1 / 2) 0 (by decide) (by decide)
    (wrappedTime_of_lt [0, 1] (1 / 2) (by decide) (by norm_num) (by norm_num))
    (by norm_num) (by norm_num)
  norm_num at h
  exact h

/-! ## Claims about channels that leave properties alone -/

/-- C11 (as stated) fails: a channel with the unrecognised target path `weights` and two
keyframes rewrites the matrix from its decomposition.  The transform `2 * identity` comes
back with bottom-right entry `1`, and the transform `scale(-1, 1, 1)` comes back without
its mirror; neither equals the matrix before. -/
theorem unknown_path_rewrites_matrix :
    updateChannel exactGlm midpointAnimation midpointObject (1 / 2) [2] weightsChannel
        ≠ some [2] ∧
      updateChannel exactGlm midpointAnimation midpointObject (1 / 2) [mirroredTransform]
        weightsChannel ≠ some [mirroredTransform] := by
  have hp : weightsChannel.target_path ≠ "translation" ∧
      weightsChannel.target_path ≠ "rotation" ∧ weightsChannel.target_path ≠ "scale" := by
    decide
  constructor
  · rw [updateChannel_eq exactGlm midpointAnimation midpointObject (1 / 2) [2] weightsChannel
      ⟨[0, 0, 0, 10, 0, 0]⟩ ⟨[0, 1], [], 0⟩ _ (by decide) (by decide) (by rfl) (by rfl)
      (by decide) midpoint_keyframeFactor, animatedTRS_other _ _ _ _ _ _ _ hp]
    intro h
    simp only [Option.map_some', Option.some.injEq, weightsChannel, Int.toNat_zero,
      List.set_cons_zero, List.cons.injEq, and_true] at h
    have h33 := congrFun (congrFun h 3) 3
    have e : (2 : Mat4) 3 3 = 2 := by
      rw [show (2 : Mat4) = Matrix.diagonal (fun _ => 2) from rfl]
      simp
    rw [composeTRS_bottom, e] at h33
    norm_num at h33
  · rw [updateChannel_eq exactGlm midpointAnimation midpointObject (1 / 2) [mirroredTransform]
      weightsChannel ⟨[0, 0, 0, 10, 0, 0]⟩ ⟨[0, 1], [], 0⟩ _ (by decide) (by decide) (by rfl)
      (by rfl) (by decide) midpoint_keyframeFactor, animatedTRS_other _ _ _ _ _ _ _ hp]
    intro h
    simp only [Option.map_some', Option.some.injEq, weightsChannel, Int.toNat_zero,
      List.set_cons_zero, List.getD_cons_zero, List.cons.injEq, and_true] at h
    have hs := mirrored_decompose_scale exactGlm exactGlm_exact ⟨0, 0, 0⟩
    have hd : decompose exactGlm mirroredTransform
        = ((decompose exactGlm mirroredTransform).1, (decompose exactGlm mirroredTransform).2.1,
            (⟨1, 1, 1⟩ : Vec3)) := by
      ext1
      · rfl
      · ext1
        · rfl
        · exact hs
    rw [hd] at h
    exact mirror_not_rotation _ _ _ h

/-- A channel with at least two timestamps whose target path is none of the three
rebuilds the target matrix from its own decomposition. -/
theorem updateChannel_other_path (lib : GlmLib) (anim : Animation)
    (animationObject : AnimationObject) (time : ℚ) (nodeTransforms : List Mat4)
    (channel : Channel) (sampler : AnimationSampler) (samplerObject : SamplerObject)
    (hpath : channel.target_path ≠ "translation" ∧ channel.target_path ≠ "rotation" ∧
      channel.target_path ≠ "scale")
    (ht0 : 0 ≤ channel.target_node)
    (ht1 : channel.target_node < (nodeTransforms.length : Int))
    (hsampler : anim.samplers[channel.sampler]? = some sampler)
    (hobj : animationObject.samplers[channel.sampler]? = some samplerObject)
    (hlen : 2 ≤ samplerObject.input.length) :
    updateChannel lib anim animationObject time nodeTransforms channel =
      some (nodeTransforms.set channel.target_node.toNat
        (composeTRS (decompose lib (nodeTransforms.getD channel.target_node.toNat 1)))) := by
  have hM : vecAt nodeTransforms channel.target_node
      = some (nodeTransforms.getD channel.target_node.toNat 1) := by
    unfold vecAt
    have h2 : channel.target_node.toNat < nodeTransforms.length := by omega
    simp [ht0, List.getD_eq_getElem?_getD, List.getElem?_eq_getElem h2]
  unfold updateChannel
  rw [if_neg (by omega), hsampler, hobj]
  simp only [Option.some_bind, if_neg (show ¬ samplerObject.input.length < 2 by omega), hM,
    channelTRS_other lib _ _ _ _ hpath, Option.map_some']

/-- C11 (amended): for a channel whose target path is none of translation, rotation or
scale and whose target node (when it is a valid index) has the local transform
`translate(T0) * rotate(R0) * scale(S0)` with `R0` a unit quaternion and every component
of `S0` positive, `updateAnimation` leaves the node transforms equal to what they were,
the glm operations being exact; the timestamps of the sampler play no part. -/
theorem updateChannel_unknown_path (lib : GlmLib) (hlib : GlmExact lib) (anim : Animation)
    (animationObject : AnimationObject) (time : ℚ) (nodeTransforms : List Mat4)
    (channel : Channel) (sampler : AnimationSampler) (samplerObject : SamplerObject)
    (T0 : Vec3) (R0 : Quat) (S0 : Vec3)
    (hpath : channel.target_path ≠ "translation" ∧ channel.target_path ≠ "rotation" ∧
      channel.target_path ≠ "scale")
    (hsampler : anim.samplers[channel.sampler]? = some sampler)
    (hobj : animationObject.samplers[channel.sampler]? = some samplerObject)
    (hM : 0 ≤ channel.target_node → channel.target_node < (nodeTransforms.length : Int) →
      nodeTransforms.getD channel.target_node.toNat 1 = composeTRS (T0, R0, S0))
    (hR : R0.IsUnit) (hx : 0 < S0.x) (hy : 0 < S0.y) (hz : 0 < S0.z) :
    updateChannel lib anim animationObject time nodeTransforms channel
      = some nodeTransforms := by
  by_cases hskip : channel.target_node < 0 ∨
      (nodeTransforms.length : Int) ≤ channel.target_node
  · unfold updateChannel
    rw [if_pos hskip]
  · have ht0 : 0 ≤ channel.target_node := by omega
    have ht1 : channel.target_node < (nodeTransforms.length : Int) := by omega
    by_cases hshort : samplerObject.input.length < 2
    · unfold updateChannel
      simp only [if_neg hskip, hsampler, hobj, Option.some_bind, if_pos hshort]
    · obtain ⟨d1, d2, d3⟩ := decompose_composeTRS lib hlib T0 R0 S0 hR hx hy hz
      have hd : decompose lib (composeTRS (T0, R0, S0))
          = (T0, (decompose lib (composeTRS (T0, R0, S0))).2.1, S0) := by
        ext1
        · exact d1
        · ext1
          · rfl
          · exact d3
      rw [updateChannel_other_path lib anim animationObject time nodeTransforms channel
        sampler samplerObject hpath ht0 ht1 hsampler hobj (by omega), hM ht0 ht1, hd,
        composeTRS_congr T0 _ R0 S0 d2, ← hM ht0 ht1, set_getD_self _ _ (by omega)]

theorem updateChannel_unknown_path_witness :
    updateChannel exactGlm midpointAnimation ⟨[⟨[-1, 0], [], 0⟩]⟩ (1 / 2)
        [composeTRS (⟨1, 2, 3⟩, ⟨3 / 5, 0, 0, 4 / 5⟩, ⟨2, 3, 4⟩)] weightsChannel
      = some [composeTRS (⟨1, 2, 3⟩, ⟨3 / 5, 0, 0, 4 / 5⟩, ⟨2, 3, 4⟩)] :=
  updateChannel_unknown_path exactGlm exactGlm_exact midpointAnimation
    ⟨[⟨[-1, 0], [], 0⟩]⟩ (1 / 2)
    [composeTRS (⟨1, 2, 3⟩, ⟨3 / 5, 0, 0, 4 / 5⟩, ⟨2, 3, 4⟩)] weightsChannel
    ⟨[0, 0, 0, 10, 0, 0]⟩ ⟨[-1, 0], [], 0⟩ ⟨1, 2, 3⟩ ⟨3 / 5, 0, 0, 4 / 5⟩ ⟨2, 3, 4⟩
    (by decide) (by rfl) (by rfl) (fun _ _ => rfl)
    (by norm_num [QuatOf.IsUnit]) (by norm_num) (by norm_num) (by norm_num)

/-- C12 (as stated) fails: the node transform `translate(0) * rotate(identity) *
scale(-1, 1, 1)` has a unit rotation and non-zero scale components, yet after the
translation channel of the midpoint clip the transform is not
`translate(5, 0, 0) * rotate(identity) * scale(-1, 1, 1)`: the column lengths give the
scale `(1, 1, 1)` and the mirror is lost. -/
theorem negative_scale_is_lost :
    (⟨0, 0, 0, 1⟩ : Quat).IsUnit ∧
      updateChannel exactGlm midpointAnimation midpointObject (1 / 2) [mirroredTransform]
        midpointChannel
      ≠ some [composeTRS (⟨5, 0, 0⟩, ⟨0, 0, 0, 1⟩, ⟨-1, 1, 1⟩)] := by
  refine ⟨by norm_num [QuatOf.IsUnit], ?_⟩
  rw [updateChannel_eq exactGlm midpointAnimation midpointObject (1 / 2) [mirroredTransform]
    midpointChannel ⟨[0, 0, 0, 10, 0, 0]⟩ ⟨[0, 1], [], 0⟩ _ (by decide) (by decide) (by rfl)
    (by rfl) (by decide) midpoint_keyframeFactor,
    show midpointChannel.target_path = "translation" from rfl,
    animatedTRS_translation exactGlm _ _ _ _ _ ⟨0, 0, 0⟩ ⟨10, 0, 0⟩ (by decide) (by decide)]
  intro h
  simp only [Option.map_some', Option.some.injEq, midpointChannel, Int.toNat_zero,
    List.set_cons_zero, List.getD_cons_zero, List.cons.injEq, and_true] at h
  rw [show mirroredTransform = composeTRS (⟨0, 0, 0⟩, ⟨0, 0, 0, 1⟩, ⟨-1, 1, 1⟩) from rfl,
    mirrored_decompose_scale exactGlm exactGlm_exact ⟨0, 0, 0⟩] at h
  exact mirror_not_rotation _ _ _ h

/-- C12 (amended): for a node whose local transform is
`translate(T0) * rotate(R0) * scale(S0)` with `R0` a unit quaternion and every component
of `S0` positive, a channel that animates one of the three properties leaves the other two
at their previous values: the new transform is `translate * rotate * scale` built from the
interpolated property and the unchanged `T0`, `R0`, `S0`, the glm operations being
exact. -/
theorem updateChannel_keeps_other_properties (lib : GlmLib) (hlib : GlmExact lib)
    (anim : Animation) (animationObject : AnimationObject) (time : ℚ)
    (nodeTransforms : List Mat4) (channel : Channel) (sampler : AnimationSampler)
    (samplerObject : SamplerObject) (kf : ℚ × Int × Int × ℚ)
    (T0 : Vec3) (R0 : Quat) (S0 : Vec3)
    (ht0 : 0 ≤ channel.target_node)
    (ht1 : channel.target_node < (nodeTransforms.length : Int))
    (hsampler : anim.samplers[channel.sampler]? = some sampler)
    (hobj : animationObject.samplers[channel.sampler]? = some samplerObject)
    (hlen : 2 ≤ samplerObject.input.length)
    (hkf : keyframeFactor samplerObject.input time = some kf)
    (hM : nodeTransforms.getD channel.target_node.toNat 1 = composeTRS (T0, R0, S0))
    (hR : R0.IsUnit) (hx : 0 < S0.x) (hy : 0 < S0.y) (hz : 0 < S0.z) :
    (∀ v0 v1 : Vec3, channel.target_path = "translation" →
      readVec3 sampler.outputData kf.2.1 = some v0 →
      readVec3 sampler.outputData kf.2.2.1 = some v1 →
      updateChannel lib anim animationObject time nodeTransforms channel =
        some (nodeTransforms.set channel.target_node.toNat
          (composeTRS (mixVec3 v0 v1 kf.2.2.2, R0, S0)))) ∧
    (∀ q0 q1 : Quat, channel.target_path = "rotation" →
      readQuat sampler.outputData kf.2.1 = some q0 →
      readQuat sampler.outputData kf.2.2.1 = some q1 →
      updateChannel lib anim animationObject time nodeTransforms channel =
        some (nodeTransforms.set channel.target_node.toNat
          (composeTRS (T0,
            lib.normalize (lib.slerp (lib.normalize q0) (lib.normalize q1) kf.2.2.2), S0)))) ∧
    (∀ s0 s1 : Vec3, channel.target_path = "scale" →
      readVec3 sampler.outputData kf.2.1 = some s0 →
      readVec3 sampler.outputData kf.2.2.1 = some s1 →
      updateChannel lib anim animationObject time nodeTransforms channel =
        some (nodeTransforms.set channel.target_node.toNat
          (composeTRS (T0, R0, mixVec3 s0 s1 kf.2.2.2)))) := by
  have hrot := (decompose_composeTRS lib hlib T0 R0 S0 hR hx hy hz).2.1
  refine ⟨?_, ?_, ?_⟩
  · intro v0 v1 hp h0 h1
    rw [updateChannel_on_TRS lib hlib anim animationObject time nodeTransforms channel
      sampler samplerObject kf T0 R0 S0 ht0 ht1 hsampler hobj hlen hkf hM hR hx hy hz _
      (by rw [hp]; exact animatedTRS_translation lib _ _ _ _ _ v0 v1 h0 h1)]
    exact congrArg _ (congrArg _ (composeTRS_congr _ _ R0 S0 hrot))
  · intro q0 q1 hp h0 h1
    rw [updateChannel_on_TRS lib hlib anim animationObject time nodeTransforms channel
      sampler samplerObject kf T0 R0 S0 ht0 ht1 hsampler hobj hlen hkf hM hR hx hy hz _
      (by rw [hp]; exact animatedTRS_rotation lib _ _ _ _ _ q0 q1 h0 h1)]
  · intro s0 s1 hp h0 h1
    rw [updateChannel_on_TRS lib hlib anim animationObject time nodeTransforms channel
      sampler samplerObject kf T0 R0 S0 ht0 ht1 hsampler hobj hlen hkf hM hR hx hy hz _
      (by rw [hp]; exact animatedTRS_scale lib _ _ _ _ _ s0 s1 h0 h1)]
    exact congrArg _ (congrArg _ (composeTRS_congr _ _ R0 _ hrot))

theorem updateChannel_keeps_other_properties_witness :
    updateChannel exactGlm midpointAnimation midpointObject (1 / 2)
        [composeTRS (⟨1, 2, 3⟩, ⟨3 / 5, 0, 0, 4 / 5⟩, ⟨2, 3, 4⟩)] midpointChannel =
      some (([composeTRS (⟨1, 2, 3⟩, ⟨3 / 5, 0, 0, 4 / 5⟩, ⟨2, 3, 4⟩)] : List Mat4).set
        midpointChannel.target_node.toNat
        (composeTRS (mixVec3 ⟨0, 0, 0⟩ ⟨10, 0, 0⟩
          ((1 / 2, 0, 1, 1 / 2) : ℚ × Int × Int × ℚ).2.2.2,
          ⟨3 / 5, 0, 0, 4 / 5⟩, ⟨2, 3, 4⟩))) :=
  (updateChannel_keeps_other_properties exactGlm exactGlm_exact midpointAnimation
    midpointObject (1 / 2) [composeTRS (⟨1, 2, 3⟩, ⟨3 / 5, 0, 0, 4 / 5⟩, ⟨2, 3, 4⟩)]
    midpointChannel ⟨[0, 0, 0, 10, 0, 0]⟩ ⟨[0, 1], [], 0⟩ (1 / 2, 0, 1, 1 / 2)
    ⟨1, 2, 3⟩ ⟨3 / 5, 0, 0, 4 / 5⟩ ⟨2, 3, 4⟩
    (by decide) (by decide) (by rfl) (by rfl) (by decide) midpoint_keyframeFactor (by rfl)
    (by norm_num [QuatOf.IsUnit]) (by norm_num) (by norm_num) (by norm_num)).1
    ⟨0, 0, 0⟩ ⟨10, 0, 0⟩ (by rfl) (by decide) (by decide)

/-! ## Vectors and the exact inverse square root -/

theorem vec3_ext (v w : Vec3) (hx : v.x = w.x) (hy : v.y = w.y) (hz : v.z = w.z) : v = w := by
  rcases v with ⟨a, b, c⟩
  rcases w with ⟨d, e, f⟩
  simp only at hx hy hz
  rw [hx, hy, hz]

theorem rat_sqrt_pos (x : ℚ) (hx : 0 < x) : 0 < Rat.sqrt x := by
  unfold Rat.sqrt
  rw [Rat.mkRat_eq_div]
  have hn : 0 < x.num := Rat.num_pos.mpr hx
  have h1 : 0 < Int.sqrt x.num := by
    unfold Int.sqrt
    have : 0 < x.num.toNat := by omega
    exact_mod_cast Nat.sqrt_pos.mpr this
  have h2 : 0 < Nat.sqrt x.den := Nat.sqrt_pos.mpr x.den_pos
  positivity

theorem exactInverseSqrt_pos (x : ℚ) (hx : 0 < x) : 0 < exactInverseSqrt x := by
  unfold exactInverseSqrt
  exact one_div_pos.mpr (rat_sqrt_pos x hx)

theorem exactInverseSqrt_sq (s : ℚ) (hs : 0 ≤ s) : exactInverseSqrt (s * s) = 1 / s := by
  unfold exactInverseSqrt
  rw [rat_sqrt_sq s hs]

theorem dot_self_pos (v : Vec3) (hv : v ≠ ⟨0, 0, 0⟩) : 0 < dot v v := by
  unfold dot
  rcases v with ⟨x, y, z⟩
  have hne : x ≠ 0 ∨ y ≠ 0 ∨ z ≠ 0 := by
    by_contra hcon
    push_neg at hcon
    obtain ⟨rfl, rfl, rfl⟩ := hcon
    exact hv rfl
  simp only
  rcases hne with h | h | h
  · nlinarith [mul_self_nonneg y, mul_self_nonneg z, mul_self_pos.mpr h]
  · nlinarith [mul_self_nonneg x, mul_self_nonneg z, mul_self_pos.mpr h]
  · nlinarith [mul_self_nonneg x, mul_self_nonneg y, mul_self_pos.mpr h]

/-! ## Keyboard input -/

theorem key_callback_speed_range (st : InputState) (key scancode action mode : Int)
    (h : 1 ≤ st.playbackSpeed ∧ st.playbackSpeed ≤ 10) :
    1 ≤ (key_callback st key scancode action mode).playbackSpeed ∧
      (key_callback st key scancode action mode).playbackSpeed ≤ 10 := by
  obtain ⟨h1, h2⟩ := h
  unfold key_callback
  simp only
  split_ifs <;> constructor <;> first | linarith | (simp only; linarith)

theorem handleKeys_speed_range (events : List KeyEvent) :
    ∀ st : InputState, 1 ≤ st.playbackSpeed ∧ st.playbackSpeed ≤ 10 →
      1 ≤ (handleKeys st events).playbackSpeed ∧ (handleKeys st events).playbackSpeed ≤ 10 := by
  induction events with
  | nil => intro st h; exact h
  | cons e es ih =>
    intro st h
    exact ih _ (key_callback_speed_range st e.1 e.2.1 e.2.2.1 e.2.2.2 h)

/-- C22: starting from the initial playback speed `2`, after every finite sequence of key
events handled by `key_callback` the playback speed lies in `[1, 10]`; from any state an
UP press sets the speed to `min(speed + 1, 10)` and a DOWN press to `max(speed - 1, 1)`,
whatever the scancode and the modifier bits are. -/
theorem playbackSpeed_clamped (events : List KeyEvent) (st : InputState)
    (scancode mode : Int) :
    initialInput.playbackSpeed = 2 ∧
    (1 ≤ (handleKeys initialInput events).playbackSpeed ∧
      (handleKeys initialInput events).playbackSpeed ≤ 10) ∧
    (key_callback st GLFW_KEY_UP scancode GLFW_PRESS mode).playbackSpeed =
      min (st.playbackSpeed + 1) 10 ∧
    (key_callback st GLFW_KEY_DOWN scancode GLFW_PRESS mode).playbackSpeed =
      max (st.playbackSpeed - 1) 1 := by
  refine ⟨rfl, handleKeys_speed_range events initialInput ⟨by norm_num [initialInput],
    by norm_num [initialInput]⟩, ?_, ?_⟩
  · simp only [key_callback, GLFW_KEY_UP, GLFW_KEY_DOWN, GLFW_KEY_SPACE, GLFW_KEY_ESCAPE,
      GLFW_PRESS]
    norm_num
    rcases le_or_lt (st.playbackSpeed + 1) 10 with h | h
    · rw [if_neg (not_lt.mpr h), min_eq_left h]
    · rw [if_pos h, min_eq_right h.le]
  · simp only [key_callback, GLFW_KEY_UP, GLFW_KEY_DOWN, GLFW_KEY_SPACE, GLFW_KEY_ESCAPE,
      GLFW_PRESS]
    norm_num
    rcases le_or_lt 1 (st.playbackSpeed - 1) with h | h
    · rw [if_neg (not_lt.mpr h), max_eq_left h]
    · rw [if_pos h, max_eq_right h.le]

/-! ## Render calls after a failed load -/

theorem vecAt_nil {α : Type} (i : Int) : vecAt ([] : List α) i = none := by
  unfold vecAt
  split_ifs <;> rfl

/-- C23: with a zero program, vertex-array or texture handle `Cloud::render` is left at
its guard and issues no call.  `MyBot::render` has no guard: for a character whose model
is empty it goes on to `drawModel`, which reads `model.scenes[model.defaultScene]` outside
the empty vector, so the call has no defined result, whereas for a loaded character the
same call returns its draw commands. -/
theorem render_after_failed_load (cloud : Cloud) (bot : BotState) (fuel : Nat)
    (vp modelMat : Mat4) :
    (Cloud.render { cloud with program := 0 } vp modelMat = [] ∧
      Cloud.render { cloud with vao := 0 } vp modelMat = [] ∧
      Cloud.render { cloud with colorTex := 0 } vp modelMat = []) ∧
    render { bot with model := { bot.model with scenes := [] } } fuel vp modelMat = none ∧
    render failedBot fuel vp modelMat = none ∧
    render loadedBot 1 vp modelMat =
      some [GlCall.useProgram 3, GlCall.uniformMatrix4fv 0 [vp * modelMat],
        GlCall.uniformMatrix4fv 1 [modelMat], GlCall.bindVertexArray 1, GlCall.bindBuffer 4,
        GlCall.drawElements 36, GlCall.bindVertexArray 0] := by
  refine ⟨⟨?_, ?_, ?_⟩, ?_, ?_, ?_⟩
  · simp [Cloud.render]
  · simp [Cloud.render]
  · simp [Cloud.render]
  · simp [render, drawModel, vecAt_nil]
  · simp [render, drawModel, failedBot, vecAt_nil]
  · simp [render, drawModel, loadedBot, vecAt, drawModelNodes, drawMesh, drawMeshLoop,
      List.lookup]

/-! ## Depth pass and colour pass -/

/-- Tile by tile the depth pass computes what the colour pass computes. -/
theorem cloudFieldDepthTile_eq (trig : TrigLib) (localCenter : Vec3) (t : ℚ) (cx cz : Int) :
    cloudFieldDepthTile trig localCenter t cx cz = cloudFieldTile trig localCenter t cx cz := by
  simp only [cloudFieldDepthTile, cloudFieldTile, cloudModel, botModel, jitterX, jitterZ,
    layerPick, baseLayer, yJitter, cloudY, sJitter, cloudScale, rotY, spawnRoll, phase, speed,
    mulAdd32]
  by_cases hr : hash01 (hash2i cx cz) > BOT_SPAWN_CHANCE
  · rw [if_pos hr, if_pos hr]
  · rw [if_neg hr, if_neg hr]

/-- C24: for every camera position, cloud mesh centre and clock value `t`, the depth pass
`renderCloudFieldDepth` and the colour pass `renderCloudField` visit the same sequence of
tile coordinates and compute, tile by tile, the same cloud model matrix, the same spawn
decision and the same character model matrix. -/
theorem depth_pass_matches_colour_pass (trig : TrigLib) (eye_center localCenter : Vec3)
    (t : ℚ) :
    (renderCloudFieldDepth trig eye_center localCenter t).map (fun d => (d.cx, d.cz)) =
      (renderCloudField trig eye_center localCenter t).map (fun d => (d.cx, d.cz)) ∧
    (renderCloudFieldDepth trig eye_center localCenter t).map (fun d => d.cloudM) =
      (renderCloudField trig eye_center localCenter t).map (fun d => d.cloudM) ∧
    (renderCloudFieldDepth trig eye_center localCenter t).map (fun d => d.botM.isSome) =
      (renderCloudField trig eye_center localCenter t).map (fun d => d.botM.isSome) ∧
    (renderCloudFieldDepth trig eye_center localCenter t).map (fun d => d.botM) =
      (renderCloudField trig eye_center localCenter t).map (fun d => d.botM) ∧
    (renderCloudFieldDepth trig eye_center localCenter t).length = (2 * 5 + 1) ^ 2 := by
  have h : renderCloudFieldDepth trig eye_center localCenter t =
      renderCloudField trig eye_center localCenter t := by
    unfold renderCloudFieldDepth renderCloudField
    simp only [cloudFieldDepthTile_eq]
  have hl := congrArg List.length (renderCloudField_coords trig eye_center localCenter t)
  rw [List.length_map] at hl
  refine ⟨by rw [h], by rw [h], by rw [h], by rw [h], ?_⟩
  rw [h, hl, loopOffsets_radius]
  rfl

/-! ## The light volume of `computeLightVP` -/

/-- Cauchy-Schwarz for `glm::vec3`. -/
theorem dot_sq_le (a b : Vec3) : dot a b ^ 2 ≤ dot a a * dot b b := by
  have h : dot a a * dot b b - dot a b ^ 2 =
      (a.x * b.y - a.y * b.x) ^ 2 + (a.x * b.z - a.z * b.x) ^ 2 +
        (a.y * b.z - a.z * b.y) ^ 2 := by
    unfold dot; ring
  nlinarith [sq_nonneg (a.x * b.y - a.y * b.x), sq_nonneg (a.x * b.z - a.z * b.x),
    sq_nonneg (a.y * b.z - a.z * b.y)]

/-- The light-view coordinates of a point: its offsets from the eye along the side and up
axes and, negated, along the forward axis. -/
theorem transformPoint_lookAt (inversesqrt : ℚ → ℚ) (eye center up p : Vec3) :
    transformPoint (lookAt inversesqrt eye center up) p =
      ⟨dot (lookAtSide inversesqrt eye center up) (p.sub eye),
        dot (lookAtUp inversesqrt eye center up) (p.sub eye),
        -dot (lookAtForward inversesqrt eye center) (p.sub eye), 1⟩ := by
  simp [transformPoint, lookAt, dot, Vec3.sub]
  refine ⟨by ring, by ring, by ring⟩

theorem dot_sub_lightPos (inversesqrt : ℚ → ℚ) (c p a : Vec3) :
    dot a (p.sub (lightPos inversesqrt c)) =
      dot a (p.sub c) + 2000 * dot a (lightDir inversesqrt c) := by
  simp only [lightPos, dot, Vec3.sub, Vec3.mulScalar]
  ring

theorem dot_cross_left (a b : Vec3) : dot (cross a b) a = 0 := by
  simp only [dot, cross]; ring

theorem dot_cross_right (a b : Vec3) : dot (cross a b) b = 0 := by
  simp only [dot, cross]; ring

theorem dot_mulScalar_left (a b : Vec3) (k : ℚ) : dot (a.mulScalar k) b = k * dot a b := by
  simp only [dot, Vec3.mulScalar]; ring

theorem dot_cross_self (a b : Vec3) :
    dot (cross a b) (cross a b) = dot a a * dot b b - dot a b ^ 2 := by
  simp only [dot, cross]; ring

/-- The axes of the light view under exact normalisation: the side and up axes are unit
vectors orthogonal to the light direction. -/
theorem lightView_axes (inversesqrt : ℚ → ℚ) (c : Vec3) (hex : LightViewExact inversesqrt c) :
    dot (lookAtSide inversesqrt (lightPos inversesqrt c) c ⟨0, 1, 0⟩)
        (lightDir inversesqrt c) = 0 ∧
      dot (lookAtUp inversesqrt (lightPos inversesqrt c) c ⟨0, 1, 0⟩)
        (lightDir inversesqrt c) = 0 ∧
      dot (lookAtUp inversesqrt (lightPos inversesqrt c) c ⟨0, 1, 0⟩)
        (lookAtUp inversesqrt (lightPos inversesqrt c) c ⟨0, 1, 0⟩) = 1 := by
  have hs : dot (lookAtSide inversesqrt (lightPos inversesqrt c) c ⟨0, 1, 0⟩)
      (lightDir inversesqrt c) = 0 := by
    unfold lookAtSide normalizeVec3
    rw [hex.forward_eq, dot_mulScalar_left, dot_cross_left, mul_zero]
  refine ⟨hs, ?_, ?_⟩
  · unfold lookAtUp
    rw [hex.forward_eq, dot_cross_right]
  · unfold lookAtUp
    rw [hex.forward_eq, dot_cross_self, hs, hex.side_unit, hex.dir_unit]
    norm_num

/-- The light-view coordinates of a point under exact normalisation: the lateral offsets
are measured from the camera position, the depth is `2000` plus the offset from the camera
along the light direction. -/
theorem lightView_coords (inversesqrt : ℚ → ℚ) (c p : Vec3)
    (hex : LightViewExact inversesqrt c) :
    transformPoint (lightView inversesqrt c) p =
      ⟨dot (lookAtSide inversesqrt (lightPos inversesqrt c) c ⟨0, 1, 0⟩) (p.sub c),
        dot (lookAtUp inversesqrt (lightPos inversesqrt c) c ⟨0, 1, 0⟩) (p.sub c),
        -(2000 + dot (lightDir inversesqrt c) (p.sub c)), 1⟩ := by
  obtain ⟨h1, h2, -⟩ := lightView_axes inversesqrt c hex
  unfold lightView
  rw [transformPoint_lookAt, dot_sub_lightPos, dot_sub_lightPos, dot_sub_lightPos, h1, h2,
    hex.forward_eq, hex.dir_unit]
  simp only [Vec4.mk.injEq]
  refine ⟨by ring, by ring, by ring, trivial⟩

/-- The clip coordinates that `computeLightVP` gives a point, from its light-view
coordinates. -/
theorem computeLightVP_clip (inversesqrt : ℚ → ℚ) (c p : Vec3) :
    transformPoint (computeLightVP inversesqrt c) p =
      ⟨(transformPoint (lightView inversesqrt c) p).x / 8400,
        (transformPoint (lightView inversesqrt c) p).y / 8400,
        (2 * -(transformPoint (lightView inversesqrt c) p).z - (7000 + 1 / 10)) /
          (7000 - 1 / 10),
        (transformPoint (lightView inversesqrt c) p).w⟩ := by
  simp [computeLightVP, lightView, lookAt, transformPoint, ortho, lightExtent, nearP, farP,
    CLOUD_SPACING, CLOUD_RADIUS, Matrix.mul_apply, Fin.sum_univ_four]
  refine ⟨?_, ?_, ?_⟩ <;> norm_num <;> ring

theorem hash01_of_low (h k : Nat) (hk : h &&& 0x00FFFFFF = k) :
    hash01 h = (k : ℚ) / 16777216 := by
  unfold hash01
  rw [hk]

/-- The translation column of the cloud model matrix is the world position of the
tile. -/
theorem cloudModel_translation (trig : TrigLib) (cx cz : Int) (h : Nat) :
    colVec3 (cloudModel trig cx cz h) 3 = tileWorld cx cz h := by
  simp [colVec3, cloudModel, tileWorld, translate, rotateY, scale, Matrix.mul_apply,
    Fin.sum_univ_four, Matrix.one_apply]

/-- The horizontal jitter of every tile stays below `1050`. -/
theorem jitter_lt (h : Nat) : jitterX h < 1050 ∧ jitterZ h < 1050 := by
  have h1 := (hashSigned01_range (mulAdd32 h 747796405 2891336453)).2
  have h2 := (hashSigned01_range (mulAdd32 h 277803737 15485863)).2
  unfold jitterX jitterZ CLOUD_SPACING
  constructor <;> linarith

/-! ## Index safety of `findKeyframeIndex` -/

/-- C26: for every timestamp array with at least 2 entries, sorted or not, and every time
value, `findKeyframeIndex` returns (the fuel `size + 1` is never used up) an index `k`
with `0 ≤ k ≤ size - 2`, so that `times[k]`, `times[k + 1]` and the entry at
`min(k + 1, size - 1)` read by `updateAnimation` are inside the array. -/
theorem findKeyframeIndex_in_range (times : List ℚ) (t : ℚ) (hlen : 2 ≤ times.length) :
    ∃ k : Int, findKeyframeIndex times t = some k ∧ 0 ≤ k ∧ k ≤ (times.length : Int) - 2 ∧
      (vecAt times k).isSome = true ∧ (vecAt times (k + 1)).isSome = true ∧
      (vecAt times (min (k + 1) ((times.length : Int) - 1))).isSome = true := by
  obtain ⟨k, hk, h0, h1⟩ := findKeyframeIndex_range times t hlen
  refine ⟨k, hk, h0, h1, ?_, ?_, ?_⟩
  · rw [vecAt_eq_getD times k h0 (by omega)]; rfl
  · rw [vecAt_eq_getD times (k + 1) (by omega) (by omega)]; rfl
  · rw [vecAt_eq_getD times _ (by omega) (by omega)]; rfl

theorem findKeyframeIndex_in_range_witness :
    ∃ k : Int, findKeyframeIndex [3, 1, 2] 2 = some k ∧ 0 ≤ k ∧
      k ≤ (([3, 1, 2] : List ℚ).length : Int) - 2 ∧
      (vecAt ([3, 1, 2] : List ℚ) k).isSome = true ∧
      (vecAt ([3, 1, 2] : List ℚ) (k + 1)).isSome = true ∧
      (vecAt ([3, 1, 2] : List ℚ)
        (min (k + 1) ((([3, 1, 2] : List ℚ).length : Int) - 1))).isSome = true :=
  findKeyframeIndex_in_range [3, 1, 2] 2 (by decide)

/-! ## Injectivity of `hash2i` in each coordinate -/

theorem toUInt32_lt (x : Int) : toUInt32 x < 4294967296 := by
  unfold toUInt32
  omega

theorem toUInt32_injOn (x y : Int) (hx0 : -2147483648 ≤ x) (hx1 : x < 2147483648)
    (hy0 : -2147483648 ≤ y) (hy1 : y < 2147483648) (h : toUInt32 x = toUInt32 y) : x = y := by
  unfold toUInt32 at h
  omega

/-- One round of the hash, `(h ^ v) * 16777619` on `uint32_t`, is injective in `h` and in
`v`: xor with a fixed value is a bijection and the odd multiplier is invertible modulo
`2^32`. -/
theorem hashRound_inj (a b c d : Nat) (ha : a < 4294967296) (hb : b < 4294967296)
    (hc : c < 4294967296) (hd : d < 4294967296)
    (h : ((a ^^^ b) * 16777619) % 4294967296 = ((c ^^^ d) * 16777619) % 4294967296) :
    a ^^^ b = c ^^^ d := by
  have hab : a ^^^ b < 2 ^ 32 := Nat.xor_lt_two_pow (by norm_num; exact ha) (by norm_num; exact hb)
  have hcd : c ^^^ d < 2 ^ 32 := Nat.xor_lt_two_pow (by norm_num; exact hc) (by norm_num; exact hd)
  have hm : (a ^^^ b) ≡ (c ^^^ d) [MOD 4294967296] :=
    Nat.ModEq.cancel_right_of_coprime (by norm_num : Nat.gcd 4294967296 16777619 = 1) h
  have := Nat.ModEq.eq_of_lt_of_lt hm (by norm_num at hab; exact hab) (by norm_num at hcd; exact hcd)
  exact this

/-- C27: on 32-bit integers `hash2i` is injective in each coordinate separately: for a
fixed `x` the hashes of two values of `z` are equal only if the two values are equal,
and for a fixed `z` likewise in `x`; so two distinct tiles of one row or one column never
share a base hash. -/
theorem hash2i_injective_each (x x' z z' : Int)
    (hx0 : -2147483648 ≤ x) (hx1 : x < 2147483648)
    (hx0' : -2147483648 ≤ x') (hx1' : x' < 2147483648)
    (hz0 : -2147483648 ≤ z) (hz1 : z < 2147483648)
    (hz0' : -2147483648 ≤ z') (hz1' : z' < 2147483648) :
    (hash2i x z = hash2i x z' → z = z') ∧ (hash2i x z = hash2i x' z → x = x') ∧
      (z ≠ z' → hash2i x z ≠ hash2i x z') ∧ (x ≠ x' → hash2i x z ≠ hash2i x' z) := by
  have hM : ∀ n : Nat, n % 4294967296 < 4294967296 := fun n => Nat.mod_lt _ (by norm_num)
  have hzz : hash2i x z = hash2i x z' → z = z' := by
    intro h
    have h1 := hashRound_inj _ _ _ _ (hM _) (toUInt32_lt z) (hM _) (toUInt32_lt z') h
    exact toUInt32_injOn z z' hz0 hz1 hz0' hz1' (Nat.xor_right_injective h1)
  have hxx : hash2i x z = hash2i x' z → x = x' := by
    intro h
    have h1 := hashRound_inj _ _ _ _ (hM _) (toUInt32_lt z) (hM _) (toUInt32_lt z) h
    have h2 := Nat.xor_left_injective h1
    have h3 := hashRound_inj 2166136261 _ 2166136261 _ (by norm_num) (toUInt32_lt x)
      (by norm_num) (toUInt32_lt x') h2
    exact toUInt32_injOn x x' hx0 hx1 hx0' hx1' (Nat.xor_right_injective h3)
  exact ⟨hzz, hxx, fun hne h => hne (hzz h), fun hne h => hne (hxx h)⟩

theorem hash2i_injective_each_witness :
    (hash2i 3 (-2) = hash2i 3 5 → (-2 : Int) = 5) ∧ (hash2i 3 (-2) = hash2i (-5) (-2) →
        (3 : Int) = -5) ∧
      ((-2 : Int) ≠ 5 → hash2i 3 (-2) ≠ hash2i 3 5) ∧
      ((3 : Int) ≠ -5 → hash2i 3 (-2) ≠ hash2i (-5) (-2)) :=
  hash2i_injective_each 3 (-5) (-2) 5 (by decide) (by decide) (by decide) (by decide)
    (by decide) (by decide) (by decide) (by decide)

/-! ## The per-frame update: nodes outside the subtree of the root -/

theorem updateChannel_length (lib : GlmLib) (anim : Animation)
    (animationObject : AnimationObject) (time : ℚ) (l l' : List Mat4) (channel : Channel)
    (h : updateChannel lib anim animationObject time l channel = some l') :
    l'.length = l.length := by
  unfold updateChannel at h
  split_ifs at h with h1
  · cases h; rfl
  · simp only [Option.bind_eq_some] at h
    obtain ⟨sampler, -, samplerObject, -, h⟩ := h
    split_ifs at h with h2
    · cases h; rfl
    · simp only [Option.bind_eq_some, Option.map_eq_some'] at h
      obtain ⟨M, -, trs, -, h⟩ := h
      rw [← h, List.length_set]

theorem updateAnimation_length (lib : GlmLib) (anim : Animation)
    (animationObject : AnimationObject) (time : ℚ) (l l' : List Mat4)
    (h : updateAnimation lib anim animationObject time l = some l') :
    l'.length = l.length := by
  unfold updateAnimation at h
  generalize anim.channels = cs at h
  induction cs generalizing l with
  | nil => cases h; rfl
  | cons c cs ih =>
    rw [List.foldlM_cons] at h
    simp only [Option.bind_eq_bind, Option.bind_eq_some] at h
    obtain ⟨l1, h1, h2⟩ := h
    rw [ih l1 h2, updateChannel_length lib anim animationObject time l l1 c h1]

/-- Two paths compose: a path from `root` to `p` followed by a path from `p` to `n`. -/
theorem PathTo.append {nodes : List Node} {root p n : Nat} {path path2 : List Nat}
    (h1 : PathTo nodes root path p) (h2 : PathTo nodes p path2 n) :
    ∃ path3, PathTo nodes root path3 n := by
  induction h2 with
  | root => exact ⟨path, h1⟩
  | child _ hnode hc ih =>
    obtain ⟨path3, h3⟩ := ih
    exact ⟨_, PathTo.child h3 hnode hc⟩

theorem visit_fold_reachable (nodes : List Node) (fuel : Nat) (i : Nat) (node : Node)
    (hnode : nodes[i]? = some node)
    (ih : ∀ (c : Nat) (vs : List Nat), visitOrder nodes fuel c = some vs →
      ∀ n ∈ vs, ∃ path, PathTo nodes c path n) :
    ∀ (cs acc vs : List Nat), (∀ c ∈ cs, c ∈ node.children) →
      (∀ n ∈ acc, ∃ path, PathTo nodes i path n) →
      cs.foldlM (fun visited c => (visitOrder nodes fuel c).map fun sub => visited ++ sub) acc
        = some vs →
      ∀ n ∈ vs, ∃ path, PathTo nodes i path n := by
  intro cs
  induction cs with
  | nil =>
    intro acc vs _ hacc h
    cases h
    exact hacc
  | cons c cs ihc =>
    intro acc vs hsub hacc h
    rw [List.foldlM_cons] at h
    simp only [Option.bind_eq_bind, Option.bind_eq_some, Option.map_eq_some'] at h
    obtain ⟨acc', ⟨sub, hsubv, rfl⟩, h⟩ := h
    refine ihc (acc ++ sub) vs (fun c' hc' => hsub c' (List.mem_cons_of_mem _ hc')) ?_ h
    intro n hn
    rcases List.mem_append.mp hn with hn | hn
    · exact hacc n hn
    · obtain ⟨path, hp⟩ := ih c sub hsubv n hn
      exact PathTo.append (PathTo.child PathTo.root hnode (hsub c (List.mem_cons_self _ _))) hp

/-- Every node that the recursion visits is reachable from the node it started at. -/
theorem visitOrder_reachable (nodes : List Node) :
    ∀ (fuel i : Nat) (vs : List Nat), visitOrder nodes fuel i = some vs →
      ∀ n ∈ vs, ∃ path, PathTo nodes i path n := by
  intro fuel
  induction fuel with
  | zero => intro i vs h; simp [visitOrder] at h
  | succ fuel ih =>
    intro i vs h
    rw [visitOrder] at h
    simp only [Option.bind_eq_some] at h
    obtain ⟨node, hnode, h⟩ := h
    refine visit_fold_reachable nodes fuel i node hnode ih node.children [i] vs
      (fun c hc => hc) ?_ h
    intro n hn
    rw [List.mem_singleton] at hn
    subst hn
    exact ⟨[n], PathTo.root⟩

/-- The skins after `updateSkinning`: it returns when the per-joint vectors have the size
of the joint list and the joints index the global transforms, and then every joint matrix
is the global transform of the joint node times the inverse-bind matrix. -/
theorem updateSkinning_result (skins : List Skin) (skinObjects : List SkinObject)
    (globals : List Mat4) (hlen : skins.length ≤ skinObjects.length)
    (hready : ∀ (i : Nat) (skin : Skin) (obj : SkinObject), skins[i]? = some skin →
        skinObjects[i]? = some obj →
      skin.joints.length ≤ obj.inverseBindMatrices.length ∧
      obj.globalJointTransforms.length = skin.joints.length ∧
      obj.jointMatrices.length = skin.joints.length ∧
      ∀ n ∈ skin.joints, n < globals.length) :
    ∃ updated, updateSkinning skins skinObjects globals = some updated ∧
      ∀ (i : Nat) (skin : Skin) (obj : SkinObject), skins[i]? = some skin →
        skinObjects[i]? = some obj →
        ∃ obj', updated[i]? = some obj' ∧
          ∀ j n, skin.joints[j]? = some n →
            obj'.jointMatrices[j]? =
              some (globals.getD n 1 * obj.inverseBindMatrices.getD j 1) := by
  have hinner : ∀ (i : Nat) (skin : Skin) (obj : SkinObject), skins[i]? = some skin →
        skinObjects[i]? = some obj → ∃ obj', updateSkin skin globals obj = some obj' := by
    intro i skin obj hs ho
    obtain ⟨h1, h2, h3, h4⟩ := hready i skin obj hs ho
    obtain ⟨obj', hrun, _⟩ := skinJoint_loop skin.joints globals obj h1 h2 h3 h4 _ le_rfl
    exact ⟨obj', hrun⟩
  obtain ⟨updated, hrun, _, hdone, _⟩ :=
    updateSkinning_loop skins skinObjects globals hlen hinner _ le_rfl
  refine ⟨updated, hrun, ?_⟩
  intro i skin obj hs ho
  have hi : i < skins.length := (List.getElem?_eq_some.mp hs).1
  obtain ⟨obj', hget, hupd⟩ := hdone i hi skin obj hs ho
  obtain ⟨h1, h2, h3, h4⟩ := hready i skin obj hs ho
  obtain ⟨obj'', hrun', _, _, hml, hvals⟩ :=
    skinJoint_loop skin.joints globals obj h1 h2 h3 h4 _ le_rfl
  have hsame : obj'' = obj' := Option.some.inj (hrun'.symm.trans hupd)
  subst hsame
  refine ⟨obj'', hget, ?_⟩
  intro j n hjn
  have hj : j < skin.joints.length := (List.getElem?_eq_some.mp hjn).1
  have hn : skin.joints.getD j 0 = n := by
    rw [List.getD_eq_getElem?_getD, hjn]; rfl
  have := hvals j hj
  rw [hn, List.getD_eq_getElem?_getD, List.getElem?_eq_getElem (by omega)] at this
  rw [List.getElem?_eq_getElem (by omega)]
  exact congrArg some this

/-- The transforms computed by `update`: both recursions and the animation step return,
and the global transform of every node that the recursion from the root does not visit is
the identity it was initialised with. -/
theorem updateTransforms_frame (lib : GlmLib) (nodes : List Node) (fuel : Nat) (skin : Skin)
    (animations : List Animation) (animationObjects : List AnimationObject) (time : ℚ)
    (root : Nat) (vs : List Nat)
    (hroot : skinRoot skin = some root)
    (hvs : visitOrder nodes fuel root = some vs) (htree : vs.Nodup)
    (hanim : ∀ (anim : Animation) (animationObject : AnimationObject) (l : List Mat4),
      animations.head? = some anim → animationObjects.head? = some animationObject →
      l.length = nodes.length →
      ∃ l', updateAnimation lib anim animationObject time l = some l') :
    ∃ globals, updateTransforms lib nodes fuel skin animations animationObjects time
        = some globals ∧ globals.length = nodes.length ∧
      ∀ n, n ∉ vs → globals.getD n 1 = 1 := by
  obtain ⟨l0, hl0, hlen0⟩ := local_tree_run nodes fuel root (List.replicate nodes.length 1) vs
    hvs (List.length_replicate _ _)
  have key : ∀ l1 : List Mat4, l1.length = nodes.length →
      ∃ g, computeGlobalNodeTransform nodes l1 fuel root 1 (List.replicate nodes.length 1)
          = some g ∧ g.length = nodes.length ∧ ∀ n, n ∉ vs → g.getD n 1 = 1 := by
    intro l1 hlen1
    obtain ⟨g, hg, -, -, hdone⟩ := tree_run nodes l1 hlen1 fuel root 1
      (List.replicate nodes.length 1) vs hvs htree (List.length_replicate _ _)
    refine ⟨g, hg, by rw [hdone.length_eq, List.length_replicate], ?_⟩
    intro n hn
    rw [hdone.frame n hn, List.getD_eq_getElem?_getD]
    by_cases hlt : n < nodes.length
    · rw [List.getElem?_eq_getElem (by rw [List.length_replicate]; exact hlt)]
      simp
    · rw [List.getElem?_eq_none (by rw [List.length_replicate]; omega)]
      rfl
  unfold updateTransforms
  rw [hroot, Option.some_bind, hl0, Option.some_bind]
  cases animations with
  | nil => exact key l0 hlen0
  | cons anim as =>
    cases animationObjects with
    | nil => exact key l0 hlen0
    | cons ao aos =>
      obtain ⟨l1, h1⟩ := hanim anim ao l0 rfl rfl hlen0
      simp only [h1, Option.some_bind]
      exact key l1 (by rw [updateAnimation_length lib anim ao time l0 l1 h1, hlen0])

/-- C28: in `MyBot::update` only the nodes reachable from the root of the first skin
(`skin.skeleton`, or `joints[0]` when no skeleton is declared) receive a computed
transform.  When the hierarchy under that root is a tree, the animation step returns and
the skin objects are sized for their skins, `update` returns; the visited nodes are
exactly the nodes reachable from the root; every other node keeps the identity as its
global transform; and a joint of any skin that refers to such a node gets its
inverse-bind matrix as joint matrix. -/
theorem update_outside_subtree (lib : GlmLib) (nodes : List Node) (fuel : Nat) (skin : Skin)
    (rest : List Skin) (animations : List Animation)
    (animationObjects : List AnimationObject) (skinObjects : List SkinObject) (time : ℚ)
    (root : Nat) (vs : List Nat)
    (hroot : skinRoot skin = some root)
    (hvs : visitOrder nodes fuel root = some vs) (htree : vs.Nodup)
    (hanim : ∀ (anim : Animation) (animationObject : AnimationObject) (l : List Mat4),
      animations.head? = some anim → animationObjects.head? = some animationObject →
      l.length = nodes.length →
      ∃ l', updateAnimation lib anim animationObject time l = some l')
    (hlen : (skin :: rest).length ≤ skinObjects.length)
    (hready : ∀ (i : Nat) (s : Skin) (obj : SkinObject), (skin :: rest)[i]? = some s →
        skinObjects[i]? = some obj →
      s.joints.length ≤ obj.inverseBindMatrices.length ∧
      obj.globalJointTransforms.length = s.joints.length ∧
      obj.jointMatrices.length = s.joints.length ∧
      ∀ n ∈ s.joints, n < nodes.length) :
    ∃ globals updated,
      updateTransforms lib nodes fuel skin animations animationObjects time = some globals ∧
      update lib nodes fuel (skin :: rest) animations animationObjects skinObjects time
        = some updated ∧
      (∀ n, n ∈ vs ↔ ∃ path, PathTo nodes root path n) ∧
      (∀ n, (¬ ∃ path, PathTo nodes root path n) → globals.getD n 1 = 1) ∧
      ∀ (i : Nat) (s : Skin) (obj : SkinObject), (skin :: rest)[i]? = some s →
        skinObjects[i]? = some obj →
        ∃ obj', updated[i]? = some obj' ∧
          ∀ j n, s.joints[j]? = some n → (¬ ∃ path, PathTo nodes root path n) →
            obj'.jointMatrices[j]? = some (obj.inverseBindMatrices.getD j 1) := by
  obtain ⟨globals, hg, hglen, hframe⟩ := updateTransforms_frame lib nodes fuel skin animations
    animationObjects time root vs hroot hvs htree hanim
  obtain ⟨g0, hg0, hrootmem, -, hdone⟩ := tree_run nodes (List.replicate nodes.length 1)
    (List.length_replicate _ _) fuel root 1 (List.replicate nodes.length 1) vs hvs htree
    (List.length_replicate _ _)
  have hreach : ∀ n, n ∈ vs ↔ ∃ path, PathTo nodes root path n := by
    intro n
    constructor
    · exact visitOrder_reachable nodes fuel root vs hvs n
    · rintro ⟨path, hp⟩
      exact path_mem nodes _ root vs _ g0 hrootmem hdone path n hp
  obtain ⟨updated, hupd, hvals⟩ := updateSkinning_result (skin :: rest) skinObjects globals hlen
    (fun i s obj hs ho => by
      obtain ⟨h1, h2, h3, h4⟩ := hready i s obj hs ho
      exact ⟨h1, h2, h3, fun n hn => by rw [hglen]; exact h4 n hn⟩)
  refine ⟨globals, updated, hg, ?_, hreach, ?_, ?_⟩
  · show (updateTransforms lib nodes fuel skin animations animationObjects time).bind _ = _
    rw [hg, Option.some_bind, hupd]
  · intro n hn
    exact hframe n (fun h => hn ((hreach n).mp h))
  · intro i s obj hs ho
    obtain ⟨obj', hget, hj⟩ := hvals i s obj hs ho
    refine ⟨obj', hget, ?_⟩
    intro j n hjn hn
    rw [hj j n hjn, hframe n (fun h => hn ((hreach n).mp h)), one_mul]

theorem update_outside_subtree_witness :
    ∃ globals updated,
      updateTransforms exactGlm threeLevelNodes 3 sideSkin [sideAnimation] [midpointObject]
        (1 / 2) = some globals ∧
      update exactGlm threeLevelNodes 3 (sideSkin :: []) [sideAnimation] [midpointObject]
        [sideSkinObject] (1 / 2) = some updated ∧
      (∀ n, n ∈ [1, 3] ↔ ∃ path, PathTo threeLevelNodes 1 path n) ∧
      (∀ n, (¬ ∃ path, PathTo threeLevelNodes 1 path n) → globals.getD n 1 = 1) ∧
      ∀ (i : Nat) (s : Skin) (obj : SkinObject), (sideSkin :: [])[i]? = some s →
        [sideSkinObject][i]? = some obj →
        ∃ obj', updated[i]? = some obj' ∧
          ∀ j n, s.joints[j]? = some n → (¬ ∃ path, PathTo threeLevelNodes 1 path n) →
            obj'.jointMatrices[j]? = some (obj.inverseBindMatrices.getD j 1) :=
  update_outside_subtree exactGlm threeLevelNodes 3 sideSkin [] [sideAnimation]
    [midpointObject] [sideSkinObject] (1 / 2) 1 [1, 3] (by decide) (by decide) (by decide)
    (by
      intro anim ao l ha hao hl
      simp only [List.head?_cons, Option.some.injEq] at ha hao
      subst ha hao
      have hl4 : l.length = 4 := hl
      unfold updateAnimation
      rw [show sideAnimation.channels = [⟨0, 2, "translation"⟩] from rfl, List.foldlM_cons,
        updateChannel_eq exactGlm sideAnimation midpointObject (1 / 2) l ⟨0, 2, "translation"⟩
          ⟨[0, 0, 0, 10, 0, 0]⟩ ⟨[0, 1], [], 0⟩ _ (by decide)
          (by rw [hl4]; decide) (by rfl) (by rfl) (by decide) midpoint_keyframeFactor,
        animatedTRS_translation exactGlm _ _ _ _ _ ⟨0, 0, 0⟩ ⟨10, 0, 0⟩ (by decide) (by decide)]
      exact ⟨_, rfl⟩)
    (by decide)
    (by
      intro i s obj hs ho
      cases i with
      | zero =>
        simp only [List.getElem?_cons_zero, Option.some.injEq] at hs ho
        subst hs ho
        exact ⟨by decide, by decide, by decide, by decide⟩
      | succ i => simp at hs)

/-! ## `updateAnimation` as a whole: a channel and the channels after it -/

/-- A channel changes no entry other than the one of its target node. -/
theorem updateChannel_frame (lib : GlmLib) (anim : Animation)
    (animationObject : AnimationObject) (time : ℚ) (l l' : List Mat4) (channel : Channel)
    (h : updateChannel lib anim animationObject time l channel = some l') (i : Nat)
    (hi : (i : Int) ≠ channel.target_node) : l'.getD i 1 = l.getD i 1 := by
  unfold updateChannel at h
  split_ifs at h with h1
  · cases h; rfl
  · simp only [Option.bind_eq_some] at h
    obtain ⟨sampler, -, samplerObject, -, h⟩ := h
    split_ifs at h with h2
    · cases h; rfl
    · simp only [Option.bind_eq_some, Option.map_eq_some'] at h
      obtain ⟨M, -, trs, -, h⟩ := h
      rw [← h]
      exact getD_set_ne l _ i _ (by omega)

theorem channelTRS_translation_kept (lib : GlmLib) (path : String) (data : List ℚ)
    (kf : Option (ℚ × Int × Int × ℚ)) (trs trs' : Vec3 × Quat × Vec3)
    (hp : path ≠ "translation") (h : channelTRS lib path data kf trs = some trs') :
    trs'.1 = trs.1 := by
  unfold channelTRS at h
  split_ifs at h with h1
  · simp only [Option.bind_eq_some] at h
    obtain ⟨k, -, h⟩ := h
    unfold animatedTRS at h
    rw [if_neg hp] at h
    split_ifs at h with h2 h3
    · simp only [Option.bind_eq_some] at h
      obtain ⟨q0, -, q1, -, h⟩ := h
      cases h; rfl
    · simp only [Option.bind_eq_some] at h
      obtain ⟨s0, -, s1, -, h⟩ := h
      cases h; rfl
    · cases h; rfl
  · cases h; rfl

/-- A channel that does not animate the translation leaves the translation column of
every entry as it was. -/
theorem updateChannel_translation_kept (lib : GlmLib) (anim : Animation)
    (animationObject : AnimationObject) (time : ℚ) (l l' : List Mat4) (channel : Channel)
    (h : updateChannel lib anim animationObject time l channel = some l')
    (hp : channel.target_path ≠ "translation") (i : Nat) :
    colVec3 (l'.getD i 1) 3 = colVec3 (l.getD i 1) 3 := by
  by_cases hi : (i : Int) = channel.target_node
  · unfold updateChannel at h
    split_ifs at h with h1
    · cases h; rfl
    · simp only [Option.bind_eq_some] at h
      obtain ⟨sampler, -, samplerObject, -, h⟩ := h
      split_ifs at h with h2
      · cases h; rfl
      · simp only [Option.bind_eq_some, Option.map_eq_some'] at h
        obtain ⟨M, hM, trs, htrs, h⟩ := h
        have hit : channel.target_node.toNat = i := by omega
        have hlt : i < l.length := by omega
        have hMi : M = l.getD i 1 := by
          unfold vecAt at hM
          rw [if_pos (by omega), hit, List.getElem?_eq_getElem hlt] at hM
          rw [List.getD_eq_getElem _ _ hlt]
          exact (Option.some.inj hM).symm
        have ht := channelTRS_translation_kept lib _ _ _ _ _ hp htrs
        rw [← h, hit, getD_set_self l i _ hlt,
          show trs = (trs.1, trs.2.1, trs.2.2) from rfl, composeTRS_translation, ht, ← hMi]
        rfl
  · rw [updateChannel_frame lib anim animationObject time l l' channel h i hi]

theorem channels_fold_length (lib : GlmLib) (anim : Animation)
    (animationObject : AnimationObject) (time : ℚ) :
    ∀ (cs : List Channel) (l l' : List Mat4),
      cs.foldlM (updateChannel lib anim animationObject time) l = some l' →
      l'.length = l.length := by
  intro cs
  induction cs with
  | nil => intro l l' h; cases h; rfl
  | cons c cs ih =>
    intro l l' h
    rw [List.foldlM_cons] at h
    simp only [Option.bind_eq_bind, Option.bind_eq_some] at h
    obtain ⟨l1, h1, h2⟩ := h
    rw [ih l1 l' h2, updateChannel_length lib anim animationObject time l l1 c h1]

/-- Channels that target other nodes leave the entry of a node as it was. -/
theorem channels_fold_frame (lib : GlmLib) (anim : Animation)
    (animationObject : AnimationObject) (time : ℚ) (i : Nat) :
    ∀ (cs : List Channel) (l l' : List Mat4),
      (∀ c ∈ cs, c.target_node ≠ (i : Int)) →
      cs.foldlM (updateChannel lib anim animationObject time) l = some l' →
      l'.getD i 1 = l.getD i 1 := by
  intro cs
  induction cs with
  | nil => intro l l' _ h; cases h; rfl
  | cons c cs ih =>
    intro l l' hc h
    rw [List.foldlM_cons] at h
    simp only [Option.bind_eq_bind, Option.bind_eq_some] at h
    obtain ⟨l1, h1, h2⟩ := h
    rw [ih l1 l' (fun c' hc' => hc c' (List.mem_cons_of_mem _ hc')) h2,
      updateChannel_frame lib anim animationObject time l l1 c h1 i
        (fun e => hc c (List.mem_cons_self _ _) e.symm)]

/-- Channels none of which animates the translation of a node leave the translation
column of that node as it was. -/
theorem channels_fold_translation_kept (lib : GlmLib) (anim : Animation)
    (animationObject : AnimationObject) (time : ℚ) (i : Nat) :
    ∀ (cs : List Channel) (l l' : List Mat4),
      (∀ c ∈ cs, c.target_node = (i : Int) → c.target_path ≠ "translation") →
      cs.foldlM (updateChannel lib anim animationObject time) l = some l' →
      colVec3 (l'.getD i 1) 3 = colVec3 (l.getD i 1) 3 := by
  intro cs
  induction cs with
  | nil => intro l l' _ h; cases h; rfl
  | cons c cs ih =>
    intro l l' hc h
    rw [List.foldlM_cons] at h
    simp only [Option.bind_eq_bind, Option.bind_eq_some] at h
    obtain ⟨l1, h1, h2⟩ := h
    rw [ih l1 l' (fun c' hc' => hc c' (List.mem_cons_of_mem _ hc')) h2]
    by_cases ht : c.target_node = (i : Int)
    · exact updateChannel_translation_kept lib anim animationObject time l l1 c h1
        (hc c (List.mem_cons_self _ _) ht) i
    · rw [updateChannel_frame lib anim animationObject time l l1 c h1 i (fun e => ht e.symm)]

theorem channelTRS_scale_kept (lib : GlmLib) (path : String) (data : List ℚ)
    (kf : Option (ℚ × Int × Int × ℚ)) (trs trs' : Vec3 × Quat × Vec3)
    (hp : path ≠ "scale") (h : channelTRS lib path data kf trs = some trs') :
    trs'.2.2 = trs.2.2 ∧ (trs'.2.1 = trs.2.1 ∨ ∃ q, trs'.2.1 = lib.normalize q) := by
  unfold channelTRS at h
  split_ifs at h with h1
  · simp only [Option.bind_eq_some] at h
    obtain ⟨k, -, h⟩ := h
    unfold animatedTRS at h
    split_ifs at h with h2 h3
    · simp only [Option.bind_eq_some] at h
      obtain ⟨v0, -, v1, -, h⟩ := h
      cases h
      exact ⟨rfl, Or.inl rfl⟩
    · simp only [Option.bind_eq_some] at h
      obtain ⟨q0, -, q1, -, h⟩ := h
      cases h
      exact ⟨rfl, Or.inr ⟨_, rfl⟩⟩
    · cases h
      exact ⟨rfl, Or.inl rfl⟩
  · cases h
    exact ⟨rfl, Or.inl rfl⟩

/-- A channel that does not animate the scale of a node whose transform is
`translate * rotate * scale` with a unit rotation and positive scale factors keeps that
form and the scale, the library operations being exact and `glm::normalize` returning unit
quaternions. -/
theorem updateChannel_scale_kept (lib : GlmLib) (hlib : GlmExact lib)
    (hunit : ∀ q, (lib.normalize q).IsUnit) (anim : Animation)
    (animationObject : AnimationObject) (time : ℚ) (l l' : List Mat4) (channel : Channel)
    (h : updateChannel lib anim animationObject time l channel = some l') (i : Nat)
    (hp : channel.target_node = (i : Int) → channel.target_path ≠ "scale")
    (T : Vec3) (R : Quat) (S : Vec3) (hM : l.getD i 1 = composeTRS (T, R, S))
    (hR : R.IsUnit) (hx : 0 < S.x) (hy : 0 < S.y) (hz : 0 < S.z) :
    ∃ (T' : Vec3) (R' : Quat), R'.IsUnit ∧ l'.getD i 1 = composeTRS (T', R', S) := by
  by_cases hi : (i : Int) = channel.target_node
  · unfold updateChannel at h
    split_ifs at h with h1
    · cases h; exact ⟨T, R, hR, hM⟩
    · simp only [Option.bind_eq_some] at h
      obtain ⟨sampler, -, samplerObject, -, h⟩ := h
      split_ifs at h with h2
      · cases h; exact ⟨T, R, hR, hM⟩
      · simp only [Option.bind_eq_some, Option.map_eq_some'] at h
        obtain ⟨M, hMv, trs, htrs, h⟩ := h
        have hit : channel.target_node.toNat = i := by omega
        have hlt : i < l.length := by omega
        have hMi : M = l.getD i 1 := by
          unfold vecAt at hMv
          rw [if_pos (by omega), hit, List.getElem?_eq_getElem hlt] at hMv
          rw [List.getD_eq_getElem _ _ hlt]
          exact (Option.some.inj hMv).symm
        rw [hMi, hM] at htrs
        obtain ⟨-, d2, d3⟩ := decompose_composeTRS lib hlib T R S hR hx hy hz
        obtain ⟨k1, k2⟩ := channelTRS_scale_kept lib _ _ _ _ _ (hp hi.symm) htrs
        rw [d3] at k1
        rw [← h, hit, getD_set_self l i _ hlt, show trs = (trs.1, trs.2.1, trs.2.2) from rfl,
          k1]
        rcases k2 with k2 | ⟨q, k2⟩
        · refine ⟨trs.1, R, hR, ?_⟩
          rw [k2]
          exact composeTRS_congr _ _ _ _ d2
        · exact ⟨trs.1, lib.normalize q, hunit q, by rw [k2]⟩
  · rw [updateChannel_frame lib anim animationObject time l l' channel h i hi]
    exact ⟨T, R, hR, hM⟩

/-- Channels none of which animates the scale of a node keep the scale of that node, under
the conditions of `updateChannel_scale_kept`. -/
theorem channels_fold_scale_kept (lib : GlmLib) (hlib : GlmExact lib)
    (hunit : ∀ q, (lib.normalize q).IsUnit) (anim : Animation)
    (animationObject : AnimationObject) (time : ℚ) (i : Nat) (S : Vec3)
    (hx : 0 < S.x) (hy : 0 < S.y) (hz : 0 < S.z) :
    ∀ (cs : List Channel) (l l' : List Mat4),
      (∀ c ∈ cs, c.target_node = (i : Int) → c.target_path ≠ "scale") →
      cs.foldlM (updateChannel lib anim animationObject time) l = some l' →
      (∃ (T : Vec3) (R : Quat), R.IsUnit ∧ l.getD i 1 = composeTRS (T, R, S)) →
      ∃ (T' : Vec3) (R' : Quat), R'.IsUnit ∧ l'.getD i 1 = composeTRS (T', R', S) := by
  intro cs
  induction cs with
  | nil => intro l l' _ h hinv; cases h; exact hinv
  | cons c cs ih =>
    intro l l' hc h hinv
    rw [List.foldlM_cons] at h
    simp only [Option.bind_eq_bind, Option.bind_eq_some] at h
    obtain ⟨l1, h1, h2⟩ := h
    obtain ⟨T, R, hR, hM⟩ := hinv
    exact ih l1 l' (fun c' hc' => hc c' (List.mem_cons_of_mem _ hc')) h2
      (updateChannel_scale_kept lib hlib hunit anim animationObject time l l1 c h1 i
        (hc c (List.mem_cons_self _ _)) T R S hM hR hx hy hz)

/-- The run of `updateAnimation` split at one of its channels. -/
theorem updateAnimation_split (lib : GlmLib) (anim : Animation)
    (animationObject : AnimationObject) (time : ℚ) (l : List Mat4) (pre post : List Channel)
    (channel : Channel) (hch : anim.channels = pre ++ channel :: post) :
    updateAnimation lib anim animationObject time l =
      (pre.foldlM (updateChannel lib anim animationObject time) l).bind fun before =>
        (updateChannel lib anim animationObject time before channel).bind fun after =>
          post.foldlM (updateChannel lib anim animationObject time) after := by
  unfold updateAnimation
  rw [hch, List.foldlM_append]
  rfl

/-- A translation or scale channel whose wrapped time lies in the interval `k`, seen
through the whole of `updateAnimation`: the call returns when the channels before and
after return, and the value set by the channel is still there at the end unless a later
channel rewrites it. -/
theorem updateAnimation_in_interval (lib : GlmLib) (anim : Animation)
    (animationObject : AnimationObject) (time : ℚ) (nodeTransforms before : List Mat4)
    (pre post : List Channel) (channel : Channel) (sampler : AnimationSampler)
    (samplerObject : SamplerObject) (k : Nat) (t : ℚ) (v0 v1 : Vec3)
    (hch : anim.channels = pre ++ channel :: post)
    (hpre : pre.foldlM (updateChannel lib anim animationObject time) nodeTransforms
      = some before)
    (hpost : ∀ l : List Mat4, l.length = nodeTransforms.length →
      ∃ l', post.foldlM (updateChannel lib anim animationObject time) l = some l')
    (hpath : channel.target_path = "translation" ∨ channel.target_path = "scale")
    (ht0 : 0 ≤ channel.target_node)
    (ht1 : channel.target_node < (nodeTransforms.length : Int))
    (hsampler : anim.samplers[channel.sampler]? = some sampler)
    (hobj : animationObject.samplers[channel.sampler]? = some samplerObject)
    (hs : samplerObject.input.Sorted (· < ·)) (hk : k + 1 < samplerObject.input.length)
    (hw : wrappedTime samplerObject.input time = some t)
    (h1 : samplerObject.input.getD k 0 ≤ t) (h2 : t < samplerObject.input.getD (k + 1) 0)
    (hv0 : readVec3 sampler.outputData k = some v0)
    (hv1 : readVec3 sampler.outputData ((k : Int) + 1) = some v1) :
    ∃ result, updateAnimation lib anim animationObject time nodeTransforms = some result ∧
      (channel.target_path = "translation" →
        ((∀ c ∈ post, c.target_node = channel.target_node → c.target_path ≠ "translation") →
          colVec3 (result.getD channel.target_node.toNat 1) 3 =
            mixVec3 v0 v1 ((t - samplerObject.input.getD k 0) /
              (samplerObject.input.getD (k + 1) 0 - samplerObject.input.getD k 0))) ∧
        ((∀ c ∈ post, c.target_node ≠ channel.target_node) →
          result.getD channel.target_node.toNat 1 = composeTRS
            (mixVec3 v0 v1 ((t - samplerObject.input.getD k 0) /
                (samplerObject.input.getD (k + 1) 0 - samplerObject.input.getD k 0)),
              (decompose lib (before.getD channel.target_node.toNat 1)).2.1,
              (decompose lib (before.getD channel.target_node.toNat 1)).2.2))) ∧
      (channel.target_path = "scale" →
        ((∀ c ∈ post, c.target_node ≠ channel.target_node) →
          result.getD channel.target_node.toNat 1 = composeTRS
            ((decompose lib (before.getD channel.target_node.toNat 1)).1,
              (decompose lib (before.getD channel.target_node.toNat 1)).2.1,
              mixVec3 v0 v1 ((t - samplerObject.input.getD k 0) /
                (samplerObject.input.getD (k + 1) 0 - samplerObject.input.getD k 0)))) ∧
        (GlmExact lib → (∀ q, (lib.normalize q).IsUnit) →
          (∀ c ∈ post, c.target_node = channel.target_node → c.target_path ≠ "scale") →
          ∀ (T0 : Vec3) (R0 : Quat) (S0 : Vec3),
            before.getD channel.target_node.toNat 1 = composeTRS (T0, R0, S0) →
            R0.IsUnit → 0 < S0.x → 0 < S0.y → 0 < S0.z →
            0 < (mixVec3 v0 v1 ((t - samplerObject.input.getD k 0) /
              (samplerObject.input.getD (k + 1) 0 - samplerObject.input.getD k 0))).x →
            0 < (mixVec3 v0 v1 ((t - samplerObject.input.getD k 0) /
              (samplerObject.input.getD (k + 1) 0 - samplerObject.input.getD k 0))).y →
            0 < (mixVec3 v0 v1 ((t - samplerObject.input.getD k 0) /
              (samplerObject.input.getD (k + 1) 0 - samplerObject.input.getD k 0))).z →
            ∃ (T' : Vec3) (R' : Quat), R'.IsUnit ∧
              result.getD channel.target_node.toNat 1 = composeTRS (T', R',
                mixVec3 v0 v1 ((t - samplerObject.input.getD k 0) /
                  (samplerObject.input.getD (k + 1) 0 - samplerObject.input.getD k 0))))) := by
  have hbl : before.length = nodeTransforms.length :=
    channels_fold_length lib anim animationObject time pre nodeTransforms before hpre
  have hn : ((channel.target_node.toNat : Nat) : Int) = channel.target_node :=
    Int.toNat_of_nonneg ht0
  have hlt : channel.target_node.toNat < before.length := by omega
  have hci := updateChannel_in_interval lib anim animationObject time before channel sampler
    samplerObject k t v0 v1 ht0 (by omega) hsampler hobj hs hk hw h1 h2 hv0 hv1
  obtain ⟨after, hafter, hval⟩ : ∃ after,
      updateChannel lib anim animationObject time before channel = some after ∧
      (channel.target_path = "translation" → after.getD channel.target_node.toNat 1 =
        composeTRS (mixVec3 v0 v1 ((t - samplerObject.input.getD k 0) /
              (samplerObject.input.getD (k + 1) 0 - samplerObject.input.getD k 0)),
            (decompose lib (before.getD channel.target_node.toNat 1)).2.1,
            (decompose lib (before.getD channel.target_node.toNat 1)).2.2)) ∧
      (channel.target_path = "scale" → after.getD channel.target_node.toNat 1 =
        composeTRS ((decompose lib (before.getD channel.target_node.toNat 1)).1,
            (decompose lib (before.getD channel.target_node.toNat 1)).2.1,
            mixVec3 v0 v1 ((t - samplerObject.input.getD k 0) /
              (samplerObject.input.getD (k + 1) 0 - samplerObject.input.getD k 0)))) := by
    rcases hpath with hp | hp
    · refine ⟨_, hci.1 hp, fun _ => getD_set_self before _ _ hlt, fun hp' => ?_⟩
      rw [hp] at hp'
      exact absurd hp' (by decide)
    · refine ⟨_, hci.2 hp, fun hp' => ?_, fun _ => getD_set_self before _ _ hlt⟩
      rw [hp] at hp'
      exact absurd hp' (by decide)
  have hal : after.length = nodeTransforms.length := by
    rw [updateChannel_length lib anim animationObject time before after channel hafter, hbl]
  obtain ⟨result, hres⟩ := hpost after hal
  refine ⟨result, ?_, ?_, ?_⟩
  · rw [updateAnimation_split lib anim animationObject time nodeTransforms pre post channel hch,
      hpre, Option.some_bind, hafter, Option.some_bind, hres]
  · intro hp
    constructor
    · intro hlater
      rw [channels_fold_translation_kept lib anim animationObject time _ post after result
        (fun c hc e => hlater c hc (e.trans hn)) hres, hval.1 hp, composeTRS_translation]
    · intro hlater
      rw [channels_fold_frame lib anim animationObject time _ post after result
        (fun c hc e => hlater c hc (e.trans hn)) hres, hval.1 hp]
  · intro hp
    constructor
    · intro hlater
      rw [channels_fold_frame lib anim animationObject time _ post after result
        (fun c hc e => hlater c hc (e.trans hn)) hres, hval.2 hp]
    · intro hlib hunit hlater T0 R0 S0 hM hR hx hy hz px py pz
      obtain ⟨-, d2, -⟩ := decompose_composeTRS lib hlib T0 R0 S0 hR hx hy hz
      refine channels_fold_scale_kept lib hlib hunit anim animationObject time _ _ px py pz
        post after result (fun c hc e => hlater c hc (e.trans hn)) hres
        ⟨(decompose lib (before.getD channel.target_node.toNat 1)).1, R0, hR, ?_⟩
      rw [hval.2 hp, hM]
      exact composeTRS_congr _ _ _ _ d2

theorem one_eq_composeTRS : (1 : Mat4) = composeTRS (⟨0, 0, 0⟩, ⟨0, 0, 0, 1⟩, ⟨1, 1, 1⟩) := by
  rw [composeTRS_entries]
  ext i j
  fin_cases i <;> fin_cases j <;> simp [mat3_cast, Matrix.one_apply] <;> rfl

theorem mixVec3_self (v : Vec3) (f : ℚ) : mixVec3 v v f = v := by
  simp only [mixVec3, mix]
  refine vec3_ext _ _ ?_ ?_ ?_ <;> simp only <;> ring

theorem wrappedTime_half : wrappedTime [0, 1] (1 / 2) = some (1 / 2) :=
  wrappedTime_of_lt [0, 1] (1 / 2) (by decide) (by norm_num) (by norm_num)

/-- The first channel of `mirrorClip`, run on the identity at a time that wraps into
`[0, 1)`: the node gets the mirror `scale(-1, 1, 1)`. -/
theorem mirrorClip_first (time t : ℚ) (hw : wrappedTime [0, 1] time = some t)
    (h0 : 0 ≤ t) (h1 : t < 1) :
    [(⟨0, 0, "scale"⟩ : Channel)].foldlM
        (updateChannel exactGlm mirrorClip twoSamplerObject time) [1]
      = some [mirroredTransform] := by
  have h := (updateChannel_in_interval exactGlm mirrorClip twoSamplerObject time [1]
    ⟨0, 0, "scale"⟩ ⟨[-1, 1, 1, -1, 1, 1]⟩ ⟨[0, 1], [], 0⟩ 0 t ⟨-1, 1, 1⟩ ⟨-1, 1, 1⟩
    (by decide) (by decide) (by rfl) (by rfl) (by decide) (by decide) hw
    (by simpa using h0) (by simpa using h1) (by decide) (by decide)).2 rfl
  obtain ⟨d1, d2, -⟩ := decompose_composeTRS exactGlm exactGlm_exact ⟨0, 0, 0⟩ ⟨0, 0, 0, 1⟩
    ⟨1, 1, 1⟩ (by norm_num [QuatOf.IsUnit]) (by norm_num) (by norm_num) (by norm_num)
  rw [List.foldlM_cons, h]
  simp only [Int.toNat_zero, List.getD_cons_zero, List.set_cons_zero, mixVec3_self]
  rw [one_eq_composeTRS, d1, composeTRS_congr _ _ _ _ d2]
  rfl

/-- The second channel of `mirrorClip`, run on the mirror: the translation becomes
`(10 t, 0, 0)` and the scale is read back as `(1, 1, 1)`. -/
theorem mirrorClip_second (time t : ℚ) (hw : wrappedTime [0, 1] time = some t)
    (h0 : 0 ≤ t) (h1 : t < 1) :
    updateChannel exactGlm mirrorClip twoSamplerObject time [mirroredTransform]
        ⟨1, 0, "translation"⟩
      = some [composeTRS (⟨10 * t, 0, 0⟩, (decompose exactGlm mirroredTransform).2.1,
          ⟨1, 1, 1⟩)] := by
  have h := (updateChannel_in_interval exactGlm mirrorClip twoSamplerObject time
    [mirroredTransform] ⟨1, 0, "translation"⟩ ⟨[0, 0, 0, 10, 0, 0]⟩ ⟨[0, 1], [], 0⟩ 0 t
    ⟨0, 0, 0⟩ ⟨10, 0, 0⟩
    (by decide) (by decide) (by rfl) (by rfl) (by decide) (by decide) hw
    (by simpa using h0) (by simpa using h1) (by decide) (by decide)).1 rfl
  rw [h]
  simp only [Int.toNat_zero, List.getD_cons_zero, List.set_cons_zero]
  rw [show (decompose exactGlm mirroredTransform).2.2 = ⟨1, 1, 1⟩ from
    mirrored_decompose_scale exactGlm exactGlm_exact ⟨0, 0, 0⟩]
  norm_num [mixVec3, mix]

/-- The whole of `updateAnimation` on `mirrorClip`: the mirror set by the scale channel
is gone after the translation channel. -/
theorem mirrorClip_run (time t : ℚ) (hw : wrappedTime [0, 1] time = some t)
    (h0 : 0 ≤ t) (h1 : t < 1) :
    updateAnimation exactGlm mirrorClip twoSamplerObject time [1] =
      some [composeTRS (⟨10 * t, 0, 0⟩, (decompose exactGlm mirroredTransform).2.1,
        ⟨1, 1, 1⟩)] := by
  rw [updateAnimation_split exactGlm mirrorClip twoSamplerObject time [1]
    [⟨0, 0, "scale"⟩] [] ⟨1, 0, "translation"⟩ rfl, mirrorClip_first time t hw h0 h1,
    Option.some_bind, mirrorClip_second time t hw h0 h1]
  rfl

/-- The whole of `updateAnimation` on the one-channel clip `midpointClip`. -/
theorem midpointClip_run (lib : GlmLib) (animationObject : AnimationObject) (time t : ℚ)
    (t0 t1 : ℚ) (hobj : animationObject.samplers[0]? = some ⟨[t0, t1], [], 0⟩)
    (hlt : t0 < t1) (hw : wrappedTime [t0, t1] time = some t) (h0 : t0 ≤ t) (h1 : t < t1) :
    (updateAnimation lib midpointClip animationObject time [1]).map
      (fun l => colVec3 (l.getD 0 1) 3) = some ⟨10 * ((t - t0) / (t1 - t0)), 0, 0⟩ := by
  obtain ⟨result, hres, hval, -⟩ := updateAnimation_in_interval lib midpointClip
    animationObject time [1] [1] [] [] ⟨0, 0, "translation"⟩ ⟨[0, 0, 0, 10, 0, 0]⟩
    ⟨[t0, t1], [], 0⟩ 0 t ⟨0, 0, 0⟩ ⟨10, 0, 0⟩ rfl rfl (fun l _ => ⟨l, rfl⟩) (Or.inl rfl)
    (by decide) (by decide) (by rfl) hobj (by simp [hlt]) (by simp) hw
    (by simpa using h0) (by simpa using h1) (by decide) (by decide)
  rw [hres, Option.map_some', show colVec3 (result.getD 0 1) 3 = _ from
    (hval rfl).1 (fun c hc => absurd hc (List.not_mem_nil c))]
  simp [mixVec3, mix]

/-- C5 (as stated) fails for an animation with several channels on one node.  In
`mirrorClip` the scale channel interpolates to `(-1, 1, 1)` at time `1/2`, but the
translation channel that follows reads the scale back as column lengths, so after
`updateAnimation` the node matrix is built with the scale `(1, 1, 1)` and is not a mirror.
In `doubleClip` the first translation channel interpolates to `(5, 0, 0)`, but after
`updateAnimation` the translation is the `(30, 0, 0)` of the second channel. -/
theorem later_channel_overrides :
    (specLerp ⟨-1, 1, 1⟩ ⟨-1, 1, 1⟩ (1 / 2) = ⟨-1, 1, 1⟩ ∧
      updateAnimation exactGlm mirrorClip twoSamplerObject (1 / 2) [1] =
        some [composeTRS (⟨5, 0, 0⟩, (decompose exactGlm mirroredTransform).2.1,
          ⟨1, 1, 1⟩)] ∧
      ∀ T : Vec3, composeTRS (⟨5, 0, 0⟩, (decompose exactGlm mirroredTransform).2.1,
          ⟨1, 1, 1⟩) ≠ composeTRS (T, ⟨0, 0, 0, 1⟩, ⟨-1, 1, 1⟩)) ∧
    (specLerp ⟨0, 0, 0⟩ ⟨10, 0, 0⟩ (1 / 2) = ⟨5, 0, 0⟩ ∧
      (updateAnimation exactGlm doubleClip twoSamplerObject (1 / 2) [1]).map
        (fun l => colVec3 (l.getD 0 1) 3) = some ⟨30, 0, 0⟩) := by
  refine ⟨⟨by norm_num [specLerp], ?_, fun T => mirror_not_rotation _ _ _⟩,
    by norm_num [specLerp], ?_⟩
  · rw [mirrorClip_run (1 / 2) (1 / 2) wrappedTime_half (by norm_num) (by norm_num)]
    norm_num
  · obtain ⟨result, hres, hval, -⟩ := updateAnimation_in_interval exactGlm doubleClip
      twoSamplerObject (1 / 2) [1] _ [⟨0, 0, "translation"⟩] [] ⟨1, 0, "translation"⟩
      ⟨[20, 0, 0, 40, 0, 0]⟩ ⟨[0, 1], [], 0⟩ 0 (1 / 2) ⟨20, 0, 0⟩ ⟨40, 0, 0⟩ rfl
      (by
        rw [List.foldlM_cons, (updateChannel_in_interval exactGlm doubleClip twoSamplerObject
          (1 / 2) [1] ⟨0, 0, "translation"⟩ ⟨[0, 0, 0, 10, 0, 0]⟩ ⟨[0, 1], [], 0⟩ 0 (1 / 2)
          ⟨0, 0, 0⟩ ⟨10, 0, 0⟩ (by decide) (by decide) (by rfl) (by rfl) (by decide)
          (by decide) wrappedTime_half (by norm_num) (by norm_num) (by decide)
          (by decide)).1 rfl]
        rfl)
      (fun l _ => ⟨l, rfl⟩) (Or.inl rfl) (by decide) (by decide) (by rfl) (by rfl)
      (by decide) (by decide) wrappedTime_half (by norm_num) (by norm_num) (by decide)
      (by decide)
    rw [hres, Option.map_some', show colVec3 (result.getD 0 1) 3 = _ from
      (hval rfl).1 (fun c hc => absurd hc (List.not_mem_nil c))]
    norm_num [mixVec3, mix]

/-- The whole of `updateAnimation` on `growClip` at time `1/2`: the scale `(2, 2, 2)` set
by the first channel and the translation `(5, 0, 0)` set by the second are both there at
the end. -/
theorem growClip_run :
    updateAnimation exactGlm growClip twoSamplerObject (1 / 2) [1] =
      some [composeTRS (⟨5, 0, 0⟩, ⟨0, 0, 0, 1⟩, ⟨2, 2, 2⟩)] := by
  have h1 := (updateChannel_in_interval exactGlm growClip twoSamplerObject (1 / 2) [1]
    ⟨0, 0, "scale"⟩ ⟨[1, 1, 1, 3, 3, 3]⟩ ⟨[0, 1], [], 0⟩ 0 (1 / 2) ⟨1, 1, 1⟩ ⟨3, 3, 3⟩
    (by decide) (by decide) (by rfl) (by rfl) (by decide) (by decide) wrappedTime_half
    (by norm_num) (by norm_num) (by decide) (by decide)).2 rfl
  obtain ⟨d1, d2, -⟩ := decompose_composeTRS exactGlm exactGlm_exact ⟨0, 0, 0⟩ ⟨0, 0, 0, 1⟩
    ⟨1, 1, 1⟩ (by norm_num [QuatOf.IsUnit]) (by norm_num) (by norm_num) (by norm_num)
  have hfirst : [(⟨0, 0, "scale"⟩ : Channel)].foldlM
      (updateChannel exactGlm growClip twoSamplerObject (1 / 2)) [1]
        = some [composeTRS (⟨0, 0, 0⟩, ⟨0, 0, 0, 1⟩, ⟨2, 2, 2⟩)] := by
    rw [List.foldlM_cons, h1]
    simp only [Int.toNat_zero, List.getD_cons_zero, List.set_cons_zero]
    rw [one_eq_composeTRS, d1, composeTRS_congr _ _ _ _ d2]
    norm_num [mixVec3, mix]
  have h2 := (updateChannel_in_interval exactGlm growClip twoSamplerObject (1 / 2)
    [composeTRS (⟨0, 0, 0⟩, ⟨0, 0, 0, 1⟩, ⟨2, 2, 2⟩)] ⟨1, 0, "translation"⟩
    ⟨[0, 0, 0, 10, 0, 0]⟩ ⟨[0, 1], [], 0⟩ 0 (1 / 2) ⟨0, 0, 0⟩ ⟨10, 0, 0⟩
    (by decide) (by decide) (by rfl) (by rfl) (by decide) (by decide) wrappedTime_half
    (by norm_num) (by norm_num) (by decide) (by decide)).1 rfl
  obtain ⟨-, e2, e3⟩ := decompose_composeTRS exactGlm exactGlm_exact ⟨0, 0, 0⟩ ⟨0, 0, 0, 1⟩
    ⟨2, 2, 2⟩ (by norm_num [QuatOf.IsUnit]) (by norm_num) (by norm_num) (by norm_num)
  rw [updateAnimation_split exactGlm growClip twoSamplerObject (1 / 2) [1]
    [⟨0, 0, "scale"⟩] [] ⟨1, 0, "translation"⟩ rfl, hfirst, Option.some_bind, h2]
  simp only [Int.toNat_zero, List.getD_cons_zero, List.set_cons_zero, Option.some_bind]
  rw [e3, composeTRS_congr _ _ _ _ e2]
  norm_num [mixVec3, mix]

theorem unitGlm_exact : GlmExact unitGlm :=
  ⟨exactGlm_exact.length_exact, exactGlm_exact.quat_cast_exact⟩

theorem unitGlm_normalize (q : Quat) : (unitGlm.normalize q).IsUnit := by
  show (if (exactGlm.normalize q).IsUnit then exactGlm.normalize q else ⟨0, 0, 0, 1⟩ :
    Quat).IsUnit
  split_ifs with h
  · exact h
  · norm_num [QuatOf.IsUnit]

/-- C5 (amended): for a translation or scale channel with strictly increasing timestamps
whose wrapped time `t` falls in `[times[k], times[k+1])`, `updateAnimation` returns when
the other channels return, and at its end the animated property is, component-wise,
`(1-f)*output[k] + f*output[k+1]` with `f = (t - times[k]) / (times[k+1] - times[k])`,
provided no later channel rewrites it.  For a translation channel: the translation column
of the node matrix holds this value when no later translation channel targets the node,
and the node matrix is `translate * rotate * scale` built from this value and the two
properties read back from the matrix when no later channel targets the node at all.  For
a scale channel: the node matrix is built from this value and the two properties read
back when no later channel targets the node at all; and when later channels other than
scale channels target the node, the node matrix is still `translate * rotate * scale`
with this value as its scale if the value is positive in every component and the node
transform before the channel is `translate(T0) * rotate(R0) * scale(S0)` with `R0` a unit
quaternion and `S0` positive, the glm operations being exact and `glm::normalize`
returning unit quaternions.  Keyframes at `t = 0` (translation `0`) and `t = 1`
(translation.x `10`) queried at time `1/2` give translation.x `5`; a scale channel from
`(1, 1, 1)` to `(3, 3, 3)` followed by that translation channel on the same node gives
the scale `(2, 2, 2)` and the translation `(5, 0, 0)`. -/
theorem updateAnimation_linear (lib : GlmLib) (anim : Animation)
    (animationObject : AnimationObject) (time : ℚ) (nodeTransforms before : List Mat4)
    (pre post : List Channel) (channel : Channel) (sampler : AnimationSampler)
    (samplerObject : SamplerObject) (k : Nat) (t : ℚ) (v0 v1 : Vec3)
    (hch : anim.channels = pre ++ channel :: post)
    (hpre : pre.foldlM (updateChannel lib anim animationObject time) nodeTransforms
      = some before)
    (hpost : ∀ l : List Mat4, l.length = nodeTransforms.length →
      ∃ l', post.foldlM (updateChannel lib anim animationObject time) l = some l')
    (hpath : channel.target_path = "translation" ∨ channel.target_path = "scale")
    (ht0 : 0 ≤ channel.target_node)
    (ht1 : channel.target_node < (nodeTransforms.length : Int))
    (hsampler : anim.samplers[channel.sampler]? = some sampler)
    (hobj : animationObject.samplers[channel.sampler]? = some samplerObject)
    (hs : samplerObject.input.Sorted (· < ·)) (hk : k + 1 < samplerObject.input.length)
    (hw : wrappedTime samplerObject.input time = some t)
    (h1 : samplerObject.input.getD k 0 ≤ t) (h2 : t < samplerObject.input.getD (k + 1) 0)
    (hv0 : readVec3 sampler.outputData k = some v0)
    (hv1 : readVec3 sampler.outputData ((k : Int) + 1) = some v1) :
    (∃ result, updateAnimation lib anim animationObject time nodeTransforms = some result ∧
      (channel.target_path = "translation" →
        ((∀ c ∈ post, c.target_node = channel.target_node → c.target_path ≠ "translation") →
          colVec3 (result.getD channel.target_node.toNat 1) 3 =
            specLerp v0 v1 (specFactor samplerObject.input k t)) ∧
        ((∀ c ∈ post, c.target_node ≠ channel.target_node) →
          result.getD channel.target_node.toNat 1 = composeTRS
            (specLerp v0 v1 (specFactor samplerObject.input k t),
              (decompose lib (before.getD channel.target_node.toNat 1)).2.1,
              (decompose lib (before.getD channel.target_node.toNat 1)).2.2))) ∧
      (channel.target_path = "scale" →
        ((∀ c ∈ post, c.target_node ≠ channel.target_node) →
          result.getD channel.target_node.toNat 1 = composeTRS
            ((decompose lib (before.getD channel.target_node.toNat 1)).1,
              (decompose lib (before.getD channel.target_node.toNat 1)).2.1,
              specLerp v0 v1 (specFactor samplerObject.input k t))) ∧
        (GlmExact lib → (∀ q, (lib.normalize q).IsUnit) →
          (∀ c ∈ post, c.target_node = channel.target_node → c.target_path ≠ "scale") →
          ∀ (T0 : Vec3) (R0 : Quat) (S0 : Vec3),
            before.getD channel.target_node.toNat 1 = composeTRS (T0, R0, S0) →
            R0.IsUnit → 0 < S0.x → 0 < S0.y → 0 < S0.z →
            0 < (specLerp v0 v1 (specFactor samplerObject.input k t)).x →
            0 < (specLerp v0 v1 (specFactor samplerObject.input k t)).y →
            0 < (specLerp v0 v1 (specFactor samplerObject.input k t)).z →
            ∃ (T' : Vec3) (R' : Quat), R'.IsUnit ∧
              result.getD channel.target_node.toNat 1 = composeTRS (T', R',
                specLerp v0 v1 (specFactor samplerObject.input k t))))) ∧
    (updateAnimation lib midpointClip midpointObject (1 / 2) [1]).map
      (fun l => (colVec3 (l.getD 0 1) 3).x) = some 5 ∧
    updateAnimation exactGlm growClip twoSamplerObject (1 / 2) [1] =
      some [composeTRS (⟨5, 0, 0⟩, ⟨0, 0, 0, 1⟩, ⟨2, 2, 2⟩)] := by
  have hsl : ∀ f, specLerp v0 v1 f = mixVec3 v0 v1 f := fun f =>
    (mixVec3_formula v0 v1 f).symm
  refine ⟨?_, ?_, growClip_run⟩
  · simp only [hsl, specFactor]
    exact updateAnimation_in_interval lib anim animationObject time nodeTransforms before pre
      post channel sampler samplerObject k t v0 v1 hch hpre hpost hpath ht0 ht1 hsampler hobj
      hs hk hw h1 h2 hv0 hv1
  · have hm := midpointClip_run lib midpointObject (1 / 2) (1 / 2) 0 1 rfl (by norm_num)
      wrappedTime_half (by norm_num) (by norm_num)
    rw [Option.map_eq_some'] at hm ⊢
    obtain ⟨l, hl, hc⟩ := hm
    exact ⟨l, hl, by rw [hc]; norm_num⟩

theorem updateAnimation_linear_witness :
    (GlmExact unitGlm ∧ ∀ q, (unitGlm.normalize q).IsUnit) ∧
    ((∃ result, updateAnimation unitGlm growClip twoSamplerObject (1 / 2) [1] = some result ∧
      ((⟨0, 0, "scale"⟩ : Channel).target_path = "translation" →
        ((∀ c ∈ [(⟨1, 0, "translation"⟩ : Channel)],
            c.target_node = (⟨0, 0, "scale"⟩ : Channel).target_node →
            c.target_path ≠ "translation") →
          colVec3 (result.getD (⟨0, 0, "scale"⟩ : Channel).target_node.toNat 1) 3 =
            specLerp ⟨1, 1, 1⟩ ⟨3, 3, 3⟩ (specFactor [0, 1] 0 (1 / 2))) ∧
        ((∀ c ∈ [(⟨1, 0, "translation"⟩ : Channel)],
            c.target_node ≠ (⟨0, 0, "scale"⟩ : Channel).target_node) →
          result.getD (⟨0, 0, "scale"⟩ : Channel).target_node.toNat 1 = composeTRS
            (specLerp ⟨1, 1, 1⟩ ⟨3, 3, 3⟩ (specFactor [0, 1] 0 (1 / 2)),
              (decompose unitGlm (([1] : List Mat4).getD
                (⟨0, 0, "scale"⟩ : Channel).target_node.toNat 1)).2.1,
              (decompose unitGlm (([1] : List Mat4).getD
                (⟨0, 0, "scale"⟩ : Channel).target_node.toNat 1)).2.2))) ∧
      ((⟨0, 0, "scale"⟩ : Channel).target_path = "scale" →
        ((∀ c ∈ [(⟨1, 0, "translation"⟩ : Channel)],
            c.target_node ≠ (⟨0, 0, "scale"⟩ : Channel).target_node) →
          result.getD (⟨0, 0, "scale"⟩ : Channel).target_node.toNat 1 = composeTRS
            ((decompose unitGlm (([1] : List Mat4).getD
                (⟨0, 0, "scale"⟩ : Channel).target_node.toNat 1)).1,
              (decompose unitGlm (([1] : List Mat4).getD
                (⟨0, 0, "scale"⟩ : Channel).target_node.toNat 1)).2.1,
              specLerp ⟨1, 1, 1⟩ ⟨3, 3, 3⟩ (specFactor [0, 1] 0 (1 / 2)))) ∧
        (GlmExact unitGlm → (∀ q, (unitGlm.normalize q).IsUnit) →
          (∀ c ∈ [(⟨1, 0, "translation"⟩ : Channel)],
            c.target_node = (⟨0, 0, "scale"⟩ : Channel).target_node →
            c.target_path ≠ "scale") →
          ∀ (T0 : Vec3) (R0 : Quat) (S0 : Vec3),
            ([1] : List Mat4).getD (⟨0, 0, "scale"⟩ : Channel).target_node.toNat 1
              = composeTRS (T0, R0, S0) →
            R0.IsUnit → 0 < S0.x → 0 < S0.y → 0 < S0.z →
            0 < (specLerp ⟨1, 1, 1⟩ ⟨3, 3, 3⟩ (specFactor [0, 1] 0 (1 / 2))).x →
            0 < (specLerp ⟨1, 1, 1⟩ ⟨3, 3, 3⟩ (specFactor [0, 1] 0 (1 / 2))).y →
            0 < (specLerp ⟨1, 1, 1⟩ ⟨3, 3, 3⟩ (specFactor [0, 1] 0 (1 / 2))).z →
            ∃ (T' : Vec3) (R' : Quat), R'.IsUnit ∧
              result.getD (⟨0, 0, "scale"⟩ : Channel).target_node.toNat 1 =
                composeTRS (T', R',
                  specLerp ⟨1, 1, 1⟩ ⟨3, 3, 3⟩ (specFactor [0, 1] 0 (1 / 2)))))) ∧
    (updateAnimation unitGlm midpointClip midpointObject (1 / 2) [1]).map
      (fun l => (colVec3 (l.getD 0 1) 3).x) = some 5 ∧
    updateAnimation exactGlm growClip twoSamplerObject (1 / 2) [1] =
      some [composeTRS (⟨5, 0, 0⟩, ⟨0, 0, 0, 1⟩, ⟨2, 2, 2⟩)]) :=
  ⟨⟨unitGlm_exact, unitGlm_normalize⟩,
    updateAnimation_linear unitGlm growClip twoSamplerObject (1 / 2) [1] [1] []
      [⟨1, 0, "translation"⟩] ⟨0, 0, "scale"⟩ ⟨[1, 1, 1, 3, 3, 3]⟩ ⟨[0, 1], [], 0⟩ 0 (1 / 2)
      ⟨1, 1, 1⟩ ⟨3, 3, 3⟩ rfl rfl
      (fun l hl => ⟨_, by
        rw [List.foldlM_cons, (updateChannel_in_interval unitGlm growClip twoSamplerObject
          (1 / 2) l ⟨1, 0, "translation"⟩ ⟨[0, 0, 0, 10, 0, 0]⟩ ⟨[0, 1], [], 0⟩ 0 (1 / 2)
          ⟨0, 0, 0⟩ ⟨10, 0, 0⟩ (by decide) (by rw [hl]; decide) (by rfl) (by rfl)
          (by decide) (by decide) wrappedTime_half (by norm_num) (by norm_num) (by decide)
          (by decide)).1 rfl]
        rfl⟩)
      (Or.inr rfl) (by decide) (by decide) (by rfl) (by rfl) (by decide) (by decide)
      wrappedTime_half (by norm_num) (by norm_num) (by decide) (by decide)⟩

/-- C6 (as stated) fails.  At the last keyframe time `1` of the clip `0 ↦ 0, 1 ↦ 10`
the translation after `updateAnimation` is the first keyframe value `0`, not
`output[1] = 10`.  In the clip with timestamps `-1, 1` the time `-1` of keyframe `0` gives
the midpoint `5`, not `output[0] = 0`.  And in `mirrorClip` at the keyframe time `0` the
scale channel has `output[0] = (-1, 1, 1)`, but after the translation channel that follows
the node matrix is built with the scale `(1, 1, 1)` and is not a mirror. -/
theorem last_keyframe_wraps_to_start :
    ((updateAnimation exactGlm midpointClip midpointObject 1 [1]).map
        (fun l => colVec3 (l.getD 0 1) 3) = some ⟨0, 0, 0⟩ ∧
      readVec3 [0, 0, 0, 10, 0, 0] 1 = some ⟨10, 0, 0⟩) ∧
    ((updateAnimation exactGlm midpointClip negativeStartObject (-1) [1]).map
        (fun l => colVec3 (l.getD 0 1) 3) = some ⟨5, 0, 0⟩ ∧
      readVec3 [0, 0, 0, 10, 0, 0] 0 = some ⟨0, 0, 0⟩) ∧
    (updateAnimation exactGlm mirrorClip twoSamplerObject 0 [1] =
        some [composeTRS (⟨0, 0, 0⟩, (decompose exactGlm mirroredTransform).2.1,
          ⟨1, 1, 1⟩)] ∧
      readVec3 [-1, 1, 1, -1, 1, 1] 0 = some ⟨-1, 1, 1⟩ ∧
      ∀ T : Vec3, composeTRS (⟨0, 0, 0⟩, (decompose exactGlm mirroredTransform).2.1,
          ⟨1, 1, 1⟩) ≠ composeTRS (T, ⟨0, 0, 0, 1⟩, ⟨-1, 1, 1⟩)) := by
  refine ⟨⟨?_, by decide⟩, ⟨?_, by decide⟩, ?_, by decide,
    fun T => mirror_not_rotation _ _ _⟩
  · have hw : wrappedTime [0, 1] 1 = some 0 := by
      have := wrappedTime_add_period [0, 1] 1 0 (by decide) le_rfl (by norm_num)
      simpa using this
    have := midpointClip_run exactGlm midpointObject 1 0 0 1 rfl (by norm_num) hw le_rfl
      (by norm_num)
    simpa using this
  · have hw : wrappedTime [-1, 1] (-1) = some 0 := by
      norm_num [wrappedTime, fmod]
    have := midpointClip_run exactGlm negativeStartObject (-1) 0 (-1) 1 rfl (by norm_num) hw
      (by norm_num) (by norm_num)
    rw [this]
    norm_num
  · have hw : wrappedTime [0, 1] 0 = some 0 :=
      wrappedTime_of_lt [0, 1] 0 (by decide) le_rfl (by norm_num)
    rw [mirrorClip_run 0 0 hw le_rfl (by norm_num)]
    norm_num

/-- C6 (amended): for a translation or scale channel with strictly increasing
timestamps and a keyframe index `k` other than the last one whose timestamp is
non-negative, `updateAnimation` at time `times[k]` returns when the other channels return,
and at its end the animated property is exactly `output[k]`, provided no later channel
rewrites it.  For a translation channel: the translation column of the node matrix is
`output[k]` when no later translation channel targets the node, and the node matrix is
`translate * rotate * scale` built from `output[k]` and the two properties read back from
the matrix when no later channel targets the node at all.  For a scale channel: the node
matrix is built from `output[k]` and the two properties read back when no later channel
targets the node at all; and when later channels other than scale channels target the
node, the node matrix is still `translate * rotate * scale` with the scale `output[k]` if
`output[k]` is positive in every component and the node transform before the channel is
`translate(T0) * rotate(R0) * scale(S0)` with `R0` a unit quaternion and `S0` positive,
the glm operations being exact and `glm::normalize` returning unit quaternions. -/
theorem updateAnimation_at_keyframe (lib : GlmLib) (anim : Animation)
    (animationObject : AnimationObject) (nodeTransforms before : List Mat4)
    (pre post : List Channel) (channel : Channel) (sampler : AnimationSampler)
    (samplerObject : SamplerObject) (k : Nat) (v0 v1 : Vec3)
    (hch : anim.channels = pre ++ channel :: post)
    (hpre : pre.foldlM (updateChannel lib anim animationObject (samplerObject.input.getD k 0))
      nodeTransforms = some before)
    (hpost : ∀ l : List Mat4, l.length = nodeTransforms.length →
      ∃ l', post.foldlM
        (updateChannel lib anim animationObject (samplerObject.input.getD k 0)) l = some l')
    (hpath : channel.target_path = "translation" ∨ channel.target_path = "scale")
    (ht0 : 0 ≤ channel.target_node)
    (ht1 : channel.target_node < (nodeTransforms.length : Int))
    (hsampler : anim.samplers[channel.sampler]? = some sampler)
    (hobj : animationObject.samplers[channel.sampler]? = some samplerObject)
    (hs : samplerObject.input.Sorted (· < ·)) (hk : k + 1 < samplerObject.input.length)
    (hnn : 0 ≤ samplerObject.input.getD k 0)
    (hv0 : readVec3 sampler.outputData k = some v0)
    (hv1 : readVec3 sampler.outputData ((k : Int) + 1) = some v1) :
    ∃ result, updateAnimation lib anim animationObject (samplerObject.input.getD k 0)
        nodeTransforms = some result ∧
      (channel.target_path = "translation" →
        ((∀ c ∈ post, c.target_node = channel.target_node → c.target_path ≠ "translation") →
          colVec3 (result.getD channel.target_node.toNat 1) 3 = v0) ∧
        ((∀ c ∈ post, c.target_node ≠ channel.target_node) →
          result.getD channel.target_node.toNat 1 = composeTRS
            (v0, (decompose lib (before.getD channel.target_node.toNat 1)).2.1,
              (decompose lib (before.getD channel.target_node.toNat 1)).2.2))) ∧
      (channel.target_path = "scale" →
        ((∀ c ∈ post, c.target_node ≠ channel.target_node) →
          result.getD channel.target_node.toNat 1 = composeTRS
            ((decompose lib (before.getD channel.target_node.toNat 1)).1,
              (decompose lib (before.getD channel.target_node.toNat 1)).2.1, v0)) ∧
        (GlmExact lib → (∀ q, (lib.normalize q).IsUnit) →
          (∀ c ∈ post, c.target_node = channel.target_node → c.target_path ≠ "scale") →
          ∀ (T0 : Vec3) (R0 : Quat) (S0 : Vec3),
            before.getD channel.target_node.toNat 1 = composeTRS (T0, R0, S0) →
            R0.IsUnit → 0 < S0.x → 0 < S0.y → 0 < S0.z →
            0 < v0.x → 0 < v0.y → 0 < v0.z →
            ∃ (T' : Vec3) (R' : Quat), R'.IsUnit ∧
              result.getD channel.target_node.toNat 1 = composeTRS (T', R', v0))) := by
  have hlt : samplerObject.input.getD k 0 <
      samplerObject.input.getD (samplerObject.input.length - 1) 0 :=
    sorted_getD_lt _ hs k _ (by omega) (by omega)
  have hw := wrappedTime_of_lt samplerObject.input _ (by omega) hnn hlt
  have h := updateAnimation_in_interval lib anim animationObject _ nodeTransforms before pre
    post channel sampler samplerObject k _ v0 v1 hch hpre hpost hpath ht0 ht1 hsampler hobj hs
    hk hw le_rfl (sorted_getD_lt _ hs k (k + 1) (Nat.lt_succ_self k) hk) hv0 hv1
  rw [sub_self, zero_div, mixVec3_zero] at h
  exact h

theorem updateAnimation_at_keyframe_witness :
    (GlmExact unitGlm ∧ ∀ q, (unitGlm.normalize q).IsUnit) ∧
    ∃ result, updateAnimation unitGlm growClip twoSamplerObject
        ((⟨[0, 1], [], 0⟩ : SamplerObject).input.getD 0 0) [1] = some result ∧
      ((⟨0, 0, "scale"⟩ : Channel).target_path = "translation" →
        ((∀ c ∈ [(⟨1, 0, "translation"⟩ : Channel)],
            c.target_node = (⟨0, 0, "scale"⟩ : Channel).target_node →
            c.target_path ≠ "translation") →
          colVec3 (result.getD (⟨0, 0, "scale"⟩ : Channel).target_node.toNat 1) 3
            = ⟨1, 1, 1⟩) ∧
        ((∀ c ∈ [(⟨1, 0, "translation"⟩ : Channel)],
            c.target_node ≠ (⟨0, 0, "scale"⟩ : Channel).target_node) →
          result.getD (⟨0, 0, "scale"⟩ : Channel).target_node.toNat 1 = composeTRS
            (⟨1, 1, 1⟩,
              (decompose unitGlm (([1] : List Mat4).getD
                (⟨0, 0, "scale"⟩ : Channel).target_node.toNat 1)).2.1,
              (decompose unitGlm (([1] : List Mat4).getD
                (⟨0, 0, "scale"⟩ : Channel).target_node.toNat 1)).2.2))) ∧
      ((⟨0, 0, "scale"⟩ : Channel).target_path = "scale" →
        ((∀ c ∈ [(⟨1, 0, "translation"⟩ : Channel)],
            c.target_node ≠ (⟨0, 0, "scale"⟩ : Channel).target_node) →
          result.getD (⟨0, 0, "scale"⟩ : Channel).target_node.toNat 1 = composeTRS
            ((decompose unitGlm (([1] : List Mat4).getD
                (⟨0, 0, "scale"⟩ : Channel).target_node.toNat 1)).1,
              (decompose unitGlm (([1] : List Mat4).getD
                (⟨0, 0, "scale"⟩ : Channel).target_node.toNat 1)).2.1, ⟨1, 1, 1⟩)) ∧
        (GlmExact unitGlm → (∀ q, (unitGlm.normalize q).IsUnit) →
          (∀ c ∈ [(⟨1, 0, "translation"⟩ : Channel)],
            c.target_node = (⟨0, 0, "scale"⟩ : Channel).target_node →
            c.target_path ≠ "scale") →
          ∀ (T0 : Vec3) (R0 : Quat) (S0 : Vec3),
            ([1] : List Mat4).getD (⟨0, 0, "scale"⟩ : Channel).target_node.toNat 1
              = composeTRS (T0, R0, S0) →
            R0.IsUnit → 0 < S0.x → 0 < S0.y → 0 < S0.z →
            0 < (⟨1, 1, 1⟩ : Vec3).x → 0 < (⟨1, 1, 1⟩ : Vec3).y → 0 < (⟨1, 1, 1⟩ : Vec3).z →
            ∃ (T' : Vec3) (R' : Quat), R'.IsUnit ∧
              result.getD (⟨0, 0, "scale"⟩ : Channel).target_node.toNat 1 =
                composeTRS (T', R', ⟨1, 1, 1⟩))) :=
  ⟨⟨unitGlm_exact, unitGlm_normalize⟩,
    updateAnimation_at_keyframe unitGlm growClip twoSamplerObject [1] [1] []
      [⟨1, 0, "translation"⟩] ⟨0, 0, "scale"⟩ ⟨[1, 1, 1, 3, 3, 3]⟩ ⟨[0, 1], [], 0⟩ 0
      ⟨1, 1, 1⟩ ⟨3, 3, 3⟩ rfl rfl
      (fun l hl => ⟨_, by
        show [(⟨1, 0, "translation"⟩ : Channel)].foldlM
          (updateChannel unitGlm growClip twoSamplerObject 0) l = _
        rw [List.foldlM_cons, (updateChannel_in_interval unitGlm growClip twoSamplerObject
          0 l ⟨1, 0, "translation"⟩ ⟨[0, 0, 0, 10, 0, 0]⟩ ⟨[0, 1], [], 0⟩ 0 0
          ⟨0, 0, 0⟩ ⟨10, 0, 0⟩ (by decide) (by rw [hl]; decide) (by rfl) (by rfl)
          (by decide) (by decide)
          (wrappedTime_of_lt [0, 1] 0 (by decide) le_rfl (by norm_num)) (by norm_num)
          (by norm_num) (by decide) (by decide)).1 rfl]
        rfl⟩)
      (Or.inr rfl) (by decide) (by decide) (by rfl) (by rfl) (by decide) (by decide)
      (by decide) (by decide) (by decide)⟩

/-! ## The interpolated rotation is a unit quaternion -/

/-- With a square root that is exact, `glm::normalize` returns a quaternion of norm `1`
for every input: the identity for a quaternion of length zero, `q / |q|` otherwise. -/
theorem normalizeQuat_normSq {K : Type} [LinearOrderedField K] (sqrt : K → K)
    (hsqrt : ∀ x : K, 0 ≤ x → 0 ≤ sqrt x ∧ sqrt x * sqrt x = x) (q : QuatOf K) :
    (normalizeQuat sqrt q).normSq = 1 := by
  have hn : 0 ≤ q.x * q.x + q.y * q.y + q.z * q.z + q.w * q.w := by
    nlinarith [mul_self_nonneg q.x, mul_self_nonneg q.y, mul_self_nonneg q.z,
      mul_self_nonneg q.w]
  obtain ⟨h0, h1⟩ := hsqrt _ hn
  unfold normalizeQuat
  simp only
  split_ifs with h
  · simp [QuatOf.normSq]
  · have hpos : 0 < sqrt (q.x * q.x + q.y * q.y + q.z * q.z + q.w * q.w) :=
      lt_of_not_le h
    have hne := ne_of_gt hpos
    simp only [QuatOf.normSq]
    field_simp
    linarith [h1]

/-- C13: the rotation quaternion that `updateAnimation` produces for a rotation channel,
`normalize(slerp(normalize(q0), normalize(q1), factor))` with the `glm::normalize`
algorithm, has norm `1` (its squared norm is `1`) over every ordered field of scalars with
an exact square root, such as the real numbers, whatever `glm::slerp` returns, for every
pair of keyframe quaternions (unit or not) and every interpolation factor. -/
theorem interpolateRotation_unit {K : Type} [LinearOrderedField K] (sqrt : K → K)
    (slerp : QuatOf K → QuatOf K → K → QuatOf K)
    (hsqrt : ∀ x : K, 0 ≤ x → 0 ≤ sqrt x ∧ sqrt x * sqrt x = x)
    (q0 q1 : QuatOf K) (factor : K) :
    (interpolateRotation (normalizeQuat sqrt) slerp q0 q1 factor).normSq = 1 :=
  normalizeQuat_normSq sqrt hsqrt _

theorem interpolateRotation_unit_witness :
    (∀ x : ℝ, 0 ≤ x → 0 ≤ Real.sqrt x ∧ Real.sqrt x * Real.sqrt x = x) ∧
    (interpolateRotation (normalizeQuat Real.sqrt)
      (fun a b t => ⟨a.x * (1 - t) + b.x * t, a.y * (1 - t) + b.y * t,
        a.z * (1 - t) + b.z * t, a.w * (1 - t) + b.w * t⟩)
      (⟨0, 0, 0, 1⟩ : QuatOf ℝ) ⟨1, 0, 0, 0⟩ (1 / 2)).normSq = 1 :=
  ⟨fun x hx => ⟨Real.sqrt_nonneg x, Real.mul_self_sqrt hx⟩,
    interpolateRotation_unit Real.sqrt
      (fun a b t => ⟨a.x * (1 - t) + b.x * t, a.y * (1 - t) + b.y * t,
        a.z * (1 - t) + b.z * t, a.w * (1 - t) + b.w * t⟩)
      (fun x hx => ⟨Real.sqrt_nonneg x, Real.mul_self_sqrt hx⟩) ⟨0, 0, 0, 1⟩ ⟨1, 0, 0, 0⟩
      (1 / 2)⟩

/-! ## Cloud elevation in `float` arithmetic -/

theorem hashSigned01_le (h : Nat) : hashSigned01 h ≤ 1 - 1 / 8388608 := by
  unfold hashSigned01
  rw [hash01_eq_mod]
  have hlt : h % 2 ^ 24 < 2 ^ 24 := Nat.mod_lt _ (by norm_num)
  have hq : ((h % 2 ^ 24 : Nat) : ℚ) ≤ 2 ^ 24 - 1 :=
    calc ((h % 2 ^ 24 : Nat) : ℚ) ≤ ((16777215 : Nat) : ℚ) := by
          exact_mod_cast (by omega : h % 2 ^ 24 ≤ 16777215)
      _ = 2 ^ 24 - 1 := by norm_num
  have : ((h % 2 ^ 24 : Nat) : ℚ) / 2 ^ 24 ≤ (2 ^ 24 - 1) / 2 ^ 24 :=
    div_le_div_of_nonneg_right hq (by norm_num)
  norm_num at this ⊢
  linarith

/-- The exact product of line 1116 and its rounding to `float` both lie in `[-70, 70)`;
the rounded one is at most the last `float` below `70`. -/
theorem yJitter_range (h : Nat) :
    (-70 ≤ yJitter h ∧ yJitter h < 70) ∧
      -70 ≤ f32 (yJitter h) ∧ f32 (yJitter h) ≤ 70 - 1 / 131072 := by
  have h0 := (hashSigned01_range (mulAdd32 h 1597334677 3812015801)).1
  have h1 := hashSigned01_le (mulAdd32 h 1597334677 3812015801)
  have hy0 : -70 ≤ yJitter h := by unfold yJitter CLOUD_LAYER_BLEND; linarith
  have hy1 : yJitter h ≤ 70 - 70 / 8388608 := by unfold yJitter CLOUD_LAYER_BLEND; linarith
  refine ⟨⟨hy0, by linarith⟩, ?_, ?_⟩
  · exact le_f32 _ _ (-70) 0 (by norm_num) (by norm_num) (by norm_num) hy0
  · exact f32_le _ _ 9175039 (-17) (by norm_num) (by norm_num) (by norm_num)
      (by linarith)

/-- The two closed elevation bands of `cloudY`. -/
theorem cloudY_range (h : Nat) :
    (baseLayer h = 160 ∧ 90 ≤ cloudY h ∧ cloudY h ≤ 230) ∨
      (baseLayer h = 330 ∧ 260 ≤ cloudY h ∧ cloudY h ≤ 400) := by
  obtain ⟨-, j0, j1⟩ := yJitter_range h
  unfold cloudY
  by_cases hc : layerPick h < 55 / 100
  · have hb : baseLayer h = 160 := by
      unfold baseLayer CLOUD_LAYER_LOW; rw [if_pos hc]
    left
    rw [hb]
    exact ⟨rfl, by
      have := le_f32 (160 + f32 (yJitter h)) 90 90 0 (by norm_num) (by norm_num) (by norm_num)
        (by linarith)
      exact this, by
      have := f32_le (160 + f32 (yJitter h)) 230 230 0 (by norm_num) (by norm_num)
        (by norm_num) (by linarith)
      exact this⟩
  · have hb : baseLayer h = 330 := by
      unfold baseLayer CLOUD_LAYER_HIGH; rw [if_neg hc]
    right
    rw [hb]
    exact ⟨rfl, by
      have := le_f32 (330 + f32 (yJitter h)) 260 260 0 (by norm_num) (by norm_num)
        (by norm_num) (by linarith)
      exact this, by
      have := f32_le (330 + f32 (yJitter h)) 400 400 0 (by norm_num) (by norm_num)
        (by norm_num) (by linarith)
      exact this⟩

theorem f32_zero : f32 0 = 0 := by
  unfold f32
  rw [if_pos rfl]

/-- The rounded quotient floors to the exact floor or to the next integer. -/
theorem baseTile_bounds (x : ℚ) (hx : |x| ≤ 1400 * 16777215) :
    ⌊x / 1400⌋ ≤ ⌊f32 (x / 1400)⌋ ∧ ⌊f32 (x / 1400)⌋ ≤ ⌊x / 1400⌋ + 1 := by
  have hq : |x / 1400| ≤ 16777215 := by
    rw [abs_div, abs_of_pos (by norm_num : (0 : ℚ) < 1400), div_le_iff₀ (by norm_num)]
    linarith
  obtain ⟨q0, q1⟩ := abs_le.mp hq
  have hn0 : -16777215 ≤ ⌊x / 1400⌋ := Int.le_floor.mpr (by push_cast; linarith)
  have hn1 : ⌊x / 1400⌋ ≤ 16777215 := Int.floor_le_iff.mpr (by push_cast; linarith)
  constructor
  · refine Int.le_floor.mpr ?_
    exact int_le_f32 _ _ (by rw [abs_le]; constructor <;> omega) (Int.floor_le _)
  · refine Int.floor_le_iff.mpr ?_
    have := f32_le_int (x / 1400) (⌊x / 1400⌋ + 1) (by rw [abs_le]; constructor <;> omega)
      (by push_cast; exact (Int.lt_floor_add_one _).le)
    push_cast at this ⊢
    linarith

/-- A camera coordinate from `0` to `1225` lies in the tile `0`. -/
theorem baseTile_zero (x : ℚ) (h0 : 0 ≤ x) (h1 : x ≤ 1225) : ⌊f32 (x / 1400)⌋ = 0 := by
  have a := le_f32 (x / 1400) 0 0 0 (by norm_num) (by norm_num) (by norm_num)
    (div_nonneg h0 (by norm_num))
  have b := f32_le (x / 1400) (7 / 8) 7 (-3) (by norm_num) (by norm_num) (by norm_num)
    (by rw [div_le_iff₀ (by norm_num)]; linarith)
  rw [Int.floor_eq_iff]
  constructor
  · simpa using a
  · norm_num; linarith

/-- The tile coordinates that a sweep visits. -/
theorem mem_renderCloudField_coords (trig : TrigLib) (eye lc : Vec3) (t : ℚ) (x z : Int) :
    (x, z) ∈ (renderCloudField trig eye lc t).map (fun d => (d.cx, d.cz)) ↔
      (⌊f32 (eye.x / 1400)⌋ - 5 ≤ x ∧ x ≤ ⌊f32 (eye.x / 1400)⌋ + 5) ∧
        (⌊f32 (eye.z / 1400)⌋ - 5 ≤ z ∧ z ≤ ⌊f32 (eye.z / 1400)⌋ + 5) := by
  rw [renderCloudField_coords]
  simp only [List.mem_flatMap, List.mem_map, mem_loopOffsets, Prod.mk.injEq, CLOUD_SPACING,
    CLOUD_RADIUS]
  constructor
  · rintro ⟨dz, hdz, dx, hdx, rfl, rfl⟩
    push_cast at hdz hdx
    constructor <;> constructor <;> omega
  · rintro ⟨⟨hx0, hx1⟩, hz0, hz1⟩
    refine ⟨z - ⌊f32 (eye.z / 1400)⌋, by push_cast; omega, x - ⌊f32 (eye.x / 1400)⌋,
      by push_cast; omega, by omega, by omega⟩

/-- C20 (as stated) fails.  The camera coordinate `x = 183502192` is a `float`; the
exact quotient `x / 1400 = 131072.99...` has the floor `131072`, but the `float` quotient
is `131073.0`, so the sweep (all of whose `int` values are in range) is centred on the
tile `131073`: it visits the column `131078` and not the column `131067` of the square
around `floor(x / 1400)`.  For the camera coordinate `1400 * 2^31`, also a `float`, the
base tile `2^31` does not fit an `int`. -/
theorem sweep_base_rounds_up :
    f32 183502192 = 183502192 ∧
    ⌊(183502192 : ℚ) / 1400⌋ = 131072 ∧
    ⌊f32 ((183502192 : ℚ) / 1400)⌋ = 131073 ∧
    (∀ (trig : TrigLib) (lc : Vec3) (t y : ℚ),
      SweepInRange ⟨183502192, y, 0⟩ ∧
      ((131078, 0) : Int × Int) ∈
        (renderCloudField trig ⟨183502192, y, 0⟩ lc t).map (fun d => (d.cx, d.cz)) ∧
      ((131067, 0) : Int × Int) ∉
        (renderCloudField trig ⟨183502192, y, 0⟩ lc t).map (fun d => (d.cx, d.cz))) ∧
    f32 (1400 * 2147483648) = 1400 * 2147483648 ∧
    ⌊f32 ((1400 * 2147483648 : ℚ) / 1400)⌋ = 2147483648 ∧
    ¬ FitsInt ⌊f32 ((1400 * 2147483648 : ℚ) / 1400)⌋ ∧
    ¬ SweepInRange ⟨1400 * 2147483648, 0, 0⟩ := by
  have h1 : f32 183502192 = 183502192 := by
    have := f32_float 11468887 4 (by norm_num) (by norm_num)
    norm_num at this
    exact this
  have h2 : ⌊(183502192 : ℚ) / 1400⌋ = 131072 := by
    rw [Int.floor_eq_iff]; norm_num
  have h3 : f32 ((183502192 : ℚ) / 1400) = 131073 := by
    rw [f32_eq _ 17 8388672 (by norm_num) (by rw [abs_of_pos (by norm_num)]; norm_num)
      (by rw [abs_of_pos (by norm_num)]; norm_num) (by norm_num) (by norm_num)]
    norm_num
  have h4 : ⌊f32 ((183502192 : ℚ) / 1400)⌋ = 131073 := by
    rw [h3]; exact Int.floor_intCast 131073
  have h5 : f32 (1400 * 2147483648) = 1400 * 2147483648 := by
    have := f32_float 175 34 (by norm_num) (by norm_num)
    norm_num at this ⊢
    exact this
  have h6 : f32 ((1400 * 2147483648 : ℚ) / 1400) = 2147483648 := by
    have := f32_float 1 31 (by norm_num) (by norm_num)
    norm_num at this ⊢
    exact this
  have h7 : ⌊f32 ((1400 * 2147483648 : ℚ) / 1400)⌋ = 2147483648 := by
    rw [h6]; exact Int.floor_intCast 2147483648
  have hz : ⌊f32 ((0 : ℚ) / 1400)⌋ = 0 := by
    rw [zero_div, f32_zero, Int.floor_zero]
  refine ⟨h1, h2, h4, ?_, h5, h7, ?_, ?_⟩
  · intro trig lc t y
    refine ⟨?_, ?_, ?_⟩
    · simp only [SweepInRange, CLOUD_SPACING, CLOUD_RADIUS, h4, hz]
      decide
    · rw [mem_renderCloudField_coords]
      simp only [h4, hz]
      decide
    · rw [mem_renderCloudField_coords]
      simp only [h4, hz]
      decide
  · rw [h7]; decide
  · simp only [SweepInRange, CLOUD_SPACING, CLOUD_RADIUS, h7]
    decide

/-- C20 (amended): for every camera position at which the `int` values of the sweep are
in range, one sweep visits exactly `(2*5+1)^2 = 121` pairwise distinct tile coordinates,
all of which fit an `int`, namely the square `{baseX-5..baseX+5} × {baseZ-5..baseZ+5}`
whose base is per axis the floor of the `float` quotient `camera / 1400`; for camera
coordinates up to `1400 * 16777215` in size this base is `floor(camera / 1400)` or the
next integer (the square is centred on `(0, 0)` for a camera above the origin), and
every visited coordinate yields its one cloud transform and either no character transform
or its one character transform. -/
theorem renderCloudField_sweep_in_range (trig : TrigLib) (eye lc : Vec3) (t : ℚ)
    (hr : SweepInRange eye) :
    (renderCloudField trig eye lc t).length = (2 * 5 + 1) ^ 2 ∧
    ((renderCloudField trig eye lc t).map (fun d => (d.cx, d.cz))).Nodup ∧
    (∀ x z : Int, (x, z) ∈ (renderCloudField trig eye lc t).map (fun d => (d.cx, d.cz)) ↔
      (⌊f32 (eye.x / 1400)⌋ - 5 ≤ x ∧ x ≤ ⌊f32 (eye.x / 1400)⌋ + 5) ∧
        (⌊f32 (eye.z / 1400)⌋ - 5 ≤ z ∧ z ≤ ⌊f32 (eye.z / 1400)⌋ + 5)) ∧
    (∀ d ∈ renderCloudField trig eye lc t, FitsInt d.cx ∧ FitsInt d.cz) ∧
    (|eye.x| ≤ 1400 * 16777215 →
      ⌊eye.x / 1400⌋ ≤ ⌊f32 (eye.x / 1400)⌋ ∧ ⌊f32 (eye.x / 1400)⌋ ≤ ⌊eye.x / 1400⌋ + 1) ∧
    (|eye.z| ≤ 1400 * 16777215 →
      ⌊eye.z / 1400⌋ ≤ ⌊f32 (eye.z / 1400)⌋ ∧ ⌊f32 (eye.z / 1400)⌋ ≤ ⌊eye.z / 1400⌋ + 1) ∧
    (∀ x z : Int,
      (x, z) ∈ (renderCloudField trig ⟨0, eye.y, 0⟩ lc t).map (fun d => (d.cx, d.cz)) ↔
        (-5 ≤ x ∧ x ≤ 5) ∧ (-5 ≤ z ∧ z ≤ 5)) ∧
    (∀ d ∈ renderCloudField trig eye lc t,
      d.cloudM = cloudModel trig d.cx d.cz (hash2i d.cx d.cz) ∧
      (d.botM = none ∨
        d.botM = some (botModel trig lc t d.cx d.cz (hash2i d.cx d.cz)))) := by
  refine ⟨?_, ?_, mem_renderCloudField_coords trig eye lc t, ?_, baseTile_bounds eye.x,
    baseTile_bounds eye.z, ?_, ?_⟩
  · have := congrArg List.length (renderCloudField_coords trig eye lc t)
    rw [List.length_map] at this
    rw [this, loopOffsets_radius]
    rfl
  · rw [renderCloudField_coords]
    exact grid_nodup _ _ _ _ (loopOffsets_nodup _) (loopOffsets_nodup _)
  · intro d hd
    have hm := (mem_renderCloudField_coords trig eye lc t d.cx d.cz).mp
      (mem_renderCloudField trig eye lc t d hd).2
    simp only [SweepInRange, FitsInt, CLOUD_SPACING, CLOUD_RADIUS] at hr ⊢
    push_cast at hr
    obtain ⟨⟨⟨a1, a2⟩, a3, a4⟩, ⟨b1, b2⟩, b3, b4⟩ := hr
    obtain ⟨⟨c1, c2⟩, c3, c4⟩ := hm
    constructor <;> constructor <;> omega
  · intro x z
    rw [mem_renderCloudField_coords]
    simp only [zero_div, f32_zero, Int.floor_zero]
    simp
  · intro d hd
    have h := (mem_renderCloudField trig eye lc t d hd).1
    constructor
    · rw [h]; rfl
    · rw [h]
      simp only [cloudFieldTile]
      split_ifs
      · left; rfl
      · right; rfl

theorem renderCloudField_sweep_in_range_witness :
    SweepInRange ⟨0, 150, 800⟩ ∧
    ((renderCloudField sampleTrig ⟨0, 150, 800⟩ ⟨0, 0, 0⟩ 0).length = (2 * 5 + 1) ^ 2 ∧
    ((renderCloudField sampleTrig ⟨0, 150, 800⟩ ⟨0, 0, 0⟩ 0).map
      (fun d => (d.cx, d.cz))).Nodup ∧
    (∀ x z : Int, (x, z) ∈ (renderCloudField sampleTrig ⟨0, 150, 800⟩ ⟨0, 0, 0⟩ 0).map
        (fun d => (d.cx, d.cz)) ↔
      (⌊f32 ((⟨0, 150, 800⟩ : Vec3).x / 1400)⌋ - 5 ≤ x ∧
          x ≤ ⌊f32 ((⟨0, 150, 800⟩ : Vec3).x / 1400)⌋ + 5) ∧
        (⌊f32 ((⟨0, 150, 800⟩ : Vec3).z / 1400)⌋ - 5 ≤ z ∧
          z ≤ ⌊f32 ((⟨0, 150, 800⟩ : Vec3).z / 1400)⌋ + 5)) ∧
    (∀ d ∈ renderCloudField sampleTrig ⟨0, 150, 800⟩ ⟨0, 0, 0⟩ 0,
      FitsInt d.cx ∧ FitsInt d.cz) ∧
    (|(⟨0, 150, 800⟩ : Vec3).x| ≤ 1400 * 16777215 →
      ⌊(⟨0, 150, 800⟩ : Vec3).x / 1400⌋ ≤ ⌊f32 ((⟨0, 150, 800⟩ : Vec3).x / 1400)⌋ ∧
        ⌊f32 ((⟨0, 150, 800⟩ : Vec3).x / 1400)⌋ ≤ ⌊(⟨0, 150, 800⟩ : Vec3).x / 1400⌋ + 1) ∧
    (|(⟨0, 150, 800⟩ : Vec3).z| ≤ 1400 * 16777215 →
      ⌊(⟨0, 150, 800⟩ : Vec3).z / 1400⌋ ≤ ⌊f32 ((⟨0, 150, 800⟩ : Vec3).z / 1400)⌋ ∧
        ⌊f32 ((⟨0, 150, 800⟩ : Vec3).z / 1400)⌋ ≤ ⌊(⟨0, 150, 800⟩ : Vec3).z / 1400⌋ + 1) ∧
    (∀ x z : Int,
      (x, z) ∈ (renderCloudField sampleTrig ⟨0, (⟨0, 150, 800⟩ : Vec3).y, 0⟩ ⟨0, 0, 0⟩ 0).map
          (fun d => (d.cx, d.cz)) ↔
        (-5 ≤ x ∧ x ≤ 5) ∧ (-5 ≤ z ∧ z ≤ 5)) ∧
    (∀ d ∈ renderCloudField sampleTrig ⟨0, 150, 800⟩ ⟨0, 0, 0⟩ 0,
      d.cloudM = cloudModel sampleTrig d.cx d.cz (hash2i d.cx d.cz) ∧
      (d.botM = none ∨
        d.botM = some (botModel sampleTrig ⟨0, 0, 0⟩ 0 d.cx d.cz (hash2i d.cx d.cz))))) :=
  have hr : SweepInRange ⟨0, 150, 800⟩ := by
    simp only [SweepInRange, CLOUD_SPACING, CLOUD_RADIUS,
      baseTile_zero 0 le_rfl (by norm_num), baseTile_zero 800 (by norm_num) (by norm_num)]
    decide
  ⟨hr, renderCloudField_sweep_in_range sampleTrig ⟨0, 150, 800⟩ ⟨0, 0, 0⟩ 0 hr⟩

/-! ## The light direction follows the camera -/

/-- The rounded offset of a camera position whose exact offset from the light's reference
position has integer components up to `2 ^ 24` in size. -/
theorem subRounded_lightPosition (c : Vec3) (x y z : Int) (hx : c.x + 275 = x)
    (hy : c.y - 500 = y) (hz : c.z - 800 = z) (bx : |x| ≤ 2 ^ 24) (bY : |y| ≤ 2 ^ 24)
    (bz : |z| ≤ 2 ^ 24) : c.subRounded lightPosition = ⟨x, y, z⟩ := by
  simp only [Vec3.subRounded, lightPosition, sub_neg_eq_add, hx, hy, hz]
  rw [f32_intCast x bx, f32_intCast y bY, f32_intCast z bz]

/-- The light direction at a camera position whose rounded offset from the light's
reference position is `v` with `|v| = s`, under the exact inverse square root. -/
theorem lightDir_exact (c : Vec3) (s : ℚ) (hs : 0 ≤ s)
    (h : dot (c.subRounded lightPosition) (c.subRounded lightPosition) = s * s) :
    lightDir exactInverseSqrt c = (c.subRounded lightPosition).mulScalar (1 / s) := by
  unfold lightDir normalizeVec3
  rw [h, exactInverseSqrt_sq s hs]

/-- The light direction at the camera position `(25, 500, 1200)`. -/
theorem lightDir_sample : lightDir exactInverseSqrt ⟨25, 500, 1200⟩ = ⟨3 / 5, 0, 4 / 5⟩ := by
  have hv := subRounded_lightPosition ⟨25, 500, 1200⟩ 300 0 400 (by norm_num) (by norm_num)
    (by norm_num) (by norm_num) (by norm_num) (by norm_num)
  rw [lightDir_exact ⟨25, 500, 1200⟩ 500 (by norm_num) (by rw [hv]; norm_num [dot]), hv]
  norm_num [Vec3.mulScalar]

/-- C21 (as stated) fails: the light direction is not the same for all camera
positions.  With the exact inverse square root the camera at `(25, 500, 1200)` has the
light direction `(3/5, 0, 4/5)` and the camera at `(-275, 800, 1200)` has
`(0, 3/5, 4/5)`; both positions differ from the light position. -/
theorem light_direction_varies :
    (⟨25, 500, 1200⟩ : Vec3) ≠ lightPosition ∧ (⟨-275, 800, 1200⟩ : Vec3) ≠ lightPosition ∧
      lightDir exactInverseSqrt ⟨25, 500, 1200⟩ = ⟨3 / 5, 0, 4 / 5⟩ ∧
      lightDir exactInverseSqrt ⟨-275, 800, 1200⟩ = ⟨0, 3 / 5, 4 / 5⟩ ∧
      lightDir exactInverseSqrt ⟨25, 500, 1200⟩ ≠
        lightDir exactInverseSqrt ⟨-275, 800, 1200⟩ := by
  have h1 := lightDir_sample
  have h2 : lightDir exactInverseSqrt ⟨-275, 800, 1200⟩ = ⟨0, 3 / 5, 4 / 5⟩ := by
    have hv := subRounded_lightPosition ⟨-275, 800, 1200⟩ 0 300 400 (by norm_num)
      (by norm_num) (by norm_num) (by norm_num) (by norm_num) (by norm_num)
    rw [lightDir_exact ⟨-275, 800, 1200⟩ 500 (by norm_num) (by rw [hv]; norm_num [dot]), hv]
    norm_num [Vec3.mulScalar]
  refine ⟨by decide, by decide, h1, h2, ?_⟩
  rw [h1, h2]
  intro h
  have := congrArg Vec3.x h
  norm_num at this

/-- With a positive inverse square root every component of the light direction has the
sign of the same component of the rounded offset. -/
theorem lightDir_signs (inversesqrt : ℚ → ℚ) (c : Vec3)
    (h : 0 < inversesqrt (dot (c.subRounded lightPosition) (c.subRounded lightPosition))) :
    ((0 < (lightDir inversesqrt c).x ↔ 0 < (c.subRounded lightPosition).x) ∧
      ((lightDir inversesqrt c).x < 0 ↔ (c.subRounded lightPosition).x < 0)) ∧
    ((0 < (lightDir inversesqrt c).y ↔ 0 < (c.subRounded lightPosition).y) ∧
      ((lightDir inversesqrt c).y < 0 ↔ (c.subRounded lightPosition).y < 0)) ∧
    ((0 < (lightDir inversesqrt c).z ↔ 0 < (c.subRounded lightPosition).z) ∧
      ((lightDir inversesqrt c).z < 0 ↔ (c.subRounded lightPosition).z < 0)) := by
  unfold lightDir normalizeVec3
  simp only [Vec3.mulScalar]
  refine ⟨⟨?_, ?_⟩, ⟨?_, ?_⟩, ?_, ?_⟩
  · exact ⟨fun k => (pos_iff_pos_of_mul_pos k).mpr h, fun k => mul_pos k h⟩
  · exact ⟨fun k => by
      by_contra hn
      exact absurd k (not_lt.mpr (mul_nonneg (not_lt.mp hn) h.le)),
      fun k => mul_neg_of_neg_of_pos k h⟩
  · exact ⟨fun k => (pos_iff_pos_of_mul_pos k).mpr h, fun k => mul_pos k h⟩
  · exact ⟨fun k => by
      by_contra hn
      exact absurd k (not_lt.mpr (mul_nonneg (not_lt.mp hn) h.le)),
      fun k => mul_neg_of_neg_of_pos k h⟩
  · exact ⟨fun k => (pos_iff_pos_of_mul_pos k).mpr h, fun k => mul_pos k h⟩
  · exact ⟨fun k => by
      by_contra hn
      exact absurd k (not_lt.mpr (mul_nonneg (not_lt.mp hn) h.le)),
      fun k => mul_neg_of_neg_of_pos k h⟩

/-- C21 (amended): the light direction used by `computeLightVP` is not fixed.  It is the
normalized offset of the camera position from the light's reference position
`(-275, 500, 800)`, the offset being rounded to `float`, and the light view is placed
`2000` units before the camera along it.  Two camera positions with the same rounded
offset have the same light direction.  Where the inverse square roots of the two
normalisations are positive, the direction of a camera with a non-zero offset has a
positive scalar product with the offset, every component of the direction has the sign of
the same component of the offset, and so two camera positions have the same light
direction only if their offsets agree in the sign of every component: a camera to the
left and one to the right of the reference position, or one level with it and one above
it, get different light directions. -/
theorem lightDir_follows_offset (inversesqrt : ℚ → ℚ) (c₁ c₂ : Vec3)
    (h₁ : 0 < inversesqrt (dot (c₁.subRounded lightPosition) (c₁.subRounded lightPosition)))
    (h₂ : 0 < inversesqrt (dot (c₂.subRounded lightPosition) (c₂.subRounded lightPosition)))
    (hne : c₁.subRounded lightPosition ≠ ⟨0, 0, 0⟩) :
    lightDir inversesqrt c₁ = (c₁.subRounded lightPosition).mulScalar
        (inversesqrt (dot (c₁.subRounded lightPosition) (c₁.subRounded lightPosition))) ∧
      lightPos inversesqrt c₁ = c₁.sub ((lightDir inversesqrt c₁).mulScalar 2000) ∧
      (c₁.subRounded lightPosition = c₂.subRounded lightPosition →
        lightDir inversesqrt c₁ = lightDir inversesqrt c₂) ∧
      0 < dot (lightDir inversesqrt c₁) (c₁.subRounded lightPosition) ∧
      (lightDir inversesqrt c₁ = lightDir inversesqrt c₂ →
        ((0 < (c₁.subRounded lightPosition).x ↔ 0 < (c₂.subRounded lightPosition).x) ∧
          ((c₁.subRounded lightPosition).x < 0 ↔ (c₂.subRounded lightPosition).x < 0)) ∧
        ((0 < (c₁.subRounded lightPosition).y ↔ 0 < (c₂.subRounded lightPosition).y) ∧
          ((c₁.subRounded lightPosition).y < 0 ↔ (c₂.subRounded lightPosition).y < 0)) ∧
        ((0 < (c₁.subRounded lightPosition).z ↔ 0 < (c₂.subRounded lightPosition).z) ∧
          ((c₁.subRounded lightPosition).z < 0 ↔ (c₂.subRounded lightPosition).z < 0))) := by
  refine ⟨rfl, rfl, ?_, ?_, ?_⟩
  · intro h
    unfold lightDir
    rw [h]
  · unfold lightDir normalizeVec3
    rw [dot_mulScalar_left]
    exact mul_pos h₁ (dot_self_pos _ hne)
  · intro heq
    obtain ⟨⟨a1, a2⟩, ⟨a3, a4⟩, a5, a6⟩ := lightDir_signs inversesqrt c₁ h₁
    obtain ⟨⟨b1, b2⟩, ⟨b3, b4⟩, b5, b6⟩ := lightDir_signs inversesqrt c₂ h₂
    rw [heq] at a1 a2 a3 a4 a5 a6
    exact ⟨⟨a1.symm.trans b1, a2.symm.trans b2⟩, ⟨a3.symm.trans b3, a4.symm.trans b4⟩,
      a5.symm.trans b5, a6.symm.trans b6⟩

theorem lightDir_follows_offset_witness :
    lightDir exactInverseSqrt ⟨0, 150, 800⟩ =
        ((⟨0, 150, 800⟩ : Vec3).subRounded lightPosition).mulScalar
          (exactInverseSqrt (dot ((⟨0, 150, 800⟩ : Vec3).subRounded lightPosition)
            ((⟨0, 150, 800⟩ : Vec3).subRounded lightPosition))) ∧
      lightPos exactInverseSqrt ⟨0, 150, 800⟩ = (⟨0, 150, 800⟩ : Vec3).sub
        ((lightDir exactInverseSqrt ⟨0, 150, 800⟩).mulScalar 2000) ∧
      ((⟨0, 150, 800⟩ : Vec3).subRounded lightPosition =
          (⟨-575, 500, 400⟩ : Vec3).subRounded lightPosition →
        lightDir exactInverseSqrt ⟨0, 150, 800⟩ = lightDir exactInverseSqrt ⟨-575, 500, 400⟩) ∧
      0 < dot (lightDir exactInverseSqrt ⟨0, 150, 800⟩)
        ((⟨0, 150, 800⟩ : Vec3).subRounded lightPosition) ∧
      (lightDir exactInverseSqrt ⟨0, 150, 800⟩ = lightDir exactInverseSqrt ⟨-575, 500, 400⟩ →
        ((0 < ((⟨0, 150, 800⟩ : Vec3).subRounded lightPosition).x ↔
            0 < ((⟨-575, 500, 400⟩ : Vec3).subRounded lightPosition).x) ∧
          (((⟨0, 150, 800⟩ : Vec3).subRounded lightPosition).x < 0 ↔
            ((⟨-575, 500, 400⟩ : Vec3).subRounded lightPosition).x < 0)) ∧
        ((0 < ((⟨0, 150, 800⟩ : Vec3).subRounded lightPosition).y ↔
            0 < ((⟨-575, 500, 400⟩ : Vec3).subRounded lightPosition).y) ∧
          (((⟨0, 150, 800⟩ : Vec3).subRounded lightPosition).y < 0 ↔
            ((⟨-575, 500, 400⟩ : Vec3).subRounded lightPosition).y < 0)) ∧
        ((0 < ((⟨0, 150, 800⟩ : Vec3).subRounded lightPosition).z ↔
            0 < ((⟨-575, 500, 400⟩ : Vec3).subRounded lightPosition).z) ∧
          (((⟨0, 150, 800⟩ : Vec3).subRounded lightPosition).z < 0 ↔
            ((⟨-575, 500, 400⟩ : Vec3).subRounded lightPosition).z < 0))) :=
  lightDir_follows_offset exactInverseSqrt ⟨0, 150, 800⟩ ⟨-575, 500, 400⟩
    (exactInverseSqrt_pos _ (by
      rw [subRounded_lightPosition ⟨0, 150, 800⟩ 275 (-350) 0 (by norm_num) (by norm_num)
        (by norm_num) (by norm_num) (by norm_num) (by norm_num)]
      norm_num [dot]))
    (exactInverseSqrt_pos _ (by
      rw [subRounded_lightPosition ⟨-575, 500, 400⟩ (-300) 0 (-400) (by norm_num)
        (by norm_num) (by norm_num) (by norm_num) (by norm_num) (by norm_num)]
      norm_num [dot]))
    (by
      rw [subRounded_lightPosition ⟨0, 150, 800⟩ 275 (-350) 0 (by norm_num) (by norm_num)
        (by norm_num) (by norm_num) (by norm_num) (by norm_num)]
      intro h
      have := congrArg Vec3.x h
      norm_num at this)

/-! ## The light volume under accurate normalisation -/

theorem abs_dot_le_of (a b : Vec3) (r : ℚ) (hr : 0 ≤ r) (h : dot a a * dot b b ≤ r ^ 2) :
    |dot a b| ≤ r :=
  abs_le_of_sq_le_sq ((dot_sq_le a b).trans h) hr

theorem dot_self_nonneg (a : Vec3) : 0 ≤ dot a a := by
  unfold dot
  nlinarith [mul_self_nonneg a.x, mul_self_nonneg a.y, mul_self_nonneg a.z]

/-- The vector from the light position to the camera position is `2000` times the light
direction. -/
theorem sub_lightPos (inversesqrt : ℚ → ℚ) (c : Vec3) :
    c.sub (lightPos inversesqrt c) = (lightDir inversesqrt c).mulScalar 2000 := by
  simp only [lightPos, Vec3.sub, Vec3.mulScalar]
  refine vec3_ext _ _ ?_ ?_ ?_ <;> simp only <;> ring

/-- The side and up axes of the light view are orthogonal to the light direction, whatever
the inverse square root returns. -/
theorem lightView_orthogonal (inversesqrt : ℚ → ℚ) (c : Vec3) :
    dot (lookAtSide inversesqrt (lightPos inversesqrt c) c ⟨0, 1, 0⟩)
        (lightDir inversesqrt c) = 0 ∧
      dot (lookAtUp inversesqrt (lightPos inversesqrt c) c ⟨0, 1, 0⟩)
        (lightDir inversesqrt c) = 0 := by
  unfold lookAtUp lookAtSide lookAtForward normalizeVec3
  rw [sub_lightPos]
  generalize lightDir inversesqrt c = d
  constructor
  · simp only [dot, cross, Vec3.mulScalar]; ring
  · simp only [dot, cross, Vec3.mulScalar]; ring

/-- The light-view coordinates of a point, whatever the inverse square root returns: the
lateral offsets are measured from the camera position along the side and up axes, the
depth is the offset from the camera along the forward axis plus the distance of the camera
from the light position along it. -/
theorem lightView_point (inversesqrt : ℚ → ℚ) (c p : Vec3) :
    transformPoint (lightView inversesqrt c) p =
      ⟨dot (lookAtSide inversesqrt (lightPos inversesqrt c) c ⟨0, 1, 0⟩) (p.sub c),
        dot (lookAtUp inversesqrt (lightPos inversesqrt c) c ⟨0, 1, 0⟩) (p.sub c),
        -(dot (lookAtForward inversesqrt (lightPos inversesqrt c) c) (p.sub c) +
          2000 * dot (lookAtForward inversesqrt (lightPos inversesqrt c) c)
            (lightDir inversesqrt c)), 1⟩ := by
  obtain ⟨h1, h2⟩ := lightView_orthogonal inversesqrt c
  unfold lightView
  rw [transformPoint_lookAt, dot_sub_lightPos, dot_sub_lightPos, dot_sub_lightPos, h1, h2]
  simp only [Vec4.mk.injEq]
  refine ⟨by ring, by ring, trivial, trivial⟩

/-- Under accurate normalisation the squared lengths of the light direction and of the
three axes of the light view are within two percent of `1`, and the camera lies between
`1980` and `2020` before the light position along the forward axis. -/
theorem lightView_lengths (inversesqrt : ℚ → ℚ) (c : Vec3)
    (hacc : LightViewAccurate inversesqrt c) :
    dot (lookAtSide inversesqrt (lightPos inversesqrt c) c ⟨0, 1, 0⟩)
        (lookAtSide inversesqrt (lightPos inversesqrt c) c ⟨0, 1, 0⟩) ≤ 101 / 100 ∧
      dot (lookAtUp inversesqrt (lightPos inversesqrt c) c ⟨0, 1, 0⟩)
        (lookAtUp inversesqrt (lightPos inversesqrt c) c ⟨0, 1, 0⟩) ≤ 10201 / 10000 ∧
      dot (lookAtForward inversesqrt (lightPos inversesqrt c) c)
        (lookAtForward inversesqrt (lightPos inversesqrt c) c) ≤ 101 / 100 ∧
      1980 ≤ 2000 * dot (lookAtForward inversesqrt (lightPos inversesqrt c) c)
        (lightDir inversesqrt c) ∧
      2000 * dot (lookAtForward inversesqrt (lightPos inversesqrt c) c)
        (lightDir inversesqrt c) ≤ 2020 := by
  obtain ⟨⟨a0, a1, a2⟩, ⟨b0, b1, b2⟩, ⟨g0, g1, g2⟩⟩ := hacc
  -- the light direction
  have hd : dot (lightDir inversesqrt c) (lightDir inversesqrt c) =
      inversesqrt (dot (c.subRounded lightPosition) (c.subRounded lightPosition)) *
        inversesqrt (dot (c.subRounded lightPosition) (c.subRounded lightPosition)) *
        dot (c.subRounded lightPosition) (c.subRounded lightPosition) := by
    unfold lightDir normalizeVec3
    simp only [dot, Vec3.mulScalar]; ring
  rw [← hd] at a1 a2
  -- the squared distance of the camera from the light position
  have hx : dot (c.sub (lightPos inversesqrt c)) (c.sub (lightPos inversesqrt c)) =
      4000000 * dot (lightDir inversesqrt c) (lightDir inversesqrt c) := by
    rw [sub_lightPos]
    simp only [dot, Vec3.mulScalar]; ring
  -- the forward axis
  have hf : dot (lookAtForward inversesqrt (lightPos inversesqrt c) c)
      (lookAtForward inversesqrt (lightPos inversesqrt c) c) =
      inversesqrt (dot (c.sub (lightPos inversesqrt c)) (c.sub (lightPos inversesqrt c))) *
        inversesqrt (dot (c.sub (lightPos inversesqrt c)) (c.sub (lightPos inversesqrt c))) *
        dot (c.sub (lightPos inversesqrt c)) (c.sub (lightPos inversesqrt c)) := by
    unfold lookAtForward normalizeVec3
    simp only [dot, Vec3.mulScalar]; ring
  have hfd : 2000 * dot (lookAtForward inversesqrt (lightPos inversesqrt c) c)
      (lightDir inversesqrt c) =
      inversesqrt (dot (c.sub (lightPos inversesqrt c)) (c.sub (lightPos inversesqrt c))) *
        dot (c.sub (lightPos inversesqrt c)) (c.sub (lightPos inversesqrt c)) := by
    unfold lookAtForward normalizeVec3
    rw [dot_mulScalar_left, sub_lightPos]
    generalize inversesqrt (dot ((lightDir inversesqrt c).mulScalar 2000)
      ((lightDir inversesqrt c).mulScalar 2000)) = β
    simp only [dot, Vec3.mulScalar]; ring
  -- the side axis
  have hs : dot (lookAtSide inversesqrt (lightPos inversesqrt c) c ⟨0, 1, 0⟩)
      (lookAtSide inversesqrt (lightPos inversesqrt c) c ⟨0, 1, 0⟩) =
      inversesqrt (dot (cross (lookAtForward inversesqrt (lightPos inversesqrt c) c) ⟨0, 1, 0⟩)
          (cross (lookAtForward inversesqrt (lightPos inversesqrt c) c) ⟨0, 1, 0⟩)) *
        inversesqrt (dot (cross (lookAtForward inversesqrt (lightPos inversesqrt c) c)
            ⟨0, 1, 0⟩)
          (cross (lookAtForward inversesqrt (lightPos inversesqrt c) c) ⟨0, 1, 0⟩)) *
        dot (cross (lookAtForward inversesqrt (lightPos inversesqrt c) c) ⟨0, 1, 0⟩)
          (cross (lookAtForward inversesqrt (lightPos inversesqrt c) c) ⟨0, 1, 0⟩) := by
    unfold lookAtSide normalizeVec3
    generalize cross (lookAtForward inversesqrt (lightPos inversesqrt c) c) ⟨0, 1, 0⟩ = v
    simp only [dot, Vec3.mulScalar]; ring
  have hsf : dot (lookAtSide inversesqrt (lightPos inversesqrt c) c ⟨0, 1, 0⟩)
      (lookAtForward inversesqrt (lightPos inversesqrt c) c) = 0 := by
    unfold lookAtSide normalizeVec3
    rw [dot_mulScalar_left, dot_cross_left, mul_zero]
  have hu : dot (lookAtUp inversesqrt (lightPos inversesqrt c) c ⟨0, 1, 0⟩)
      (lookAtUp inversesqrt (lightPos inversesqrt c) c ⟨0, 1, 0⟩) =
      dot (lookAtSide inversesqrt (lightPos inversesqrt c) c ⟨0, 1, 0⟩)
          (lookAtSide inversesqrt (lightPos inversesqrt c) c ⟨0, 1, 0⟩) *
        dot (lookAtForward inversesqrt (lightPos inversesqrt c) c)
          (lookAtForward inversesqrt (lightPos inversesqrt c) c) := by
    unfold lookAtUp
    rw [dot_cross_self, hsf]
    ring
  have hX0 : 3960000 ≤ dot (c.sub (lightPos inversesqrt c)) (c.sub (lightPos inversesqrt c)) := by
    rw [hx]; linarith
  have hX1 : dot (c.sub (lightPos inversesqrt c)) (c.sub (lightPos inversesqrt c)) ≤ 4040000 := by
    rw [hx]; linarith
  rw [hu, hs, hf, hfd]
  generalize inversesqrt (dot (c.sub (lightPos inversesqrt c))
    (c.sub (lightPos inversesqrt c))) = β at b0 b1 b2 ⊢
  generalize dot (c.sub (lightPos inversesqrt c)) (c.sub (lightPos inversesqrt c)) = X
    at b1 b2 hX0 hX1 ⊢
  generalize inversesqrt (dot (cross (lookAtForward inversesqrt (lightPos inversesqrt c) c)
      ⟨0, 1, 0⟩)
    (cross (lookAtForward inversesqrt (lightPos inversesqrt c) c) ⟨0, 1, 0⟩)) *
    inversesqrt (dot (cross (lookAtForward inversesqrt (lightPos inversesqrt c) c)
      ⟨0, 1, 0⟩)
    (cross (lookAtForward inversesqrt (lightPos inversesqrt c) c) ⟨0, 1, 0⟩)) *
    dot (cross (lookAtForward inversesqrt (lightPos inversesqrt c) c) ⟨0, 1, 0⟩)
      (cross (lookAtForward inversesqrt (lightPos inversesqrt c) c) ⟨0, 1, 0⟩) = S
    at g1 g2 ⊢
  have hpos : 0 < β * X := mul_pos b0 (by linarith)
  have hsq : (β * X) ^ 2 = (β * β * X) * X := by ring
  refine ⟨g2, ?_, b2, ?_, ?_⟩
  · calc S * (β * β * X) ≤ (101 / 100) * (101 / 100) :=
          mul_le_mul g2 b2 (by linarith) (by norm_num)
      _ = 10201 / 10000 := by norm_num
  · have h2 : (1980 : ℚ) ^ 2 ≤ (β * X) ^ 2 := by
      rw [hsq]
      calc (1980 : ℚ) ^ 2 = (99 / 100) * 3960000 := by norm_num
        _ ≤ (β * β * X) * X := mul_le_mul b1 hX0 (by norm_num) (by linarith)
    by_contra hcon
    push_neg at hcon
    nlinarith
  · have h2 : (β * X) ^ 2 ≤ (2020 : ℚ) ^ 2 := by
      rw [hsq]
      calc (β * β * X) * X ≤ (101 / 100) * 4040000 :=
            mul_le_mul b2 hX1 (by linarith) (by norm_num)
        _ = (2020 : ℚ) ^ 2 := by norm_num
    by_contra hcon
    push_neg at hcon
    nlinarith

/-- The value of `Rat.sqrt` at a fraction in lowest terms, from the integer square roots
of its numerator and denominator. -/
theorem rat_sqrt_div (n d a b : Nat) (hd : 0 < d) (hcop : Nat.Coprime n d)
    (ha : a * a ≤ n ∧ n < (a + 1) * (a + 1)) (hb : b * b ≤ d ∧ d < (b + 1) * (b + 1)) :
    Rat.sqrt ((n : ℚ) / d) = (a : ℚ) / b := by
  have hnum : ((n : ℚ) / d).num = n := by
    have := Rat.num_div_eq_of_coprime (a := (n : Int)) (b := (d : Int)) (by exact_mod_cast hd)
      (by simpa using hcop)
    simpa using this
  have hden : ((n : ℚ) / d).den = d := by
    have := Rat.den_div_eq_of_coprime (a := (n : Int)) (b := (d : Int)) (by exact_mod_cast hd)
      (by simpa using hcop)
    have h2 : ((((n : Int) : ℚ) / ((d : Int) : ℚ)).den : Int) = (d : Int) := this
    simp only [Int.cast_natCast] at h2
    exact_mod_cast h2
  unfold Rat.sqrt
  rw [hnum, hden, Int.sqrt_natCast, ← Nat.eq_sqrt.mpr ha, ← Nat.eq_sqrt.mpr hb,
    Rat.mkRat_eq_div]
  push_cast
  rfl

/-- At the start camera `(0, 150, 800)` of the program the rounded offset from the light's
reference position is `(275, -350, 0)`. -/
theorem startCamera_offset :
    (⟨0, 150, 800⟩ : Vec3).subRounded lightPosition = ⟨275, -350, 0⟩ := by
  have := subRounded_lightPosition ⟨0, 150, 800⟩ 275 (-350) 0 (by norm_num) (by norm_num)
    (by norm_num) (by norm_num) (by norm_num) (by norm_num)
  simpa using this

/-- At the start camera the inverse square root `1 / Rat.sqrt` is accurate within one
percent at the three places where `computeLightVP` takes it, although none of the three
squared lengths but the last is the square of a rational number. -/
theorem startCamera_accurate : LightViewAccurate exactInverseSqrt ⟨0, 150, 800⟩ := by
  have e1 : exactInverseSqrt 198125 = 1 / 445 := by
    unfold exactInverseSqrt
    have : Rat.sqrt 198125 = 445 := by
      have := rat_sqrt_div 198125 1 445 1 (by norm_num) (by norm_num) (by norm_num)
        (by norm_num)
      simpa using this
    rw [this]
  have hd : lightDir exactInverseSqrt ⟨0, 150, 800⟩ = ⟨55 / 89, -70 / 89, 0⟩ := by
    unfold lightDir normalizeVec3
    rw [startCamera_offset, show dot (⟨275, -350, 0⟩ : Vec3) ⟨275, -350, 0⟩ = 198125 by
      norm_num [dot], e1]
    norm_num [Vec3.mulScalar]
  have hsub : (⟨0, 150, 800⟩ : Vec3).sub (lightPos exactInverseSqrt ⟨0, 150, 800⟩) =
      ⟨110000 / 89, -140000 / 89, 0⟩ := by
    rw [sub_lightPos, hd]
    norm_num [Vec3.mulScalar]
  have hx : dot (⟨110000 / 89, -140000 / 89, 0⟩ : Vec3) ⟨110000 / 89, -140000 / 89, 0⟩ =
      ((31700000000 : Nat) : ℚ) / ((7921 : Nat) : ℚ) := by
    norm_num [dot]
  have e2 : exactInverseSqrt (((31700000000 : Nat) : ℚ) / ((7921 : Nat) : ℚ)) = 89 / 178044 := by
    unfold exactInverseSqrt
    rw [rat_sqrt_div 31700000000 7921 178044 89 (by norm_num) (by norm_num) (by norm_num)
      (by norm_num)]
    norm_num
  have hf : lookAtForward exactInverseSqrt (lightPos exactInverseSqrt ⟨0, 150, 800⟩)
      ⟨0, 150, 800⟩ = ⟨27500 / 44511, -35000 / 44511, 0⟩ := by
    unfold lookAtForward normalizeVec3
    rw [hsub, hx, e2]
    norm_num [Vec3.mulScalar]
  have hc : cross (⟨27500 / 44511, -35000 / 44511, 0⟩ : Vec3) ⟨0, 1, 0⟩ =
      ⟨0, 0, 27500 / 44511⟩ := by
    norm_num [cross]
  refine ⟨?_, ?_, ?_⟩
  · rw [startCamera_offset, show dot (⟨275, -350, 0⟩ : Vec3) ⟨275, -350, 0⟩ = 198125 by
      norm_num [dot]]
    unfold AccurateAt
    rw [e1]
    norm_num
  · rw [hsub, hx]
    unfold AccurateAt
    rw [e2]
    norm_num
  · rw [hf, hc, show dot (⟨0, 0, 27500 / 44511⟩ : Vec3) ⟨0, 0, 27500 / 44511⟩ =
      (27500 / 44511) * (27500 / 44511) by norm_num [dot]]
    unfold AccurateAt
    rw [exactInverseSqrt_sq _ (by norm_num)]
    norm_num

/-- At the camera position `(25, 500, 1200)` the three normalisations are exact. -/
theorem lightView_sample_exact : LightViewExact exactInverseSqrt ⟨25, 500, 1200⟩ := by
  have hpos : lightPos exactInverseSqrt ⟨25, 500, 1200⟩ = ⟨-1175, 500, -400⟩ := by
    unfold lightPos
    rw [lightDir_sample]
    norm_num [Vec3.sub, Vec3.mulScalar]
  have hf : lookAtForward exactInverseSqrt ⟨-1175, 500, -400⟩ ⟨25, 500, 1200⟩
      = ⟨3 / 5, 0, 4 / 5⟩ := by
    unfold lookAtForward normalizeVec3
    rw [show dot ((⟨25, 500, 1200⟩ : Vec3).sub ⟨-1175, 500, -400⟩)
        ((⟨25, 500, 1200⟩ : Vec3).sub ⟨-1175, 500, -400⟩) = 2000 * 2000 by
      norm_num [dot, Vec3.sub], exactInverseSqrt_sq 2000 (by norm_num)]
    norm_num [Vec3.sub, Vec3.mulScalar]
  have hs : lookAtSide exactInverseSqrt ⟨-1175, 500, -400⟩ ⟨25, 500, 1200⟩ ⟨0, 1, 0⟩
      = ⟨-4 / 5, 0, 3 / 5⟩ := by
    unfold lookAtSide normalizeVec3
    rw [hf, show dot (cross (⟨3 / 5, 0, 4 / 5⟩ : Vec3) ⟨0, 1, 0⟩)
        (cross (⟨3 / 5, 0, 4 / 5⟩ : Vec3) ⟨0, 1, 0⟩) = 1 * 1 by
      norm_num [dot, cross], exactInverseSqrt_sq 1 (by norm_num)]
    norm_num [cross, Vec3.mulScalar]
  refine ⟨?_, ?_, ?_⟩
  · rw [lightDir_sample]; norm_num [dot]
  · rw [hpos, hf, lightDir_sample]
  · rw [hpos, hs]; norm_num [dot]

/-- Under accurate normalisation every world position within distance `1900` of the camera
position lies inside the light volume, at a depth between `70` and `3930`. -/
theorem inside_of_near (inversesqrt : ℚ → ℚ) (c p : Vec3)
    (hacc : LightViewAccurate inversesqrt c)
    (hp : dot (p.sub c) (p.sub c) ≤ 1900 ^ 2) :
    InsideLightVolume inversesqrt c p ∧
      70 ≤ -(transformPoint (lightView inversesqrt c) p).z ∧
      -(transformPoint (lightView inversesqrt c) p).z ≤ 3930 := by
  obtain ⟨hS, hU, hF, hD0, hD1⟩ := lightView_lengths inversesqrt c hacc
  have hw := dot_self_nonneg (p.sub c)
  have h1 := abs_dot_le_of (lookAtSide inversesqrt (lightPos inversesqrt c) c ⟨0, 1, 0⟩)
    (p.sub c) 1910 (by norm_num)
    (by
      calc _ ≤ (101 / 100 : ℚ) * 1900 ^ 2 := mul_le_mul hS hp hw (by norm_num)
        _ ≤ 1910 ^ 2 := by norm_num)
  have h2 := abs_dot_le_of (lookAtUp inversesqrt (lightPos inversesqrt c) c ⟨0, 1, 0⟩)
    (p.sub c) 1919 (by norm_num)
    (by
      calc _ ≤ (10201 / 10000 : ℚ) * 1900 ^ 2 := mul_le_mul hU hp hw (by norm_num)
        _ ≤ 1919 ^ 2 := by norm_num)
  have h3 := abs_le.mp (abs_dot_le_of (lookAtForward inversesqrt (lightPos inversesqrt c) c)
    (p.sub c) 1910 (by norm_num)
    (by
      calc _ ≤ (101 / 100 : ℚ) * 1900 ^ 2 := mul_le_mul hF hp hw (by norm_num)
        _ ≤ 1910 ^ 2 := by norm_num))
  unfold InsideLightVolume
  rw [lightView_point inversesqrt c p]
  simp only [neg_neg, lightExtent, nearP, farP, CLOUD_SPACING, CLOUD_RADIUS]
  refine ⟨⟨h1.trans (by norm_num), h2.trans (by norm_num), ?_, ?_⟩, ?_, ?_⟩
  · linarith [h3.1]
  · linarith [h3.2]
  · linarith [h3.1]
  · linarith [h3.2]

theorem sub_self_dot (c : Vec3) : dot (c.sub c) (c.sub c) = 0 := by
  simp [dot, Vec3.sub]

/-- The world position of the tile `(0, 0)`. -/
theorem tileWorld_origin :
    (tileWorld 0 0 (hash2i 0 0)).x = 721053375 / 2097152 ∧
      (90 ≤ (tileWorld 0 0 (hash2i 0 0)).y ∧ (tileWorld 0 0 (hash2i 0 0)).y ≤ 400) ∧
      (tileWorld 0 0 (hash2i 0 0)).z = 350596575 / 1048576 := by
  have hh : hash2i 0 0 = 292984781 := by decide
  have hx : hash01 (mulAdd32 292984781 747796405 2891336453) = (11135478 : Nat) / 16777216 :=
    hash01_of_low _ _ (by decide)
  have hz : hash01 (mulAdd32 292984781 277803737 15485863) = (11059820 : Nat) / 16777216 :=
    hash01_of_low _ _ (by decide)
  rw [hh]
  refine ⟨?_, ?_, ?_⟩
  · simp only [tileWorld, jitterX, hashSigned01, hx, CLOUD_SPACING]
    norm_num
  · simp only [tileWorld]
    rcases cloudY_range 292984781 with ⟨-, h0, h1⟩ | ⟨-, h0, h1⟩
    · exact ⟨h0, by linarith⟩
    · exact ⟨by linarith, h1⟩
  · simp only [tileWorld, jitterZ, hashSigned01, hz, CLOUD_SPACING]
    norm_num

end MyBot
